import Mathlib

/-!
# go-guerrilla SMTP server core: embedding of `server.go` and `auth/auth.go`

Byte strings (`[]byte` and Go `string`) are lists of natural numbers; a byte is a
value below 256.  Every definition is total on lists of naturals, so a statement
proved for all lists holds for all byte strings.

The file has three layers:

* the pieces of the Go standard library that the sources call
  (`bytes.Index`, `bytes.ToUpper`, `strings.Split`, `base64.StdEncoding`, ...);
* the allowed-hosts table and the file credential store;
* `handleClient`, as a function `tick` that performs one iteration of the
  session loop on an explicit session state.
-/

namespace Guerrilla

/-- A Go byte slice or string. -/
abbrev Bytes := List Nat

/-- The bytes of an ASCII literal. -/
def ascii (s : String) : Bytes := s.toList.map Char.toNat

/-! ## Go standard library -/

/-- Index of the first occurrence of `sep` in `s` counted from `i`, or `-1`
(`bytes.Index`, `strings.Index`). -/
def indexFrom (sep : Bytes) : Bytes → Int → Int
  | [], i => if sep = [] then i else -1
  | c :: rest, i => if sep <+: (c :: rest) then i else indexFrom sep rest (i + 1)

/-- Go `bytes.Index(s, sep)`. -/
def bytesIndex (s sep : Bytes) : Int := indexFrom sep s 0

/-- Go `strings.Contains(s, sub)`: `strings.Index(s, sub) >= 0`. -/
def stringsContains (s sub : Bytes) : Bool := decide (0 ≤ bytesIndex s sub)

/-- Go `strings.Split` / `bytes.Split` with a one-byte separator, the only form
the sources use; `cur` is the field being read. -/
def splitAux (sep : Nat) : Bytes → Bytes → List Bytes
  | [], cur => [cur]
  | c :: rest, cur => if c = sep then cur :: splitAux sep rest [] else splitAux sep rest (cur ++ [c])

/-- Go `strings.Split(s, string(sep))`. -/
def split (s : Bytes) (sep : Nat) : List Bytes := splitAux sep s []

/-- Go slice expression `s[k:]`; `none` is the run-time panic
"slice bounds out of range". -/
def sliceFrom (s : Bytes) (k : Nat) : Option Bytes :=
  if k ≤ s.length then some (s.drop k) else none

/-- Go index expression `xs[i]`; `none` is the run-time panic "index out of range". -/
def index {α : Type} (xs : List α) (i : Nat) : Option α := xs.get? i

/-- ASCII upper-casing of one byte: `if 'a' <= c && c <= 'z' { c -= 'a' - 'A' }`. -/
def upperByte (c : Nat) : Nat := if 97 ≤ c ∧ c ≤ 122 then c - 32 else c

/-- ASCII lower-casing of one byte: `if 'A' <= c && c <= 'Z' { c += 'a' - 'A' }`. -/
def lowerByte (c : Nat) : Nat := if 65 ≤ c ∧ c ≤ 90 then c + 32 else c

/-- Continuation byte test of `utf8.DecodeRune`: `0x80 <= b <= 0xBF` narrowed to `lo..hi`. -/
def inRange (lo hi b : Nat) : Bool := decide (lo ≤ b ∧ b ≤ hi)

/-- Go `utf8.DecodeRune` on a non-empty input: the rune and its width.  An invalid
or truncated encoding yields `(RuneError, 1)` with `RuneError = 0xFFFD`. -/
def decodeRune : Bytes → Nat × Nat
  | [] => (0xFFFD, 0)
  | b0 :: rest =>
    if b0 < 0x80 then (b0, 1)
    else if 0xC2 ≤ b0 ∧ b0 ≤ 0xDF then
      match rest with
      | b1 :: _ => if inRange 0x80 0xBF b1 then ((b0 % 0x20) * 0x40 + b1 % 0x40, 2) else (0xFFFD, 1)
      | _ => (0xFFFD, 1)
    else if 0xE0 ≤ b0 ∧ b0 ≤ 0xEF then
      match rest with
      | b1 :: b2 :: _ =>
        let lo := if b0 = 0xE0 then 0xA0 else 0x80
        let hi := if b0 = 0xED then 0x9F else 0xBF
        if inRange lo hi b1 && inRange 0x80 0xBF b2 then
          ((b0 % 0x10) * 0x1000 + (b1 % 0x40) * 0x40 + b2 % 0x40, 3)
        else (0xFFFD, 1)
      | _ => (0xFFFD, 1)
    else if 0xF0 ≤ b0 ∧ b0 ≤ 0xF4 then
      match rest with
      | b1 :: b2 :: b3 :: _ =>
        let lo := if b0 = 0xF0 then 0x90 else 0x80
        let hi := if b0 = 0xF4 then 0x8F else 0xBF
        if inRange lo hi b1 && inRange 0x80 0xBF b2 && inRange 0x80 0xBF b3 then
          ((b0 % 0x08) * 0x40000 + (b1 % 0x40) * 0x1000 + (b2 % 0x40) * 0x40 + b3 % 0x40, 4)
        else (0xFFFD, 1)
      | _ => (0xFFFD, 1)
    else (0xFFFD, 1)

/-- Go `utf8.AppendRune` / the conversion `string(rune)`: the UTF-8 encoding of a
code point; surrogates and values above `MaxRune` encode `RuneError`. -/
def encodeRune (r : Nat) : Bytes :=
  if r ≤ 0x7F then [r]
  else if r ≤ 0x7FF then [0xC0 + r / 0x40, 0x80 + r % 0x40]
  else if r > 0x10FFFF ∨ (0xD800 ≤ r ∧ r ≤ 0xDFFF) then [0xEF, 0xBF, 0xBD]
  else if r ≤ 0xFFFF then [0xE0 + r / 0x1000, 0x80 + (r / 0x40) % 0x40, 0x80 + r % 0x40]
  else [0xF0 + r / 0x40000, 0x80 + (r / 0x1000) % 0x40, 0x80 + (r / 0x40) % 0x40, 0x80 + r % 0x40]

/-- Go `bytes.Map` / `strings.Map` for a mapping that never drops a rune: decode
one rune, map it, append its encoding, advance by the decoded width.  The
second argument counts the bytes of the current rune that are still to be
passed over. -/
def mapRunes (mapping : Nat → Nat) : Bytes → Nat → Bytes
  | [], _ => []
  | b :: rest, 0 =>
    let rw := if b ≥ 0x80 then decodeRune (b :: rest) else (b, 1)
    encodeRune (mapping rw.1) ++ mapRunes mapping rest (rw.2 - 1)
  | _ :: rest, k + 1 => mapRunes mapping rest k

/-- Go `unicode.ToUpper`: the ASCII range is handled in place, every other rune
goes through the case tables `unicode.To(UpperCase, r)`, here the parameter `tbl`. -/
def unicodeToUpper (tbl : Nat → Nat) (r : Nat) : Nat :=
  if r ≤ 0x7F then upperByte r else tbl r

/-- Go `unicode.ToLower`, with the case tables as the parameter `tbl`. -/
def unicodeToLower (tbl : Nat → Nat) (r : Nat) : Nat :=
  if r ≤ 0x7F then lowerByte r else tbl r

/-- Go `bytes.ToUpper`: an all-ASCII input is upper-cased byte by byte (copied
when it has no lower-case letter), any other input goes through `bytes.Map`. -/
def bytesToUpper (tbl : Nat → Nat) (s : Bytes) : Bytes :=
  if s.all (fun c => decide (c < 0x80)) then
    if s.any (fun c => decide (97 ≤ c ∧ c ≤ 122)) then s.map upperByte else s
  else mapRunes (unicodeToUpper tbl) s 0

/-- Go `strings.ToLower`. -/
def stringsToLower (tbl : Nat → Nat) (s : Bytes) : Bytes :=
  if s.all (fun c => decide (c < 0x80)) then
    if s.any (fun c => decide (65 ≤ c ∧ c ≤ 90)) then s.map lowerByte else s
  else mapRunes (unicodeToLower tbl) s 0

/-- The decode map of `base64.StdEncoding`: the value of an alphabet byte. -/
def b64Value (c : Nat) : Option Nat :=
  if 65 ≤ c ∧ c ≤ 90 then some (c - 65)
  else if 97 ≤ c ∧ c ≤ 122 then some (c - 71)
  else if 48 ≤ c ∧ c ≤ 57 then some (c + 4)
  else if c = 43 then some 62
  else if c = 47 then some 63
  else none

/-- The first `dlen - 1` bytes of the 24-bit value assembled from the (up to
four) sextets of a quantum; missing sextets count as zero. -/
def b64Emit (q : List Nat) (dlen : Nat) : Bytes :=
  let val := q.getD 0 0 * 0x40000 + q.getD 1 0 * 0x1000 + q.getD 2 0 * 0x40 + q.getD 3 0
  [(val / 0x10000) % 0x100, (val / 0x100) % 0x100, val % 0x100].take (dlen - 1)

/-- Skips `\r` and `\n`, as the decoder does around padding. -/
def b64SkipNewlines : Bytes → Bytes
  | [] => []
  | c :: rest => if c = 10 ∨ c = 13 then b64SkipNewlines rest else c :: rest

/-- The loop of `Encoding.Decode` over `decodeQuantum` for `StdEncoding` (padding
`=`, not strict): `q` holds the sextets of the quantum being read, `acc` the
bytes decoded so far; `none` is a `CorruptInputError`. -/
def b64Loop : Bytes → List Nat → Bytes → Option Bytes
  | [], q, acc => if q = [] then some acc else none
  | c :: rest, q, acc =>
    match b64Value c with
    | some v =>
      if q.length = 3 then b64Loop rest [] (acc ++ b64Emit (q ++ [v]) 4)
      else b64Loop rest (q ++ [v]) acc
    | none =>
      if c = 10 ∨ c = 13 then b64Loop rest q acc
      else if c ≠ 61 then none
      else if q.length < 2 then none
      else if q.length = 2 then
        match b64SkipNewlines rest with
        | [] => none
        | c2 :: rest2 =>
          if c2 ≠ 61 then none
          else if b64SkipNewlines rest2 = [] then some (acc ++ b64Emit q 2) else none
      else if b64SkipNewlines rest = [] then some (acc ++ b64Emit q 3) else none

/-- Go `base64.StdEncoding.DecodeString`; `none` when it returns an error. -/
def b64DecodeString (s : Bytes) : Option Bytes := b64Loop s [] []

/-- Go `strconv` decimal formatting of an integer (`%d`). -/
def fmtInt (n : Int) : Bytes :=
  if n < 0 then 45 :: (Nat.toDigits 10 n.natAbs).map Char.toNat
  else (Nat.toDigits 10 n.natAbs).map Char.toNat

/-- Wrap-around of `int64` arithmetic. -/
def wrapInt64 (x : Int) : Int := (x + 2 ^ 63) % 2 ^ 64 - 2 ^ 63

/-- The parts of the Go standard library that are taken as parameters: the
Unicode case tables, `filepath.Match`, `net.ParseIP` and `net.IP.String`. -/
structure Lib where
  /-- The table lookup `unicode.To(UpperCase, r)` for a rune above `MaxASCII`. -/
  upperTable : Nat → Nat
  /-- The table lookup `unicode.To(LowerCase, r)` for a rune above `MaxASCII`. -/
  lowerTable : Nat → Nat
  /-- The call `filepath.Match(pattern, name)`: `(matched, err == nil)`. -/
  pathMatch : Bytes → Bytes → Bool × Bool
  /-- The call `net.ParseIP(s)`; `none` is the nil IP. -/
  parseIP : Bytes → Option Bytes
  /-- The method `net.IP.String`. -/
  ipString : Bytes → Bytes

/-! ## Allowed hosts (`server.go`) -/

/-- The struct `allowedHosts`: `table` lists the keys of the Go map (every stored
value is `true`), without repetition, so that its length is `len(table)`. -/
structure AllowedHosts where
  table : List Bytes
  wildcards : List Bytes
deriving DecidableEq, Repr

/-- The map store `table[k] = true`. -/
def tableInsert (t : List Bytes) (k : Bytes) : List Bytes :=
  if k ∈ t then t else t ++ [k]

/-- One iteration of the loop of `setAllowedHosts`. -/
def addAllowedHost (lib : Lib) (a : AllowedHosts) (h : Bytes) : AllowedHosts :=
  if stringsContains h (ascii "*") then
    { a with wildcards := a.wildcards ++ [stringsToLower lib.lowerTable h] }
  else if h.length > 5 ∧ h.head? = some 91 ∧ h.getLast? = some 93 then
    match lib.parseIP ((h.drop 1).take (h.length - 2)) with
    | some ip => { a with table := tableInsert a.table (ascii "[" ++ lib.ipString ip ++ ascii "]") }
    | none => a
  else
    { a with table := tableInsert a.table (stringsToLower lib.lowerTable h) }

/-- Go `server.setAllowedHosts`: the table and the wildcard list are rebuilt from
the configured list. -/
def setAllowedHosts (lib : Lib) (allowedHosts : List Bytes) : AllowedHosts :=
  allowedHosts.foldl (addAllowedHost lib) { table := [], wildcards := [] }

/-- Go `server.allowsHost`. -/
def allowsHost (lib : Lib) (a : AllowedHosts) (host : Bytes) : Bool :=
  if a.table.length = 1 ∧ ascii "." ∈ a.table then true
  else if stringsToLower lib.lowerTable host ∈ a.table then true
  else a.wildcards.any (fun w =>
    (lib.pathMatch w (stringsToLower lib.lowerTable host)).1 &&
      (lib.pathMatch w (stringsToLower lib.lowerTable host)).2)

/-- Go `server.allowsIp`. -/
def allowsIp (lib : Lib) (a : AllowedHosts) (ip : Bytes) : Bool :=
  allowsHost lib a (ascii "[" ++ lib.ipString ip ++ ascii "]")

/-! ## File credential store (`auth/auth.go`) -/

/-- The struct `auth.Auth`. -/
structure Auth where
  username : Bytes
  password : Bytes
deriving DecidableEq, Repr

/-- The constants of `auth.AuthType`. -/
inductive AuthType
  | NoAuth
  | FileAuth
  | PostgresAuth
deriving DecidableEq, Repr

/-- The errors a credential store returns. -/
inductive StoreErr
  | openFailed
  | readFailed
  | notFound
deriving DecidableEq, Repr

/-- The credentials file as `os.Open` and the buffered reader find it: it cannot
be opened, or it yields `data` and then `io.EOF` (or, with `readError`, an I/O
error in place of `io.EOF`). -/
inductive File
  | missing
  | content (data : Bytes) (readError : Bool)
deriving DecidableEq, Repr

/-- The body of the loop of `LoadFile` after a successful `ReadString`: the line
is split at commas and gives a record when it has at least two fields. -/
def recordOf (line : Bytes) : Option Auth :=
  match split line 44 with
  | u :: p :: _ => some { username := u, password := p }
  | _ => none

/-- The read loop of `LoadFile`: `ReadString` returns the bytes up to and
including the next newline; at the end of the data it returns what is left
together with an error, and the loop ends without making a record of it. -/
def loadLoop : Bytes → Bytes → List Auth → List Auth
  | [], _, auths => auths
  | c :: rest, cur, auths =>
    if c = 10 then
      match recordOf (cur ++ [c]) with
      | some a => loadLoop rest [] (auths ++ [a])
      | none => loadLoop rest [] auths
    else loadLoop rest (cur ++ [c]) auths

/-- Go `FileAuthStore.LoadFile`. -/
def FileAuthStore.LoadFile : File → List Auth × Option StoreErr
  | .missing => ([], some .openFailed)
  | .content data readError =>
    (loadLoop data [] [], if readError then some .readFailed else none)

/-- Go `FileAuthStore.Authenticate`. -/
def FileAuthStore.Authenticate (f : File) (username password : Bytes) : Bool × Option StoreErr :=
  match FileAuthStore.LoadFile f with
  | (_, some e) => (false, some e)
  | (auths, none) =>
    if auths.any (fun a => decide (a.username = username ∧ a.password = password)) then (true, none)
    else (false, some .notFound)

/-! ## Sessions (`server.go`, `handleClient`) -/

/-- Go `CommandVerbMaxLength`. -/
def CommandVerbMaxLength : Nat := 16

/-- Go `CommandLineMaxLength`. -/
def CommandLineMaxLength : Nat := 1024

/-- Go `CredentialsMaxLength`. -/
def CredentialsMaxLength : Nat := 2048

/-- Go `MaxUnrecognizedCommands`. -/
def MaxUnrecognizedCommands : Nat := 5

/-- Modelled from the spec: the constant `rfc5321.LimitRecipients`, whose package
is outside the sources; "RFC 5321 default 100". -/
def LimitRecipients : Nat := 100

/-- Go `cmdHELO`: the bytes of `HELO`. -/
def cmdHELO : Bytes := [72, 69, 76, 79]
/-- Go `cmdEHLO`: the bytes of `EHLO`. -/
def cmdEHLO : Bytes := [69, 72, 76, 79]
/-- Go `cmdHELP`: the bytes of `HELP`. -/
def cmdHELP : Bytes := [72, 69, 76, 80]
/-- Go `cmdXCLIENT`: the bytes of `XCLIENT`. -/
def cmdXCLIENT : Bytes := [88, 67, 76, 73, 69, 78, 84]
/-- Go `cmdMAIL`: the bytes of `MAIL FROM:`. -/
def cmdMAIL : Bytes := [77, 65, 73, 76, 32, 70, 82, 79, 77, 58]
/-- Go `cmdRCPT`: the bytes of `RCPT TO:`. -/
def cmdRCPT : Bytes := [82, 67, 80, 84, 32, 84, 79, 58]
/-- Go `cmdRSET`: the bytes of `RSET`. -/
def cmdRSET : Bytes := [82, 83, 69, 84]
/-- Go `cmdVRFY`: the bytes of `VRFY`. -/
def cmdVRFY : Bytes := [86, 82, 70, 89]
/-- Go `cmdNOOP`: the bytes of `NOOP`. -/
def cmdNOOP : Bytes := [78, 79, 79, 80]
/-- Go `cmdASTERISK`: the bytes of `*`. -/
def cmdASTERISK : Bytes := [42]
/-- Go `cmdQUIT`: the bytes of `QUIT`. -/
def cmdQUIT : Bytes := [81, 85, 73, 84]
/-- Go `cmdDATA`: the bytes of `DATA`. -/
def cmdDATA : Bytes := [68, 65, 84, 65]
/-- Go `cmdSTARTTLS`: the bytes of `STARTTLS`. -/
def cmdSTARTTLS : Bytes := [83, 84, 65, 82, 84, 84, 76, 83]
/-- Go `cmdAUTH`: the bytes of `AUTH`. -/
def cmdAUTH : Bytes := [65, 85, 84, 72]

/-- The fourteen command verbs in the order of their declaration. -/
def verbs : List Bytes :=
  [cmdHELO, cmdEHLO, cmdHELP, cmdXCLIENT, cmdMAIL, cmdRCPT, cmdRSET, cmdVRFY, cmdNOOP,
    cmdASTERISK, cmdQUIT, cmdDATA, cmdSTARTTLS, cmdAUTH]

/-- Go `command.match`: `bytes.Index(in, []byte(c)) == 0`. -/
def cmdMatch (c : Bytes) (inp : Bytes) : Bool := decide (bytesIndex inp c = 0)

/-- The client states of the session loop. -/
inductive ClientState
  | Greeting
  | Cmd
  | Data
  | StartTLS
  | AuthPlainCredentials
  | Shutdown
deriving DecidableEq, Repr

/-- The entries of the table `response.Canned` that `handleClient` sends. -/
inductive Canned
  | FailLineTooLong
  | FailSyntaxError
  | SuccessMailCmd
  | PositiveIntermediate
  | FailInvalidAuth
  | SuccessAuthCmd
  | FailNestedMailCmd
  | ErrorTooManyRecipients
  | ErrorRelayDenied
  | FailRcptCmd
  | SuccessRcptCmd
  | SuccessResetCmd
  | SuccessVerifyCmd
  | SuccessNoopCmd
  | SuccessQuitCmd
  | FailNoRecipientsDataCmd
  | SuccessDataCmd
  | SuccessStartTLSCmd
  | FailMaxUnrecognizedCmd
  | FailUnrecognizedCmd
  | FailReadLimitExceededDataCmd
  | FailMessageSizeExceeded
  | FailReadErrorDataCmd
  | ErrorShutdown
deriving DecidableEq, Repr

/-- The error of `client.Data.ReadFrom`: the values `LineLimitExceeded` and
`MessageSizeExceeded`, or any other error with its text. -/
inductive DataErr
  | lineLimitExceeded
  | messageSizeExceeded
  | other (msg : Bytes)
deriving DecidableEq, Repr

/-- One argument of a call of `client.sendResponse`. -/
inductive Item
  /-- The greeting `220 <hostname> SMTP Guerrilla(<version>) #<id> (<active>) <time>`. -/
  | greeting (hostname : Bytes)
  /-- An entry of `response.Canned`. -/
  | canned (c : Canned)
  /-- A string, or the text of an error. -/
  | text (b : Bytes)
  /-- The text `err.Error()` of an error of the data reader. -/
  | errorText (e : DataErr)
  /-- The result returned by the backend. -/
  | result (code : Int) (msg : Bytes)
deriving DecidableEq, Repr

/-- One call of `client.sendResponse`: its arguments in order; the call writes
them followed by `\r\n`. -/
abbrev Reply := List Item

/-- The fields of `mail.Address` that `server.go` reads. -/
structure Address where
  user : Bytes
  host : Bytes
  /-- The field `IP`; `none` is the nil IP. -/
  ip : Option Bytes
deriving DecidableEq, Repr

/-- The zero value `mail.Address{}`. -/
def Address.empty : Address := { user := [], host := [], ip := none }

/-- The parts of `mail.Envelope` that make up the SMTP transaction. -/
structure Envelope where
  mailFrom : Address
  rcptTo : List Address
  /-- The field `Auth`; `none` is the zero value. -/
  auth : Option Auth
  data : Bytes
deriving DecidableEq, Repr

/-- The struct `client` together with the local variables `authDone` and
`advertiseTLS` of `handleClient`. -/
structure Session where
  state : ClientState
  /-- The value of `client.isAlive()`. -/
  alive : Bool
  remoteIP : Bytes
  helo : Bytes
  esmtp : Bool
  tls : Bool
  /-- The counter `client.errors`. -/
  errors : Nat
  messagesSent : Nat
  /-- The byte limit last set on `client.bufin`. -/
  limit : Int
  env : Envelope
  authDone : Bool
  advertiseTLS : Bytes
  /-- Every reply passed to `client.sendResponse`, oldest first. -/
  out : List Reply
  /-- How many replies of `out` have been flushed to the connection. -/
  flushed : Nat
deriving DecidableEq, Repr

/-- The fields of `ServerConfig` that `handleClient` reads from its snapshot. -/
structure ServerConfig where
  hostname : Bytes
  maxSize : Int
  tlsAlwaysOn : Bool
  startTLSOn : Bool
  xclientOn : Bool
  authType : AuthType
deriving DecidableEq, Repr

/-- The error of `client.bufin.ReadSlice`. -/
inductive ReadErr
  | eof
  | timeout
  | lineLimitExceeded
  | other
deriving DecidableEq, Repr

/-- The result of `client.parsePath` and the flag `client.parser.NullPath` after it. -/
structure PathResult where
  addr : Address
  /-- The text of the returned error; `none` is the nil error. -/
  err : Option Bytes
  nullPath : Bool
deriving DecidableEq, Repr

/-- Everything outside the session that one iteration of the loop consults: the
connection, the pool, the parser, the credential store, the backend and the
shared tables, as they answer during that iteration. -/
structure World where
  lib : Lib
  /-- The field `server.hosts`. -/
  hosts : AllowedHosts
  /-- The hostname of the configuration that `defaultHost` loads. -/
  configHostname : Bytes
  /-- The call `client.bufin.ReadSlice`: the bytes read (ending with the newline
  when there is no error) and the error. -/
  readSlice : Bytes × Option ReadErr
  /-- The call `s.isShuttingDown()`. -/
  shuttingDown : Bool
  /-- The call `response.GetQuote()`. -/
  quote : Bytes
  /-- The call `client.parser.Helo`; `none` is an error. -/
  parserHelo : Bytes → Option Bytes
  /-- The call `client.parser.Ehlo`; `none` is an error. -/
  parserEhlo : Bytes → Option Bytes
  /-- The call `client.parsePath(in, client.parser.MailFrom)`. -/
  parseMailFrom : Bytes → PathResult
  /-- The call `client.parsePath(in, client.parser.RcptTo)`. -/
  parseRcptTo : Bytes → PathResult
  /-- The call `client.isInTransaction()`. -/
  isInTransaction : Envelope → Bool
  /-- The method `mail.Address.IsPostmaster`. -/
  isPostmaster : Address → Bool
  /-- The call `sc.AuthConfig.Store.Authenticate`. -/
  authenticate : Bytes → Bytes → Bool × Option StoreErr
  /-- The call `s.backend().ValidateRcpt`; the text of the error, `none` for nil. -/
  validateRcpt : Envelope → Option Bytes
  /-- The call `s.backend().Process`: code and text of the result. -/
  process : Envelope → Int × Bytes
  /-- The bytes that `client.Data.ReadFrom` reads through the dot reader. -/
  dataBody : Bytes
  /-- The error of `client.Data.ReadFrom`. -/
  dataErr : Option DataErr
  /-- Whether `s.tlsConfigStore.Load()` holds a `*tls.Config`. -/
  tlsConfigLoaded : Bool
  /-- Whether `client.upgradeToTLS` returns a nil error. -/
  handshakeOk : Bool
  /-- Whether `client.bufErr` is set by a `sendResponse` of this iteration. -/
  bufErr : Bool
  /-- Whether `s.flushResponse` returns an error. -/
  flushErr : Bool

/-- How one iteration of the loop of `handleClient` ends. -/
inductive Outcome
  /-- The iteration is complete; the loop tests `client.isAlive()` next. -/
  | running (s : Session)
  /-- The function `handleClient` has returned. -/
  | returned (s : Session)
  /-- A run-time panic. -/
  | panicked
deriving DecidableEq, Repr

/-- Modelled from the spec: `client.sendResponse`, whose file is outside the
sources; the reply is written to the buffered writer. -/
def sendResponse (s : Session) (r : Reply) : Session := { s with out := s.out ++ [r] }

/-- Modelled from the spec: `client.kill`, whose file is outside the sources; the
session is no longer alive. -/
def kill (s : Session) : Session := { s with alive := false }

/-- Modelled from the spec: `client.resetTransaction`, whose file is outside the
sources; it "clears MailFrom, RcptTo, Data" and "preserves AUTH state". -/
def resetTransaction (s : Session) : Session :=
  { s with env := { s.env with mailFrom := Address.empty, rcptTo := [], data := [] } }

/-- Modelled from the spec: `Envelope.PushRcpt`, whose file is outside the
sources; the address is appended to `RcptTo`. -/
def PushRcpt (s : Session) (a : Address) : Session :=
  { s with env := { s.env with rcptTo := s.env.rcptTo ++ [a] } }

/-- Modelled from the spec: `Envelope.PopRcpt`, whose file is outside the
sources; the last address of `RcptTo` is removed. -/
def PopRcpt (s : Session) : Session :=
  { s with env := { s.env with rcptTo := s.env.rcptTo.dropLast } }

/-- Go `server.readCommand`; the outer `none` is the panic of `bs[:len(bs)-1]` on
an empty slice. -/
def readCommand (r : Bytes × Option ReadErr) : Option (Bytes × Option ReadErr) :=
  match r.2 with
  | some e => some (r.1, some e)
  | none =>
    if ascii "\r\n" <:+ r.1 then some (r.1.take (r.1.length - 2), none)
    else if r.1.length = 0 then none
    else some (r.1.take (r.1.length - 1), none)

/-- The cases of the command switch of `handleClient`. -/
inductive Branch
  | helo
  | ehlo
  | help
  | xclient
  | auth
  | mail
  | rcpt
  | rset
  | vrfy
  | noop
  | asterisk
  | quit
  | data
  | starttls
  | unrecognized
deriving DecidableEq, Repr

/-- The case that the command switch selects: the first one, in source order,
whose condition holds. -/
def dispatch (sc : ServerConfig) (cmd : Bytes) : Branch :=
  if cmdMatch cmdHELO cmd then .helo
  else if cmdMatch cmdEHLO cmd then .ehlo
  else if cmdMatch cmdHELP cmd then .help
  else if sc.xclientOn && cmdMatch cmdXCLIENT cmd then .xclient
  else if cmdMatch cmdAUTH cmd then .auth
  else if cmdMatch cmdMAIL cmd then .mail
  else if cmdMatch cmdRCPT cmd then .rcpt
  else if cmdMatch cmdRSET cmd then .rset
  else if cmdMatch cmdVRFY cmd then .vrfy
  else if cmdMatch cmdNOOP cmd then .noop
  else if cmdMatch cmdASTERISK cmd then .asterisk
  else if cmdMatch cmdQUIT cmd then .quit
  else if cmdMatch cmdDATA cmd then .data
  else if sc.startTLSOn && cmdMatch cmdSTARTTLS cmd then .starttls
  else .unrecognized

/-- The local `cmd` of `handleClient`: `bytes.ToUpper(input[:cmdLen])`. -/
def commandOf (lib : Lib) (input : Bytes) : Bytes :=
  let cmdLen := if input.length > CommandVerbMaxLength then CommandVerbMaxLength else input.length
  bytesToUpper lib.upperTable (input.take cmdLen)

/-- The locals `helo`, `ehlo`, `messageSize`, ... of `handleClient`. -/
def heloText (sc : ServerConfig) : Bytes := ascii "250 " ++ sc.hostname ++ ascii " Hello"

/-- The items of the multi-line reply to `EHLO`. -/
def ehloReply (sc : ServerConfig) (advertiseTLS : Bytes) : Reply :=
  [.text (ascii "250-" ++ sc.hostname ++ ascii " Hello\r\n"),
   .text (ascii "250-SIZE " ++ fmtInt sc.maxSize ++ ascii "\r\n"),
   .text (ascii "250-PIPELINING\r\n"),
   .text advertiseTLS,
   .text (ascii "250-ENHANCEDSTATUSCODES\r\n"),
   .text (ascii "250 AUTH PLAIN")]

/-- The case `cmdHELO` of the command switch. -/
def doHelo (w : World) (sc : ServerConfig) (s : Session) (input : Bytes) : Option Session :=
  (sliceFrom input 4).map fun arg =>
    match w.parserHelo arg with
    | some h => sendResponse (resetTransaction { s with helo := h }) [.text (heloText sc)]
    | none => sendResponse s [.canned .FailSyntaxError]

/-- The case `cmdEHLO` of the command switch. -/
def doEhlo (w : World) (sc : ServerConfig) (s : Session) (input : Bytes) : Option Session :=
  (sliceFrom input 4).map fun arg =>
    match w.parserEhlo arg with
    | some h =>
      let s1 := resetTransaction { s with helo := h, esmtp := true }
      sendResponse s1 (ehloReply sc s1.advertiseTLS)
    | none => sendResponse (sendResponse s [.canned .FailSyntaxError]) [.canned .FailSyntaxError]

/-- The body of the loop over the tokens of `XCLIENT`. -/
def xclientTok (s : Session) (tok : Bytes) : Session :=
  match split tok 61 with
  | [k, v] =>
    if v = ascii "[UNAVAILABLE]" then s
    else
      let s1 := if k = ascii "ADDR" then { s with remoteIP := v } else s
      if k = ascii "HELO" then { s1 with helo := v } else s1
  | _ => s

/-- The case `cmdXCLIENT` of the command switch. -/
def doXclient (s : Session) (input : Bytes) : Option Session :=
  (sliceFrom input 8).map fun arg =>
    sendResponse ((split arg 32).foldl xclientTok s) [.canned .SuccessMailCmd]

/-- The loop that segments the decoded `AUTH PLAIN` bytes into `user` and `pass`;
`user += string(b)` appends the conversion of the byte `b` to a string. -/
def plainLoop : Bytes → Nat → Bytes → Bytes → Bytes × Bytes
  | [], _, user, pass => (user, pass)
  | b :: rest, nilFound, user, pass =>
    if b = 0 then plainLoop rest (nilFound + 1) user pass
    else if nilFound = 1 then plainLoop rest nilFound (user ++ encodeRune b) pass
    else if nilFound = 2 then plainLoop rest nilFound user (pass ++ encodeRune b)
    else plainLoop rest nilFound user pass

/-- The decoding of the credentials, as both `AUTH PLAIN` paths do it: `none`
when base64 decoding fails, else `user` and `pass`. -/
def decodePlain (b64 : Bytes) : Option (Bytes × Bytes) :=
  (b64DecodeString b64).map fun up => plainLoop up 0 [] []

/-- The block `if sc.AuthConfig.Type != auth.NoAuth ... else ...` that both
`AUTH PLAIN` paths run on the decoded credentials. -/
def checkCredentials (w : World) (sc : ServerConfig) (s : Session) (user pass : Bytes) : Session :=
  if sc.authType ≠ .NoAuth then
    match w.authenticate user pass with
    | (_, some _) => sendResponse s [.canned .FailInvalidAuth]
    | (true, none) =>
      sendResponse { s with env := { s.env with auth := some { username := user, password := pass } } }
        [.canned .SuccessAuthCmd]
    | (false, none) => s
  else sendResponse s [.canned .SuccessAuthCmd]

/-- A condition `a && b` whose right operand may panic: it is evaluated only
when `a` holds. -/
def andThen (a : Bool) (b : Option Bool) : Option Bool := if a then b else some false

/-- The case `cmdAUTH` of the command switch. -/
def doAuth (w : World) (sc : ServerConfig) (s : Session) (input : Bytes) : Option Session :=
  let fields := split input 32
  let isPlain : Option Bool := (index fields 1).map fun m => decide (m = ascii "PLAIN")
  match andThen (decide (fields.length < 3)) isPlain with
  | none => none
  | some true =>
    some (sendResponse { s with state := .AuthPlainCredentials } [.canned .PositiveIntermediate])
  | some false =>
    match andThen (decide (fields.length ≥ 3)) isPlain with
    | none => none
    | some true =>
      let s1 := { s with authDone := true }
      (index fields 2).map fun b64 =>
        match decodePlain b64 with
        | none => sendResponse s1 [.canned .FailInvalidAuth]
        | some up => checkCredentials w sc s1 up.1 up.2
    | some false => some (sendResponse s [.canned .FailInvalidAuth])

/-- The case `cmdMAIL` of the command switch. -/
def doMail (w : World) (sc : ServerConfig) (s : Session) (input : Bytes) : Option Session :=
  if sc.authType ≠ .NoAuth ∧ s.authDone = false then some (sendResponse s [.canned .FailInvalidAuth])
  else if w.isInTransaction s.env then some (sendResponse s [.canned .FailNestedMailCmd])
  else
    (sliceFrom input 10).map fun arg =>
      let r := w.parseMailFrom arg
      let s1 := { s with env := { s.env with mailFrom := r.addr } }
      match r.err with
      | some e => sendResponse s1 [.text e]
      | none =>
        let s2 := if r.nullPath then { s1 with env := { s1.env with mailFrom := Address.empty } } else s1
        sendResponse s2 [.canned .SuccessMailCmd]

/-- Go `server.defaultHost`. -/
def defaultHost (w : World) (a : Address) : Address :=
  if a.host = [] ∧ w.isPostmaster a = true then { a with host := w.configHostname } else a

/-- The condition of the relay check in the case `cmdRCPT`. -/
def relayDenied (w : World) (rcpt : Address) : Bool :=
  match rcpt.ip with
  | some ip => !allowsIp w.lib w.hosts ip
  | none => !allowsHost w.lib w.hosts rcpt.host

/-- The case `cmdRCPT` of the command switch. -/
def doRcpt (w : World) (s : Session) (input : Bytes) : Option Session :=
  if s.env.rcptTo.length > LimitRecipients then some (sendResponse s [.canned .ErrorTooManyRecipients])
  else
    (sliceFrom input 8).map fun arg =>
      let r := w.parseRcptTo arg
      match r.err with
      | some e => sendResponse s [.text e]
      | none =>
        let rcpt := defaultHost w r.addr
        if relayDenied w rcpt then
          sendResponse s [.canned .ErrorRelayDenied, .text (ascii " "), .text rcpt.host]
        else
          let s1 := PushRcpt s rcpt
          match w.validateRcpt s1.env with
          | some e => sendResponse (PopRcpt s1) [.canned .FailRcptCmd, .text (ascii " "), .text e]
          | none => sendResponse s1 [.canned .SuccessRcptCmd]

/-- The case `cmdDATA` of the command switch. -/
def doData (s : Session) : Session :=
  if s.env.rcptTo.length = 0 then sendResponse s [.canned .FailNoRecipientsDataCmd]
  else { sendResponse s [.canned .SuccessDataCmd] with state := .Data }

/-- The `default` case of the command switch. -/
def doUnrecognized (s : Session) : Session :=
  let s1 := { s with errors := s.errors + 1 }
  if s1.errors ≥ MaxUnrecognizedCommands then kill (sendResponse s1 [.canned .FailMaxUnrecognizedCmd])
  else sendResponse s1 [.canned .FailUnrecognizedCmd]

/-- The body of a case of the command switch on the line `input`; `none` is a
run-time panic. -/
def execBranch (w : World) (sc : ServerConfig) (s : Session) (input : Bytes) : Branch → Option Session
  | .helo => doHelo w sc s input
  | .ehlo => doEhlo w sc s input
  | .help => some (sendResponse s [.text (ascii "214-OK\r\n"), .text w.quote])
  | .xclient => doXclient s input
  | .auth => doAuth w sc s input
  | .mail => doMail w sc s input
  | .rcpt => doRcpt w s input
  | .rset => some (sendResponse (resetTransaction s) [.canned .SuccessResetCmd])
  | .vrfy => some (sendResponse s [.canned .SuccessVerifyCmd])
  | .noop => some (sendResponse s [.canned .SuccessNoopCmd])
  | .asterisk => some (sendResponse s [.canned .SuccessNoopCmd])
  | .quit => some (kill (sendResponse s [.canned .SuccessQuitCmd]))
  | .data => some (doData s)
  | .starttls => some { sendResponse s [.canned .SuccessStartTLSCmd] with state := .StartTLS }
  | .unrecognized => some (doUnrecognized s)

/-- The command switch of `handleClient` on the line `input`. -/
def execCmd (w : World) (sc : ServerConfig) (s : Session) (input : Bytes) : Option Session :=
  execBranch w sc s input (dispatch sc (commandOf w.lib input))

/-- The code of `handleClient` after the state switch: return on a buffer error,
flush the pending replies, return on a flush error. -/
def afterSwitch (w : World) (s : Session) : Outcome :=
  if w.bufErr then .returned s
  else if s.flushed < s.out.length then
    if w.flushErr then .returned s else .running { s with flushed := s.out.length }
  else .running s

/-- The reading of a line and the shutdown check that open the cases `ClientCmd`
and `ClientAuthPlainCredentials`; `body` is the rest of the case. -/
def onLine (w : World) (s : Session) (body : Bytes → Option Session) : Outcome :=
  match readCommand w.readSlice with
  | none => .panicked
  | some (_, some .eof) => .returned s
  | some (_, some .timeout) => .returned s
  | some (_, some .lineLimitExceeded) =>
    afterSwitch w (kill (sendResponse s [.canned .FailLineTooLong]))
  | some (_, some .other) => afterSwitch w (kill s)
  | some (input, none) =>
    if w.shuttingDown then .running { s with state := .Shutdown }
    else
      match body input with
      | none => .panicked
      | some s1 => afterSwitch w s1

/-- The case `ClientAuthPlainCredentials` after the line has been read: on a
base64 error the `break` leaves the state as it is. -/
def authPlainLine (w : World) (sc : ServerConfig) (s : Session) (input : Bytes) : Session :=
  let s1 := { s with authDone := true }
  match decodePlain input with
  | none => sendResponse s1 [.canned .FailInvalidAuth]
  | some up => { checkCredentials w sc s1 up.1 up.2 with state := .Cmd }

/-- The case `ClientData` of the state switch. -/
def dataTick (w : World) (sc : ServerConfig) (s : Session) : Session :=
  let s0 := { s with limit := wrapInt64 (sc.maxSize + 1024000) }
  let s1 := { s0 with env := { s0.env with data := s0.env.data ++ w.dataBody } }
  let n : Int := w.dataBody.length
  let err : Option DataErr :=
    if n > sc.maxSize then
      some (.other (ascii "maximum DATA size exceeded (" ++ fmtInt sc.maxSize ++ ascii ")"))
    else w.dataErr
  match err with
  | some .lineLimitExceeded =>
    resetTransaction (kill (sendResponse s1
      [.canned .FailReadLimitExceededDataCmd, .text (ascii " "), .errorText .lineLimitExceeded]))
  | some .messageSizeExceeded =>
    resetTransaction (kill (sendResponse s1
      [.canned .FailMessageSizeExceeded, .text (ascii " "), .errorText .messageSizeExceeded]))
  | some (.other msg) =>
    resetTransaction (kill (sendResponse s1
      [.canned .FailReadErrorDataCmd, .text (ascii " "), .errorText (.other msg)]))
  | none =>
    let res := w.process s1.env
    let s2 := if res.1 < 300 then { s1 with messagesSent := s1.messagesSent + 1 } else s1
    let s3 := { sendResponse s2 [.result res.1 res.2] with state := .Cmd }
    let s4 := if w.shuttingDown then { s3 with state := .Shutdown } else s3
    resetTransaction s4

/-- The case `ClientStartTLS` of the state switch; a successful
`client.upgradeToTLS` makes the connection a TLS connection. -/
def startTLSTick (w : World) (sc : ServerConfig) (s : Session) : Session :=
  let s1 :=
    if !s.tls && sc.startTLSOn then
      if !w.tlsConfigLoaded then s
      else if w.handshakeOk then resetTransaction { s with tls := true, advertiseTLS := [] }
      else s
    else s
  { s1 with state := .Cmd }

/-- One iteration of the loop `for client.isAlive()` of `handleClient`. -/
def tick (w : World) (sc : ServerConfig) (s : Session) : Outcome :=
  match s.state with
  | .Greeting => afterSwitch w { sendResponse s [.greeting sc.hostname] with state := .Cmd }
  | .Cmd => onLine w { s with limit := CommandLineMaxLength } (fun input =>
      execCmd w sc { s with limit := CommandLineMaxLength } input)
  | .AuthPlainCredentials => onLine w { s with limit := CredentialsMaxLength } (fun input =>
      some (authPlainLine w sc { s with limit := CredentialsMaxLength } input))
  | .Data => afterSwitch w (dataTick w sc s)
  | .StartTLS => afterSwitch w (startTLSTick w sc s)
  | .Shutdown => afterSwitch w (kill (sendResponse s [.canned .ErrorShutdown]))

/-- The loop of `handleClient` over the iterations whose surroundings are
`ws`: it stops when the session is no longer alive, when an iteration returns
or panics, or when `ws` is used up (the session is then still running). -/
def loop (sc : ServerConfig) : List World → Session → Outcome
  | [], s => .running s
  | w :: ws, s =>
    if s.alive then
      match tick w sc s with
      | .running s1 => loop sc ws s1
      | o => o
    else .returned s

/-- The code of `handleClient` before the loop: `authDone` and `advertiseTLS`
are initialised and, with `TLS.AlwaysOn`, the connection is upgraded. -/
def startSession (w : World) (sc : ServerConfig) (c : Session) : Session :=
  let s := { c with authDone := false, advertiseTLS := ascii "250-STARTTLS\r\n" }
  let s1 :=
    if sc.tlsAlwaysOn then
      if !w.tlsConfigLoaded then s
      else if w.handshakeOk then { s with tls := true, advertiseTLS := [] }
      else kill s
    else s
  if !sc.startTLSOn then { s1 with advertiseTLS := [] } else s1

/-- Go `server.handleClient`: `w0` is consulted before the loop, `ws` by its
iterations. -/
def handleClient (sc : ServerConfig) (w0 : World) (ws : List World) (c : Session) : Outcome :=
  loop sc ws (startSession w0 sc c)

/-- Modelled from the spec: the client that the pool hands to `handleClient`,
whose file is outside the sources; "initial = Greeting", with an empty envelope. -/
def newClient (remoteIP : Bytes) : Session :=
  { state := .Greeting, alive := true, remoteIP := remoteIP, helo := [], esmtp := false,
    tls := false, errors := 0, messagesSent := 0, limit := 0,
    env := { mailFrom := Address.empty, rcptTo := [], auth := none, data := [] },
    authDone := false, advertiseTLS := [], out := [], flushed := 0 }

/-- The session of an outcome, when there is one. -/
def Outcome.session : Outcome → Option Session
  | .running s => some s
  | .returned s => some s
  | .panicked => none

/-! ## Sample surroundings

Concrete collaborators on which the definitions can be evaluated. -/

/-- A library whose case tables leave every non-ASCII rune alone, whose glob never
matches and whose IP parser accepts nothing. -/
def sampleLib : Lib :=
  { upperTable := fun r => r, lowerTable := fun r => r, pathMatch := fun _ _ => (false, true),
    parseIP := fun _ => none, ipString := fun ip => ip }

/-- A parser for paths that accepts every argument and returns it as the local
part, with host `example.com`. -/
def samplePath (arg : Bytes) : PathResult :=
  { addr := { user := arg, host := ascii "example.com", ip := none }, err := none, nullPath := false }

/-- Surroundings in which the client sends `line` followed by `\r\n`, the parser
accepts everything, the store is the credentials file `file`, the host
`example.com` is allowed and the backend accepts everything. -/
def sampleWorld (file : File) (line : Bytes) : World :=
  { lib := sampleLib,
    hosts := setAllowedHosts sampleLib [ascii "example.com"],
    configHostname := ascii "mail.example.com",
    readSlice := (line ++ ascii "\r\n", none),
    shuttingDown := false,
    quote := [],
    parserHelo := fun arg => some arg,
    parserEhlo := fun arg => some arg,
    parseMailFrom := samplePath,
    parseRcptTo := samplePath,
    isInTransaction := fun e => decide (e.mailFrom.user ≠ []),
    isPostmaster := fun _ => false,
    authenticate := FileAuthStore.Authenticate file,
    validateRcpt := fun _ => none,
    process := fun _ => (250, ascii "OK"),
    dataBody := [],
    dataErr := none,
    tlsConfigLoaded := false,
    handshakeOk := false,
    bufErr := false,
    flushErr := false }

/-- A configuration that requires `AUTH` against the file store. -/
def sampleConfig : ServerConfig :=
  { hostname := ascii "mail.example.com", maxSize := 1000000, tlsAlwaysOn := false,
    startTLSOn := false, xclientOn := false, authType := .FileAuth }

/-- The session after the greeting has been sent to a new client. -/
def greetedSession : Session :=
  { newClient [] with
    state := .Cmd, out := [[.greeting (ascii "mail.example.com")]], flushed := 1 }

/-- A credentials file with the single record `agni,pass`. -/
def sampleFile : File := .content (ascii "agni,pass\n") false

/-- The surroundings `w` with a credential store that answers not-ok without an
error, whatever the credentials. -/
def withSilentStore (w : World) : World := { w with authenticate := fun _ _ => (false, none) }

/-- A session in the `Cmd` state whose envelope holds `n` recipients. -/
def sessionWithRcpts (n : Nat) : Session :=
  { greetedSession with
    env := { greetedSession.env with
      rcptTo := List.replicate n { user := ascii "u", host := ascii "example.com", ip := none } } }

/-- A session that waits for the credentials after `AUTH PLAIN`. -/
def credentialsSession : Session :=
  { greetedSession with
    state := .AuthPlainCredentials,
    out := greetedSession.out ++ [[.canned .PositiveIntermediate]], flushed := 2 }

/-- The verb that the condition of a case of the command switch tests; the
`default` case has none. -/
def verbOf : Branch → Option Bytes
  | .helo => some cmdHELO
  | .ehlo => some cmdEHLO
  | .help => some cmdHELP
  | .xclient => some cmdXCLIENT
  | .auth => some cmdAUTH
  | .mail => some cmdMAIL
  | .rcpt => some cmdRCPT
  | .rset => some cmdRSET
  | .vrfy => some cmdVRFY
  | .noop => some cmdNOOP
  | .asterisk => some cmdASTERISK
  | .quit => some cmdQUIT
  | .data => some cmdDATA
  | .starttls => some cmdSTARTTLS
  | .unrecognized => none

/-- A configuration with `TLS.StartTLSOn` set. -/
def startTLSConfig : ServerConfig := { sampleConfig with startTLSOn := true }

/-- The session after the greeting under `startTLSConfig`. -/
def advertisingSession : Session :=
  { greetedSession with advertiseTLS := ascii "250-STARTTLS\r\n" }

/-- A configuration with a maximum message size of ten bytes. -/
def smallConfig : ServerConfig := { sampleConfig with maxSize := 10 }

/-- A session in the `Data` state with one recipient. -/
def dataSession : Session :=
  { sessionWithRcpts 1 with
    state := .Data, out := greetedSession.out ++ [[.canned .SuccessDataCmd]], flushed := 2 }

/-- The surroundings `w` in which the dot reader yields `body` without an error. -/
def withBody (w : World) (body : Bytes) : World := { w with dataBody := body, dataErr := none }

/-- A configuration with `XClientOn` set. -/
def xclientConfig : ServerConfig := { sampleConfig with xclientOn := true }

/-! ## More of the Go standard library: `filepath.Match`

The Unix version (`Separator` is `/`, a backslash escapes).  Loops that consume
their input by a varying amount run on a fuel argument that their callers set
above the length of that input. -/

/-- The start of `scanChunk`: the leading stars are dropped. -/
def dropStars : Bytes → Bytes
  | [] => []
  | c :: rest => if c = 42 then dropStars rest else c :: rest

/-- The loop `Scan` of `scanChunk`: the index at which the chunk ends, which is
the first star outside a character class; a backslash takes the next byte with
it. -/
def scanLen : Bytes → Bool → Nat
  | [], _ => 0
  | c :: rest, inrange =>
    if c = 92 then
      match rest with
      | [] => 1
      | _ :: rest2 => 2 + scanLen rest2 inrange
    else if c = 91 then 1 + scanLen rest true
    else if c = 93 then 1 + scanLen rest false
    else if c = 42 then (if inrange then 1 + scanLen rest inrange else 0)
    else 1 + scanLen rest inrange

/-- Go `scanChunk`: whether the pattern starts with a star, the chunk after the
stars, and the rest of the pattern. -/
def scanChunk (pattern : Bytes) : Bool × Bytes × Bytes :=
  (decide (pattern.head? = some 42),
    (dropStars pattern).take (scanLen (dropStars pattern) false),
    (dropStars pattern).drop (scanLen (dropStars pattern) false))

/-- Go `getEsc`: the next rune of a character class and the rest of the chunk;
`none` is `ErrBadPattern`. -/
def getEsc (chunk : Bytes) : Option (Nat × Bytes) :=
  match chunk with
  | [] => none
  | c :: rest =>
    if c = 45 ∨ c = 93 then none
    else
      let chunk1 := if c = 92 then rest else c :: rest
      if chunk1 = [] then none
      else if (decodeRune chunk1).1 = 0xFFFD ∧ (decodeRune chunk1).2 = 1 then none
      else if chunk1.drop (decodeRune chunk1).2 = [] then none
      else some ((decodeRune chunk1).1, chunk1.drop (decodeRune chunk1).2)

/-- The loop "parse all ranges" of `matchChunk` for the rune `r`: the chunk
after the closing bracket and whether a range held `r`; `none` is
`ErrBadPattern`. -/
def classLoop : Nat → Bytes → Nat → Bool → Nat → Option (Bytes × Bool)
  | 0, _, _, _, _ => none
  | fuel + 1, chunk, r, found, nrange =>
    if chunk.head? = some 93 ∧ nrange > 0 then some (chunk.tail, found)
    else
      match getEsc chunk with
      | none => none
      | some (lo, chunk1) =>
        if chunk1.head? = some 45 then
          match getEsc chunk1.tail with
          | none => none
          | some (hi, chunk2) =>
            classLoop fuel chunk2 r (found || decide (lo ≤ r ∧ r ≤ hi)) (nrange + 1)
        else classLoop fuel chunk1 r (found || decide (lo ≤ r ∧ r ≤ lo)) (nrange + 1)

/-- The loop of `matchChunk`: `failed` records that the match has failed, after
which the chunk is still checked but `s` is no longer read.  The outer `none`
is `ErrBadPattern`, `some none` is no match, `some (some rest)` a match that
leaves `rest`. -/
def matchChunkLoop : Nat → Bytes → Bytes → Bool → Option (Option Bytes)
  | 0, _, _, _ => none
  | _ + 1, [], s, failed => some (if failed then none else some s)
  | fuel + 1, c :: chunk, s, failed0 =>
    let failed := failed0 || decide (s = [])
    if c = 91 then
      let r := if failed then 0 else (decodeRune s).1
      let s1 := if failed then s else s.drop (decodeRune s).2
      let negated := decide (chunk.head? = some 94)
      let chunk1 := if chunk.head? = some 94 then chunk.tail else chunk
      match classLoop fuel chunk1 r false 0 with
      | none => none
      | some (chunk2, found) => matchChunkLoop fuel chunk2 s1 (failed || (found == negated))
    else if c = 63 then
      matchChunkLoop fuel chunk (if failed then s else s.drop (decodeRune s).2)
        (failed || decide (s.head? = some 47))
    else if c = 92 then
      match chunk with
      | [] => none
      | c2 :: chunk2 =>
        matchChunkLoop fuel chunk2 (if failed then s else s.tail)
          (failed || decide (s.head? ≠ some c2))
    else
      matchChunkLoop fuel chunk (if failed then s else s.tail)
        (failed || decide (s.head? ≠ some c))

/-- Go `matchChunk`. -/
def matchChunk (chunk s : Bytes) : Option (Option Bytes) :=
  matchChunkLoop (chunk.length + 1) chunk s false

/-- How the loop over the bytes that a star may skip ends. -/
inductive StarResult
  | found (rest : Bytes)
  | noMatch
  | badPattern
deriving DecidableEq, Repr

/-- The loop "look for match skipping i+1 bytes" of `Match` on what is left of
the name from index `i` on: it stops at a `/`; a match of the last chunk counts
only when it uses up the name. -/
def starLoop (chunk : Bytes) (lastChunk : Bool) : Bytes → StarResult
  | [] => .noMatch
  | c :: rest =>
    if c = 47 then .noMatch
    else
      match matchChunk chunk rest with
      | none => .badPattern
      | some (some t) =>
        if lastChunk && decide (t ≠ []) then starLoop chunk lastChunk rest else .found t
      | some none => starLoop chunk lastChunk rest

/-- The loop `Pattern` of `Match`: `(matched, err == nil)`.  Where no chunk
matches, `filepath.Match` returns `false, nil` without looking at the rest of
the pattern. -/
def matchLoop : Nat → Bytes → Bytes → Bool × Bool
  | 0, _, _ => (false, false)
  | fuel + 1, pattern, name =>
    if pattern = [] then (decide (name = []), true)
    else
      let star := (scanChunk pattern).1
      let chunk := (scanChunk pattern).2.1
      let rest := (scanChunk pattern).2.2
      if star && decide (chunk = []) then (!stringsContains name [47], true)
      else
        match matchChunk chunk name with
        | none => (false, false)
        | some m =>
          match (match m with
              | some t => if t = [] ∨ rest ≠ [] then some t else none
              | none => none) with
          | some t => matchLoop fuel rest t
          | none =>
            if star then
              match starLoop chunk (decide (rest = [])) name with
              | .found t => matchLoop fuel rest t
              | .badPattern => (false, false)
              | .noMatch => (false, true)
            else (false, true)

/-- Go `filepath.Match(pattern, name)`: `(matched, err == nil)`. -/
def filepathMatch (pattern name : Bytes) : Bool × Bool :=
  matchLoop (pattern.length + 1) pattern name

/-! ## More of the Go standard library: `net.ParseIP` and `net.IP.String`

An IP is the list of its bytes, four or sixteen of them.  `ParseIP` is the parser
of Go up to 1.22 (`parseIPv4` and `parseIPv6` over `dtoi` and `xtoi`), which
bounds the value of a group of digits and not their number. -/

/-- The loop of Go `dtoi` (decimal to integer): value, bytes consumed, ok. -/
def dtoiLoop : Bytes → Nat → Nat → Nat × Nat × Bool
  | [], n, i => (n, i, decide (i ≠ 0))
  | c :: rest, n, i =>
    if 48 ≤ c ∧ c ≤ 57 then
      if n * 10 + (c - 48) ≥ 0xFFFFFF then (0xFFFFFF, i, false)
      else dtoiLoop rest (n * 10 + (c - 48)) (i + 1)
    else (n, i, decide (i ≠ 0))

/-- Go `dtoi`. -/
def dtoi (s : Bytes) : Nat × Nat × Bool := dtoiLoop s 0 0

/-- The value of a hexadecimal digit, of either case. -/
def hexValue (c : Nat) : Option Nat :=
  if 48 ≤ c ∧ c ≤ 57 then some (c - 48)
  else if 97 ≤ c ∧ c ≤ 102 then some (c - 97 + 10)
  else if 65 ≤ c ∧ c ≤ 70 then some (c - 65 + 10)
  else none

/-- The loop of Go `xtoi` (hexadecimal to integer): value, bytes consumed, ok. -/
def xtoiLoop : Bytes → Nat → Nat → Nat × Nat × Bool
  | [], n, i => (n, i, decide (i ≠ 0))
  | c :: rest, n, i =>
    match hexValue c with
    | some d =>
      if n * 16 + d ≥ 0xFFFFFF then (0, i, false) else xtoiLoop rest (n * 16 + d) (i + 1)
    | none => (n, i, decide (i ≠ 0))

/-- Go `xtoi`. -/
def xtoi (s : Bytes) : Nat × Nat × Bool := xtoiLoop s 0 0

/-- The loop of Go `parseIPv4` over the octets still to be read: `first` tells
that no dot is expected before the octet. -/
def parseIPv4Loop : Nat → Bool → Bytes → Bytes → Option Bytes
  | 0, _, s, p => if s = [] then some p else none
  | k + 1, first, s, p =>
    if s = [] then none
    else if !first && decide (s.head? ≠ some 46) then none
    else
      let s1 := if first then s else s.tail
      if (dtoi s1).2.2 = false ∨ (dtoi s1).1 > 0xFF then none
      else if (dtoi s1).2.1 > 1 ∧ s1.head? = some 48 then none
      else parseIPv4Loop k false (s1.drop (dtoi s1).2.1) (p ++ [(dtoi s1).1])

/-- The four octets that Go `parseIPv4` reads; `none` is the nil IP. -/
def parseIPv4 (s : Bytes) : Option Bytes := parseIPv4Loop 4 true s []

/-- Go `IPv4(a, b, c, d)`: the sixteen-byte form of an IPv4 address. -/
def v4InV6 (p : Bytes) : Bytes := [0, 0, 0, 0, 0, 0, 0, 0, 0, 0, 0xff, 0xff] ++ p

/-- The loop "parsing hex numbers followed by colon" of Go `parseIPv6`: `ip`
holds the bytes set so far (its length is the index `i`), `ellipsis` the
position of `::` when one has been seen.  The result is the state when the loop
is left; `none` is the nil IP. -/
def parseIPv6Loop : Nat → Bytes → Bytes → Option Nat → Option (Bytes × Option Nat × Bytes)
  | 0, s, ip, ellipsis => some (ip, ellipsis, s)
  | fuel + 1, s, ip, ellipsis =>
    if ip.length ≥ 16 then some (ip, ellipsis, s)
    else if (xtoi s).2.2 = false ∨ (xtoi s).1 > 0xFFFF then none
    else if (xtoi s).2.1 < s.length ∧ s.get? (xtoi s).2.1 = some 46 then
      if ellipsis = none ∧ ip.length ≠ 12 then none
      else if ip.length + 4 > 16 then none
      else
        match parseIPv4 s with
        | none => none
        | some ip4 => some (ip ++ ip4, ellipsis, [])
    else
      let ip1 := ip ++ [(xtoi s).1 / 256, (xtoi s).1 % 256]
      let s1 := s.drop (xtoi s).2.1
      if s1 = [] then some (ip1, ellipsis, s1)
      else if s1.head? ≠ some 58 ∨ s1.length = 1 then none
      else if s1.tail.head? = some 58 then
        if ellipsis.isSome then none
        else if s1.tail.tail = [] then some (ip1, some ip1.length, [])
        else parseIPv6Loop fuel s1.tail.tail ip1 (some ip1.length)
      else parseIPv6Loop fuel s1.tail ip1 ellipsis

/-- The end of Go `parseIPv6`: the whole string must have been used, and an
address that came out short has its ellipsis expanded to zero bytes. -/
def finishIPv6 : Bytes × Option Nat × Bytes → Option Bytes
  | (ip, ellipsis, s) =>
    if s ≠ [] then none
    else if ip.length < 16 then
      match ellipsis with
      | none => none
      | some e => some (ip.take e ++ List.replicate (16 - ip.length) 0 ++ ip.drop e)
    else if ellipsis.isSome then none
    else some ip

/-- Go `parseIPv6`. -/
def parseIPv6 (s : Bytes) : Option Bytes :=
  if s.length ≥ 2 ∧ s.head? = some 58 ∧ s.tail.head? = some 58 then
    if s.tail.tail = [] then some (List.replicate 16 0)
    else (parseIPv6Loop 9 s.tail.tail [] (some 0)).bind finishIPv6
  else (parseIPv6Loop 9 s [] none).bind finishIPv6

/-- The loop of Go `ParseIP` that looks for the first `.` or `:`; `whole` is the
string. -/
def parseIPScan (whole : Bytes) : Bytes → Option Bytes
  | [] => none
  | c :: rest =>
    if c = 46 then (parseIPv4 whole).map v4InV6
    else if c = 58 then parseIPv6 whole
    else parseIPScan whole rest

/-- Go `net.ParseIP`; `none` is the nil IP. -/
def ParseIP (s : Bytes) : Option Bytes := parseIPScan s s

/-- Go `IP.To4`; `none` is nil. -/
def To4 (ip : Bytes) : Option Bytes :=
  if ip.length = 4 then some ip
  else if ip.length = 16 ∧ ip.take 10 = List.replicate 10 0 ∧ ip.get? 10 = some 0xff ∧
      ip.get? 11 = some 0xff then some (ip.drop 12)
  else none

/-- The text of a number in the base `base` (Go `uitoa`, `appendHex`). -/
def digits (base n : Nat) : Bytes := (Nat.toDigits base n).map Char.toNat

/-- The eight 16-bit groups of a sixteen-byte IP. -/
def groups : Bytes → List Nat
  | hi :: lo :: rest => (hi * 256 + lo) :: groups rest
  | _ => []

/-- The number of zero groups at the head of a list of groups. -/
def zeroRun : List Nat → Nat
  | [] => 0
  | g :: rest => if g = 0 then 1 + zeroRun rest else 0

/-- The loop "find longest run of zeros" of `IP.String` from group `k` on:
`best` is the start and the length of the longest run found so far. -/
def longestRun : Nat → List Nat → Nat → Nat × Nat → Nat × Nat
  | 0, _, _, best => best
  | _ + 1, [], _, best => best
  | fuel + 1, g :: rest, k, best =>
    if zeroRun (g :: rest) > 0 ∧ zeroRun (g :: rest) > best.2 then
      longestRun fuel ((g :: rest).drop (zeroRun (g :: rest) + 1)) (k + zeroRun (g :: rest) + 1)
        (k, zeroRun (g :: rest))
    else longestRun fuel rest (k + 1) best

/-- The loop of `IP.String` that prints the groups from group `k` on, with `::`
in place of the run `run` when it is longer than one group. -/
def printGroups : Nat → List Nat → Nat → Nat × Nat → Bytes
  | 0, _, _, _ => []
  | _ + 1, [], _, _ => []
  | fuel + 1, g :: rest, k, run =>
    if run.2 > 1 ∧ k = run.1 then
      match (g :: rest).drop run.2 with
      | [] => [58, 58]
      | g1 :: rest1 => [58, 58] ++ digits 16 g1 ++ printGroups fuel rest1 (k + run.2 + 1) run
    else (if k > 0 then [58] else []) ++ digits 16 g ++ printGroups fuel rest (k + 1) run

/-- Go `hexString`: two lower-case hexadecimal digits per byte. -/
def hexString (ip : Bytes) : Bytes :=
  ip.flatMap fun b => digits 16 (b / 16) ++ digits 16 (b % 16)

/-- Go `net.IP.String`. -/
def IP.String (ip : Bytes) : Bytes :=
  if ip.length = 0 then ascii "<nil>"
  else
    match To4 ip with
    | some [a, b, c, d] =>
      digits 10 a ++ [46] ++ digits 10 b ++ [46] ++ digits 10 c ++ [46] ++ digits 10 d
    | _ =>
      if ip.length ≠ 16 then [63] ++ hexString ip
      else printGroups 9 (groups ip) 0 (longestRun 9 (groups ip) 0 (0, 0))

/-- The library with the models of `filepath.Match`, `net.ParseIP` and
`net.IP.String`; the Unicode case tables stay parameters. -/
def goLib (upperTable lowerTable : Nat → Nat) : Lib :=
  { upperTable := upperTable, lowerTable := lowerTable, pathMatch := filepathMatch,
    parseIP := ParseIP, ipString := IP.String }

/-- The library `sampleLib` with two entries of the upper-case table of
`unicode.ToUpper`: U+0131 (dotless i) has the upper case `I` and U+017F (long s)
the upper case `S`. -/
def unicodeLib : Lib :=
  { sampleLib with upperTable := fun r => if r = 0x131 then 0x49 else if r = 0x17F then 0x53 else r }

/-- A configuration without authentication. -/
def noAuthConfig : ServerConfig := { sampleConfig with authType := .NoAuth }

/-- The surroundings `w` with a parser that rejects every `HELO` and `EHLO`
argument. -/
def withStrictParser (w : World) : World :=
  { w with parserHelo := fun _ => none, parserEhlo := fun _ => none }

/-- The line `MAıL FROM:<a@b>`, whose third letter is U+0131 in UTF-8 (the bytes
`C4 B1`); it has sixteen bytes. -/
def dotlessMailLine : Bytes := ascii "MA" ++ [0xC4, 0xB1] ++ ascii "L FROM:<a@b>"

/-- Two entries of the lower-case table of `unicode.ToLower`: U+212A (the Kelvin
sign) has the lower case `k` and U+00C9 (E with acute) the lower case U+00E9. -/
def sampleLower (r : Nat) : Nat := if r = 0x212A then 0x6B else if r = 0xC9 then 0xE9 else r

/-- The entry `[KK1]` written with two Kelvin signs (`E2 84 AA` each): nine
bytes, whose lower-case form is the five bytes `[kk1]`. -/
def kelvinEntry : Bytes := ascii "[" ++ [0xE2, 0x84, 0xAA, 0xE2, 0x84, 0xAA] ++ ascii "1]"

/-- The surroundings of a session without authentication that sends `MAIL FROM`,
`RCPT TO` and `DATA` and whose message is then read with an error. -/
def failedDataWorlds : List World :=
  [sampleWorld sampleFile [],
   sampleWorld sampleFile (ascii "MAIL FROM:<a@b>"),
   sampleWorld sampleFile (ascii "RCPT TO:<x@example.com>"),
   sampleWorld sampleFile (ascii "DATA"),
   { sampleWorld sampleFile [] with dataErr := some .lineLimitExceeded }]

/-! ## Predicates used in the statements -/

/-- The state of a session that has not seen an `AUTH` command: `authDone` is
unset and the session is not waiting for credentials. -/
def NoAuthYet (s : Session) : Prop := s.authDone = false ∧ s.state ≠ .AuthPlainCredentials

/-- The link between the local `advertiseTLS` and the connection: the line
`250-STARTTLS` is kept exactly while `TLS.StartTLSOn` is set and the connection
is not a TLS connection. -/
def AdvertiseInv (sc : ServerConfig) (s : Session) : Prop :=
  s.advertiseTLS = if sc.startTLSOn = true ∧ s.tls = false then ascii "250-STARTTLS\r\n" else []

/-- The condition under which an iteration may read the message: a live session
in the `Data` state has a recipient. -/
def DataInv (s : Session) : Prop := s.alive = true → s.state = .Data → s.env.rcptTo ≠ []

/-- Whether the iteration on `s` in the surroundings `w` runs the `default` case
of the command switch: the state is `Cmd`, a line is read, no shutdown is under
way and the line matches no enabled verb. -/
def unrecognizedLine (w : World) (sc : ServerConfig) (s : Session) : Bool :=
  decide (s.state = .Cmd) && !w.shuttingDown &&
    match readCommand w.readSlice with
    | some (input, none) => decide (dispatch sc (commandOf w.lib input) = .unrecognized)
    | _ => false

/-- The number of iterations of the loop over `ws`, started on `s`, that run the
`default` case of the command switch. -/
def countUnrecognized (sc : ServerConfig) : List World → Session → Nat
  | [], _ => 0
  | w :: ws, s =>
    if s.alive then
      match tick w sc s with
      | .running s1 => (if unrecognizedLine w sc s then 1 else 0) + countUnrecognized sc ws s1
      | _ => 0
    else 0

/-- The strings `a` and `b` are ASCII case variants of each other: they differ
only in the case of ASCII letters, every other byte is the same. -/
def CaseVariant (a b : Bytes) : Prop := a.map lowerByte = b.map lowerByte

instance CaseVariant.decidable (a b : Bytes) : Decidable (CaseVariant a b) :=
  inferInstanceAs (Decidable (a.map lowerByte = b.map lowerByte))

/-- The condition of a case of the command switch; the `default` case has none. -/
def caseCond (sc : ServerConfig) (cmd : Bytes) : Branch → Bool
  | .helo => cmdMatch cmdHELO cmd
  | .ehlo => cmdMatch cmdEHLO cmd
  | .help => cmdMatch cmdHELP cmd
  | .xclient => sc.xclientOn && cmdMatch cmdXCLIENT cmd
  | .auth => cmdMatch cmdAUTH cmd
  | .mail => cmdMatch cmdMAIL cmd
  | .rcpt => cmdMatch cmdRCPT cmd
  | .rset => cmdMatch cmdRSET cmd
  | .vrfy => cmdMatch cmdVRFY cmd
  | .noop => cmdMatch cmdNOOP cmd
  | .asterisk => cmdMatch cmdASTERISK cmd
  | .quit => cmdMatch cmdQUIT cmd
  | .data => cmdMatch cmdDATA cmd
  | .starttls => sc.startTLSOn && cmdMatch cmdSTARTTLS cmd
  | .unrecognized => false

/-- The cases of the command switch, the `default` case apart, in the order in
which `handleClient` lists them. -/
def sourceCases : List Branch :=
  [.helo, .ehlo, .help, .xclient, .auth, .mail, .rcpt, .rset, .vrfy, .noop, .asterisk, .quit,
    .data, .starttls]

/-- A switch that lists the cases in the order `cases`: the first case whose
condition holds is selected, the `default` case when there is none. -/
def switchOn (sc : ServerConfig) (cmd : Bytes) (cases : List Branch) : Branch :=
  (cases.find? (caseCond sc cmd)).getD .unrecognized

/-- The strings `a` and `b` have the same lower-case form under `strings.ToLower`
with the case table `tbl`. -/
def SameLower (tbl : Nat → Nat) (a b : Bytes) : Prop := stringsToLower tbl a = stringsToLower tbl b

instance SameLower.decidable (tbl : Nat → Nat) (a b : Bytes) : Decidable (SameLower tbl a b) :=
  inferInstanceAs (Decidable (stringsToLower tbl a = stringsToLower tbl b))

/-- The host `h1` is a case variant of the host `h`: it differs in the case of
ASCII letters only, or it has the same lower-case form under `strings.ToLower`. -/
def HostVariant (tbl : Nat → Nat) (h h1 : Bytes) : Prop := CaseVariant h h1 ∨ SameLower tbl h h1

/-- The form of an entry that `setAllowedHosts` takes for an IP literal: more
than five bytes, the first `[` and the last `]`. -/
def Bracketed (e : Bytes) : Prop := e.length > 5 ∧ e.head? = some 91 ∧ e.getLast? = some 93

instance Bracketed.decidable (e : Bytes) : Decidable (Bracketed e) :=
  inferInstanceAs (Decidable (e.length > 5 ∧ e.head? = some 91 ∧ e.getLast? = some 93))

/-- The entry `e1` is a case variant of the entry `e` of one of the kinds under
which the two are treated alike: it differs in the case of ASCII letters only;
or it has the same lower-case form under `strings.ToLower` and either both are
wildcard entries (they contain `*`) or both are host names (no `*`, not of the
bracketed form). -/
def EntryVariant (tbl : Nat → Nat) (e e1 : Bytes) : Prop :=
  CaseVariant e e1 ∨
  (SameLower tbl e e1 ∧
    ((42 ∈ e ∧ 42 ∈ e1) ∨ (42 ∉ e ∧ ¬ Bracketed e ∧ 42 ∉ e1 ∧ ¬ Bracketed e1)))

/-! # Theorems -/

/-! ## Facts about the library functions -/

theorem cmdHELO_eq : cmdHELO = ascii "HELO" := by decide
theorem cmdEHLO_eq : cmdEHLO = ascii "EHLO" := by decide
theorem cmdHELP_eq : cmdHELP = ascii "HELP" := by decide
theorem cmdXCLIENT_eq : cmdXCLIENT = ascii "XCLIENT" := by decide
theorem cmdMAIL_eq : cmdMAIL = ascii "MAIL FROM:" := by decide
theorem cmdRCPT_eq : cmdRCPT = ascii "RCPT TO:" := by decide
theorem cmdRSET_eq : cmdRSET = ascii "RSET" := by decide
theorem cmdVRFY_eq : cmdVRFY = ascii "VRFY" := by decide
theorem cmdNOOP_eq : cmdNOOP = ascii "NOOP" := by decide
theorem cmdASTERISK_eq : cmdASTERISK = ascii "*" := by decide
theorem cmdQUIT_eq : cmdQUIT = ascii "QUIT" := by decide
theorem cmdDATA_eq : cmdDATA = ascii "DATA" := by decide
theorem cmdSTARTTLS_eq : cmdSTARTTLS = ascii "STARTTLS" := by decide
theorem cmdAUTH_eq : cmdAUTH = ascii "AUTH" := by decide

/-- A search that starts counting at a positive index never answers `0`. -/
theorem indexFrom_ne_zero (sep s : Bytes) (i : Int) (hi : 0 < i) : indexFrom sep s i ≠ 0 := by
  induction s generalizing i with
  | nil =>
    unfold indexFrom
    split <;> omega
  | cons c rest ih =>
    unfold indexFrom
    split
    · omega
    · exact ih (i + 1) (by omega)

/-- The method `command.match` holds exactly when the verb is at offset 0. -/
theorem cmdMatch_iff (c inp : Bytes) : cmdMatch c inp = true ↔ c <+: inp := by
  unfold cmdMatch bytesIndex
  cases inp with
  | nil =>
    unfold indexFrom
    by_cases h : c = [] <;> simp [h]
  | cons a rest =>
    unfold indexFrom
    by_cases h : c <+: a :: rest
    · simp [h]
    · have h1 := indexFrom_ne_zero c rest 1 (by omega)
      simp [h, h1]


/-! ## Sessions in which no `AUTH` command has been received -/

theorem afterSwitch_running (w : World) (s s1 : Session) (h : afterSwitch w s = .running s1) :
    s1 = s ∨ s1 = { s with flushed := s.out.length } := by
  unfold afterSwitch at h
  split at h
  · cases h
  · split at h
    · split at h
      · cases h
      · right; injection h with h; exact h.symm
    · left; injection h with h; exact h.symm

theorem afterSwitch_noAuthYet (w : World) (s s1 : Session) (h : afterSwitch w s = .running s1)
    (hs : NoAuthYet s) : NoAuthYet s1 := by
  rcases afterSwitch_running w s s1 h with h1 | h1 <;> subst h1 <;> exact hs

theorem xclientTok_frame (s : Session) (tok : Bytes) :
    (xclientTok s tok).authDone = s.authDone ∧ (xclientTok s tok).state = s.state := by
  unfold xclientTok
  split
  · split
    · exact ⟨rfl, rfl⟩
    · split <;> split <;> exact ⟨rfl, rfl⟩
  · exact ⟨rfl, rfl⟩

theorem xclientFold_frame (toks : List Bytes) (s : Session) :
    (toks.foldl xclientTok s).authDone = s.authDone ∧ (toks.foldl xclientTok s).state = s.state := by
  induction toks generalizing s with
  | nil => exact ⟨rfl, rfl⟩
  | cons t rest ih =>
    have h1 := ih (xclientTok s t)
    have h2 := xclientTok_frame s t
    simp only [List.foldl_cons]
    exact ⟨h1.1.trans h2.1, h1.2.trans h2.2⟩

/-- Every case of the command switch other than `AUTH` keeps `authDone` and does
not enter the credentials state. -/
theorem execBranch_noAuthYet (w : World) (sc : ServerConfig) (s s1 : Session) (input : Bytes)
    (b : Branch) (hb : b ≠ .auth) (h : execBranch w sc s input b = some s1) (hs : NoAuthYet s) :
    NoAuthYet s1 := by
  obtain ⟨ha, hst⟩ := hs
  cases b
  case auth => exact absurd rfl hb
  case helo =>
    simp only [execBranch, doHelo, Option.map_eq_some'] at h
    obtain ⟨arg, -, h⟩ := h
    subst h
    split <;> exact ⟨ha, hst⟩
  case ehlo =>
    simp only [execBranch, doEhlo, Option.map_eq_some'] at h
    obtain ⟨arg, -, h⟩ := h
    subst h
    split <;> exact ⟨ha, hst⟩
  case help =>
    simp only [execBranch, Option.some.injEq] at h
    subst h; exact ⟨ha, hst⟩
  case xclient =>
    simp only [execBranch, doXclient, Option.map_eq_some'] at h
    obtain ⟨arg, -, h⟩ := h
    subst h
    have hf := xclientFold_frame (split arg 32) s
    exact ⟨hf.1.trans ha, fun hc => hst (hf.2.symm.trans hc)⟩
  case mail =>
    simp only [execBranch, doMail] at h
    split at h
    · simp only [Option.some.injEq] at h; subst h; exact ⟨ha, hst⟩
    · split at h
      · simp only [Option.some.injEq] at h; subst h; exact ⟨ha, hst⟩
      · simp only [Option.map_eq_some'] at h
        obtain ⟨arg, -, h⟩ := h
        subst h
        split
        · exact ⟨ha, hst⟩
        · split <;> exact ⟨ha, hst⟩
  case rcpt =>
    simp only [execBranch, doRcpt] at h
    split at h
    · simp only [Option.some.injEq] at h; subst h; exact ⟨ha, hst⟩
    · simp only [Option.map_eq_some'] at h
      obtain ⟨arg, -, h⟩ := h
      subst h
      split
      · exact ⟨ha, hst⟩
      · split
        · exact ⟨ha, hst⟩
        · split <;> exact ⟨ha, hst⟩
  case rset =>
    simp only [execBranch, Option.some.injEq] at h
    subst h; exact ⟨ha, hst⟩
  case vrfy =>
    simp only [execBranch, Option.some.injEq] at h
    subst h; exact ⟨ha, hst⟩
  case noop =>
    simp only [execBranch, Option.some.injEq] at h
    subst h; exact ⟨ha, hst⟩
  case asterisk =>
    simp only [execBranch, Option.some.injEq] at h
    subst h; exact ⟨ha, hst⟩
  case quit =>
    simp only [execBranch, Option.some.injEq] at h
    subst h; exact ⟨ha, hst⟩
  case data =>
    simp only [execBranch, doData, Option.some.injEq] at h
    subst h
    split
    · exact ⟨ha, hst⟩
    · exact ⟨ha, by simp [sendResponse]⟩
  case starttls =>
    simp only [execBranch, Option.some.injEq] at h
    subst h
    exact ⟨ha, by simp⟩
  case unrecognized =>
    simp only [execBranch, doUnrecognized, Option.some.injEq] at h
    subst h
    split <;> exact ⟨ha, hst⟩


theorem dispatch_auth (sc : ServerConfig) (cmd : Bytes) (h : dispatch sc cmd = .auth) :
    cmdMatch cmdAUTH cmd = true := by
  unfold dispatch at h
  by_cases h0 : cmdMatch cmdHELO cmd = true
  · rw [if_pos h0] at h; cases h
  rw [if_neg h0] at h
  by_cases h1 : cmdMatch cmdEHLO cmd = true
  · rw [if_pos h1] at h; cases h
  rw [if_neg h1] at h
  by_cases h2 : cmdMatch cmdHELP cmd = true
  · rw [if_pos h2] at h; cases h
  rw [if_neg h2] at h
  by_cases h3 : (sc.xclientOn && cmdMatch cmdXCLIENT cmd) = true
  · rw [if_pos h3] at h; cases h
  rw [if_neg h3] at h
  by_cases h4 : cmdMatch cmdAUTH cmd = true
  · exact h4
  rw [if_neg h4] at h
  by_cases h5 : cmdMatch cmdMAIL cmd = true
  · rw [if_pos h5] at h; cases h
  rw [if_neg h5] at h
  by_cases h6 : cmdMatch cmdRCPT cmd = true
  · rw [if_pos h6] at h; cases h
  rw [if_neg h6] at h
  by_cases h7 : cmdMatch cmdRSET cmd = true
  · rw [if_pos h7] at h; cases h
  rw [if_neg h7] at h
  by_cases h8 : cmdMatch cmdVRFY cmd = true
  · rw [if_pos h8] at h; cases h
  rw [if_neg h8] at h
  by_cases h9 : cmdMatch cmdNOOP cmd = true
  · rw [if_pos h9] at h; cases h
  rw [if_neg h9] at h
  by_cases h10 : cmdMatch cmdASTERISK cmd = true
  · rw [if_pos h10] at h; cases h
  rw [if_neg h10] at h
  by_cases h11 : cmdMatch cmdQUIT cmd = true
  · rw [if_pos h11] at h; cases h
  rw [if_neg h11] at h
  by_cases h12 : cmdMatch cmdDATA cmd = true
  · rw [if_pos h12] at h; cases h
  rw [if_neg h12] at h
  by_cases h13 : (sc.startTLSOn && cmdMatch cmdSTARTTLS cmd) = true
  · rw [if_pos h13] at h; cases h
  rw [if_neg h13] at h
  cases h

theorem onLine_noAuthYet (w : World) (s s1 : Session) (body : Bytes → Option Session)
    (hs : NoAuthYet s)
    (hbody : ∀ input s2, readCommand w.readSlice = some (input, none) → body input = some s2 →
      NoAuthYet s2)
    (h : onLine w s body = .running s1) : NoAuthYet s1 := by
  unfold onLine at h
  split at h
  · cases h
  · cases h
  · cases h
  · exact afterSwitch_noAuthYet w _ s1 h hs
  · exact afterSwitch_noAuthYet w _ s1 h hs
  · rename_i input hread
    split at h
    · injection h with h
      subst h
      exact ⟨hs.1, by simp⟩
    · split at h
      · cases h
      · rename_i s2 hb
        exact afterSwitch_noAuthYet w _ s1 h (hbody input s2 hread hb)

theorem dataTick_noAuthYet (w : World) (sc : ServerConfig) (s : Session) (hs : NoAuthYet s)
    : NoAuthYet (dataTick w sc s) := by
  obtain ⟨ha, hst⟩ := hs
  unfold dataTick
  simp only
  split
  · exact ⟨ha, hst⟩
  · exact ⟨ha, hst⟩
  · exact ⟨ha, hst⟩
  · refine ⟨?_, ?_⟩
    · simp only [resetTransaction, sendResponse]
      split <;> split <;> exact ha
    · simp only [resetTransaction, sendResponse]
      split <;> simp

theorem startTLSTick_noAuthYet (w : World) (sc : ServerConfig) (s : Session) (hs : NoAuthYet s) :
    NoAuthYet (startTLSTick w sc s) := by
  obtain ⟨ha, hst⟩ := hs
  unfold startTLSTick
  refine ⟨?_, by simp⟩
  simp only
  split
  · split
    · exact ha
    · split <;> exact ha
  · exact ha

/-- An iteration that reads no `AUTH` line keeps a session without `AUTH` in
that condition. -/
theorem tick_noAuthYet (w : World) (sc : ServerConfig) (s s1 : Session) (hs : NoAuthYet s)
    (hline : ∀ inp, readCommand w.readSlice = some (inp, none) →
      cmdMatch cmdAUTH (commandOf w.lib inp) = false)
    (h : tick w sc s = .running s1) : NoAuthYet s1 := by
  unfold tick at h
  split at h
  · exact afterSwitch_noAuthYet w _ s1 h ⟨hs.1, by simp [sendResponse]⟩
  · have hs1 : NoAuthYet { s with limit := CommandLineMaxLength } := ⟨hs.1, hs.2⟩
    refine onLine_noAuthYet w _ s1 _ hs1 ?_ h
    intro input s2 hread hb
    refine execBranch_noAuthYet w sc _ s2 input _ ?_ hb ⟨hs.1, hs.2⟩
    intro hc
    have := dispatch_auth sc _ hc
    rw [hline input hread] at this
    cases this
  · rename_i hst
    exact absurd hst hs.2
  · rename_i hst
    exact afterSwitch_noAuthYet w _ s1 h (dataTick_noAuthYet w sc s hs)
  · exact afterSwitch_noAuthYet w _ s1 h (startTLSTick_noAuthYet w sc s hs)
  · exact afterSwitch_noAuthYet w _ s1 h ⟨hs.1, hs.2⟩

theorem loop_noAuthYet (sc : ServerConfig) (ws : List World) (s s1 : Session) (hs : NoAuthYet s)
    (hline : ∀ w ∈ ws, ∀ inp, readCommand w.readSlice = some (inp, none) →
      cmdMatch cmdAUTH (commandOf w.lib inp) = false)
    (h : loop sc ws s = .running s1) : NoAuthYet s1 := by
  induction ws generalizing s with
  | nil =>
    unfold loop at h
    injection h with h
    subst h
    exact hs
  | cons w rest ih =>
    unfold loop at h
    split at h
    · split at h
      · rename_i s2 ht
        exact ih s2 (tick_noAuthYet w sc s s2 hs (hline w (List.mem_cons_self w rest)) ht)
          (fun w1 hw1 => hline w1 (List.mem_cons_of_mem w hw1)) h
      · rename_i hne
        exact absurd h (hne s1)
    · cases h

theorem startSession_noAuthYet (w : World) (sc : ServerConfig) (c : Session)
    (hc : c.state = .Greeting) : NoAuthYet (startSession w sc c) := by
  unfold startSession
  simp only
  refine ⟨?_, ?_⟩
  · split <;> split <;> try split
    all_goals try split
    all_goals rfl
  · split <;> split <;> try split
    all_goals try split
    all_goals simp [kill, hc]


theorem cmdMatch_head (a : Nat) (c cmd : Bytes) (h : cmdMatch (a :: c) cmd = true) :
    cmd.head? = some a := by
  rw [cmdMatch_iff] at h
  obtain ⟨t, rfl⟩ := h
  rfl

/-- Two verbs that start with different bytes do not match the same command. -/
theorem cmdMatch_other (a b : Nat) (c d cmd : Bytes) (h : cmdMatch (a :: c) cmd = true)
    (hab : a ≠ b) : cmdMatch (b :: d) cmd = false := by
  cases hb : cmdMatch (b :: d) cmd
  · rfl
  · have h1 := cmdMatch_head a c cmd h
    have h2 := cmdMatch_head b d cmd hb
    rw [h1] at h2
    injection h2 with h2
    exact absurd h2 hab

/-- A command that matches `MAIL FROM:` selects the case `cmdMAIL`. -/
theorem dispatch_mail (sc : ServerConfig) (cmd : Bytes) (h : cmdMatch cmdMAIL cmd = true) :
    dispatch sc cmd = .mail := by
  have e1 : cmdMatch cmdHELO cmd = false := cmdMatch_other 77 72 _ _ cmd h (by decide)
  have e2 : cmdMatch cmdEHLO cmd = false := cmdMatch_other 77 69 _ _ cmd h (by decide)
  have e3 : cmdMatch cmdHELP cmd = false := cmdMatch_other 77 72 _ _ cmd h (by decide)
  have e4 : cmdMatch cmdXCLIENT cmd = false := cmdMatch_other 77 88 _ _ cmd h (by decide)
  have e5 : cmdMatch cmdAUTH cmd = false := cmdMatch_other 77 65 _ _ cmd h (by decide)
  simp [dispatch, e1, e2, e3, e4, e5, h]

/-- The code after the state switch never panics: it ends the iteration with the
session it was given, up to the count of flushed replies. -/
theorem afterSwitch_session (w : World) (s : Session) :
    (afterSwitch w s).session = some s ∨
      (afterSwitch w s).session = some { s with flushed := s.out.length } := by
  unfold afterSwitch
  split
  · left; rfl
  · split
    · split
      · left; rfl
      · right; rfl
    · left; rfl

/-- An iteration in the `Cmd` state that reads the line `input`, with no shutdown
under way, runs the command switch on it and then flushes. -/
theorem tick_cmd (w : World) (sc : ServerConfig) (s : Session) (input : Bytes)
    (hCmd : s.state = .Cmd) (hRead : readCommand w.readSlice = some (input, none))
    (hUp : w.shuttingDown = false) :
    tick w sc s =
      match execCmd w sc { s with limit := CommandLineMaxLength } input with
      | none => .panicked
      | some s1 => afterSwitch w s1 := by
  unfold tick
  rw [hCmd]
  simp only [onLine, hRead, hUp, Bool.false_eq_true, if_false]

/-- C2: with `AuthConfig.Type != NoAuth`, in a session that has received no line
matching the `AUTH` verb so far, a line matching `MAIL FROM:` in the `Cmd` state
is answered with the `FailInvalidAuth` reply and nothing else happens: the
iteration does not depend on the address parser, `MailFrom` is unchanged and the
state stays `Cmd`. -/
theorem mail_from_without_auth (sc : ServerConfig) (w0 : World) (ws : List World)
    (c s : Session) (w : World) (input : Bytes)
    (hType : sc.authType ≠ .NoAuth)
    (hStart : c.state = .Greeting)
    (hNoAuth : ∀ w1 ∈ ws, ∀ inp, readCommand w1.readSlice = some (inp, none) →
      cmdMatch cmdAUTH (commandOf w1.lib inp) = false)
    (hRun : handleClient sc w0 ws c = .running s)
    (hCmd : s.state = .Cmd)
    (hRead : readCommand w.readSlice = some (input, none))
    (hUp : w.shuttingDown = false)
    (hMail : cmdMatch cmdMAIL (commandOf w.lib input) = true) :
    execCmd w sc s input = some (sendResponse s [.canned .FailInvalidAuth]) ∧
    tick w sc s =
      afterSwitch w (sendResponse { s with limit := CommandLineMaxLength } [.canned .FailInvalidAuth]) ∧
    (∀ p, tick { w with parseMailFrom := p } sc s = tick w sc s) ∧
    ∃ s1, (tick w sc s).session = some s1 ∧ s1.out = s.out ++ [[.canned .FailInvalidAuth]] ∧
      s1.env = s.env ∧ s1.state = .Cmd ∧ s1.authDone = false := by
  have hInv : NoAuthYet s :=
    loop_noAuthYet sc ws _ s (startSession_noAuthYet w0 sc c hStart) hNoAuth hRun
  have hExec : ∀ s2 : Session, s2.authDone = false →
      execCmd w sc s2 input = some (sendResponse s2 [.canned .FailInvalidAuth]) := by
    intro s2 h2
    simp [execCmd, dispatch_mail sc _ hMail, execBranch, doMail, hType, h2]
  have hTick : tick w sc s =
      afterSwitch w (sendResponse { s with limit := CommandLineMaxLength } [.canned .FailInvalidAuth]) := by
    rw [tick_cmd w sc s input hCmd hRead hUp, hExec { s with limit := CommandLineMaxLength } hInv.1]
  refine ⟨hExec s hInv.1, hTick, ?_, ?_⟩
  · intro p
    have hMail1 : cmdMatch cmdMAIL (commandOf ({ w with parseMailFrom := p } : World).lib input) = true :=
      hMail
    have h3 : execCmd { w with parseMailFrom := p } sc { s with limit := CommandLineMaxLength } input =
        some (sendResponse { s with limit := CommandLineMaxLength } [.canned .FailInvalidAuth]) := by
      simp [execCmd, dispatch_mail sc _ hMail1, execBranch, doMail, hType, hInv.1]
    rw [hTick, tick_cmd { w with parseMailFrom := p } sc s input hCmd hRead hUp, h3]
    rfl
  · rw [hTick]
    rcases afterSwitch_session w
      (sendResponse { s with limit := CommandLineMaxLength } [.canned .FailInvalidAuth]) with h | h
    · exact ⟨_, h, rfl, rfl, hCmd, hInv.1⟩
    · exact ⟨_, h, rfl, rfl, hCmd, hInv.1⟩


/-- Witness of C2: after the greeting, `MAIL FROM:<a@b>` is answered with
`FailInvalidAuth` under a configuration that requires `AUTH`. -/
theorem mail_from_without_auth_witness :
    sampleConfig.authType ≠ .NoAuth ∧
    execCmd (sampleWorld .missing (ascii "MAIL FROM:<a@b>")) sampleConfig greetedSession
        (ascii "MAIL FROM:<a@b>") =
      some (sendResponse greetedSession [.canned .FailInvalidAuth]) :=
  ⟨by decide,
   (mail_from_without_auth sampleConfig (sampleWorld .missing []) [sampleWorld .missing []]
    (newClient []) greetedSession (sampleWorld .missing (ascii "MAIL FROM:<a@b>"))
    (ascii "MAIL FROM:<a@b>") (by decide) (by decide)
    (by
      intro w1 hw inp hr
      rw [List.mem_singleton] at hw
      subst hw
      have h0 : readCommand (sampleWorld .missing []).readSlice = some ([], none) := by decide
      rw [h0] at hr
      cases hr
      decide)
    (by decide) (by decide) (by decide) (by decide) (by decide)).1⟩

/-! ## The code at the inputs where it departs from the claims -/

/-- C1, the code at the failing input: under a configuration that requires
`AUTH`, an `AUTH PLAIN` line whose base64 does not decode, or whose credentials
the store rejects, is answered with `FailInvalidAuth` and still sets `authDone`;
the `MAIL FROM` line that follows is parsed and answered with `SuccessMailCmd`,
although no `SuccessAuthCmd` reply was sent in the session. -/
theorem mail_from_after_failed_auth :
    (handleClient sampleConfig (sampleWorld sampleFile [])
        [sampleWorld sampleFile [], sampleWorld sampleFile (ascii "AUTH PLAIN !!!"),
          sampleWorld sampleFile (ascii "MAIL FROM:<a@b>")] (newClient [])).session.map
        (fun s => (s.out, s.env.mailFrom.user, s.authDone)) =
      some ([[.greeting (ascii "mail.example.com")], [.canned .FailInvalidAuth],
        [.canned .SuccessMailCmd]], ascii "<a@b>", true) ∧
    (handleClient sampleConfig (sampleWorld sampleFile [])
        [sampleWorld sampleFile [], sampleWorld sampleFile (ascii "AUTH PLAIN AGFnbmkAd3Jvbmc="),
          sampleWorld sampleFile (ascii "MAIL FROM:<a@b>")] (newClient [])).session.map
        (fun s => (s.out, s.env.mailFrom.user, s.authDone)) =
      some ([[.greeting (ascii "mail.example.com")], [.canned .FailInvalidAuth],
        [.canned .SuccessMailCmd]], ascii "<a@b>", true) := by
  constructor <;> decide

set_option maxRecDepth 100000 in
/-- C3, the code at the failing input: with exactly `LimitRecipients` recipients
in the envelope, a `RCPT TO` line is parsed and answered with `SuccessRcptCmd`,
and the envelope then holds `LimitRecipients + 1` recipients; 101 `RCPT TO`
lines in a row bring a session there.  Only the line after that is answered with
`ErrorTooManyRecipients`. -/
theorem rcpt_accepted_at_limit :
    (sessionWithRcpts 100).env.rcptTo.length = LimitRecipients ∧
    (tick (sampleWorld sampleFile (ascii "RCPT TO:<x@example.com>")) sampleConfig
        (sessionWithRcpts 100)).session.map (fun s => (s.env.rcptTo.length, s.out.getLast?)) =
      some (LimitRecipients + 1, some [.canned .SuccessRcptCmd]) ∧
    (loop sampleConfig
        (List.replicate 101 (sampleWorld sampleFile (ascii "RCPT TO:<x@example.com>")))
        greetedSession).session.map (fun s => s.env.rcptTo.length) = some (LimitRecipients + 1) ∧
    (tick (sampleWorld sampleFile (ascii "RCPT TO:<x@example.com>")) sampleConfig
        (sessionWithRcpts 101)).session.map (fun s => (s.env.rcptTo.length, s.out.getLast?)) =
      some (LimitRecipients + 1, some [.canned .ErrorTooManyRecipients]) := by
  refine ⟨?_, ?_, ?_, ?_⟩ <;> decide

/-- C4, the code at the failing input: the payload `\0` `C3 A9` `\0` `p` (base64
`AMOpAHA=`, authcid the two bytes of a UTF-8 `e` with acute accent) yields the
four-byte user `C3 83 C2 A9`, which is not the authcid. -/
theorem plain_loop_non_ascii :
    b64DecodeString (ascii "AMOpAHA=") = some [0, 0xC3, 0xA9, 0, 0x70] ∧
    plainLoop ([] ++ [0] ++ [0xC3, 0xA9] ++ [0] ++ [0x70]) 0 [] [] =
      ([0xC3, 0x83, 0xC2, 0xA9], [0x70]) ∧
    decodePlain (ascii "AMOpAHA=") ≠ some ([0xC3, 0xA9], [0x70]) := by
  refine ⟨?_, ?_, ?_⟩ <;> decide

/-- C5, the code at the failing input: when the store answers not-ok without an
error, neither `AUTH PLAIN <b64>` nor the credentials line gets a reply; the
list of replies is what it was before. -/
theorem auth_plain_without_reply :
    (tick (withSilentStore (sampleWorld sampleFile (ascii "AUTH PLAIN AGFnbmkAcGFzcw==")))
        sampleConfig greetedSession).session.map (fun s => (s.out, s.state)) =
      some (greetedSession.out, .Cmd) ∧
    (tick (withSilentStore (sampleWorld sampleFile (ascii "AGFnbmkAcGFzcw==")))
        sampleConfig credentialsSession).session.map (fun s => (s.out, s.state)) =
      some (credentialsSession.out, .Cmd) := by
  constructor <;> decide

/-- C6, the code at the failing input: the bare line `AUTH` makes the `AUTH`
case index the second field of a one-field split, a run-time panic, and no reply
is sent. -/
theorem bare_auth_panics :
    split (ascii "AUTH") 32 = [ascii "AUTH"] ∧
    execCmd (sampleWorld sampleFile (ascii "AUTH")) sampleConfig greetedSession (ascii "AUTH") =
      none ∧
    tick (sampleWorld sampleFile (ascii "AUTH")) sampleConfig greetedSession = .panicked := by
  refine ⟨?_, ?_, ?_⟩ <;> decide

/-- C7, the code at the failing input: with the file `agni,pass\n` the record
that `LoadFile` builds has the password `pass\n`, so `Authenticate("agni",
"pass")` returns `(false, User/Password not found)`. -/
theorem file_store_keeps_newline :
    FileAuthStore.LoadFile (.content (ascii "agni,pass\n") false) =
      ([{ username := ascii "agni", password := ascii "pass\n" }], none) ∧
    FileAuthStore.Authenticate (.content (ascii "agni,pass\n") false) (ascii "agni") (ascii "pass") =
      (false, some .notFound) := by
  constructor <;> decide


/-! ## Case variants of a verb -/

theorem upperByte_le (c : Nat) (h : c < 128) : upperByte c ≤ 0x7F := by
  unfold upperByte
  split <;> omega

theorem map_upperByte_of_no_lower (s : Bytes)
    (h : s.any (fun c => decide (97 ≤ c ∧ c ≤ 122)) = false) : s.map upperByte = s := by
  induction s with
  | nil => rfl
  | cons c rest ih =>
    rw [List.any_cons, Bool.or_eq_false_iff] at h
    have hc : ¬ (97 ≤ c ∧ c ≤ 122) := by simpa using h.1
    rw [List.map_cons, ih h.2]
    unfold upperByte
    rw [if_neg hc]

/-- On an all-ASCII input `bytes.ToUpper` upper-cases byte by byte. -/
theorem bytesToUpper_ascii (tbl : Nat → Nat) (s : Bytes)
    (h : s.all (fun c => decide (c < 0x80)) = true) : bytesToUpper tbl s = s.map upperByte := by
  unfold bytesToUpper
  rw [if_pos h]
  split
  · rfl
  · rename_i hl
    exact (map_upperByte_of_no_lower s (by simpa using hl)).symm

theorem mapRunes_ascii_append (tbl : Nat → Nat) (p t : Bytes) (hp : ∀ c ∈ p, c < 128) :
    mapRunes (unicodeToUpper tbl) (p ++ t) 0 = p.map upperByte ++ mapRunes (unicodeToUpper tbl) t 0 := by
  induction p with
  | nil => rfl
  | cons c rest ih =>
    have hc : c < 128 := hp c (List.mem_cons_self c rest)
    have hu := upperByte_le c hc
    have ih1 := ih (fun d hd => hp d (List.mem_cons_of_mem c hd))
    have h1 : ¬ c ≥ 0x80 := by omega
    have h2 : c ≤ 0x7F := by omega
    simp only [List.cons_append, mapRunes, if_neg h1, unicodeToUpper, if_pos h2, encodeRune,
      if_pos hu, Nat.sub_self, List.append_eq, ih1, List.map_cons, List.singleton_append,
      List.nil_append]

/-- An ASCII head of the input of `bytes.ToUpper` is upper-cased byte by byte and
does not affect what becomes of the rest. -/
theorem bytesToUpper_append (tbl : Nat → Nat) (p t : Bytes) (hp : ∀ c ∈ p, c < 128) :
    bytesToUpper tbl (p ++ t) = p.map upperByte ++ bytesToUpper tbl t := by
  have hpa : p.all (fun c => decide (c < 0x80)) = true := by
    rw [List.all_eq_true]
    intro c hc
    exact decide_eq_true (hp c hc)
  cases ht : t.all (fun c => decide (c < 0x80))
  · have hpt : (p ++ t).all (fun c => decide (c < 0x80)) = false := by
      rw [List.all_append, ht, Bool.and_false]
    unfold bytesToUpper
    rw [hpt, ht]
    simp only [Bool.false_eq_true, if_false]
    exact mapRunes_ascii_append tbl p t hp
  · have hpt : (p ++ t).all (fun c => decide (c < 0x80)) = true := by
      rw [List.all_append, ht, hpa, Bool.and_true]
    rw [bytesToUpper_ascii tbl _ hpt, bytesToUpper_ascii tbl _ ht, List.map_append]

theorem take_cmdLen_append (p t : Bytes) (hl : p.length ≤ CommandVerbMaxLength) :
    (p ++ t).take (if (p ++ t).length > CommandVerbMaxLength then CommandVerbMaxLength
        else (p ++ t).length) = p ++ t.take (CommandVerbMaxLength - p.length) := by
  rw [List.take_append_eq_append_take]
  split
  · rw [List.take_of_length_le hl]
  · rename_i h
    rw [List.length_append] at h
    rw [List.length_append, List.take_of_length_le (Nat.le_add_right _ _), Nat.add_sub_cancel_left,
      List.take_length, List.take_of_length_le (by omega)]

/-- The command of a line that begins with the ASCII bytes `p`: the upper-cased
`p` followed by a part that depends on the length of `p` and on the tail only. -/
theorem commandOf_append (lib : Lib) (p t : Bytes) (hp : ∀ c ∈ p, c < 128)
    (hl : p.length ≤ CommandVerbMaxLength) :
    commandOf lib (p ++ t) =
      p.map upperByte ++ bytesToUpper lib.upperTable (t.take (CommandVerbMaxLength - p.length)) := by
  unfold commandOf
  simp only
  rw [take_cmdLen_append p t hl, bytesToUpper_append lib.upperTable p _ hp]

theorem sliceFrom_append (p t : Bytes) (k : Nat) (hk : p.length ≤ k) :
    sliceFrom (p ++ t) k = sliceFrom t (k - p.length) := by
  unfold sliceFrom
  rw [List.length_append, List.drop_append_eq_append_drop, List.drop_eq_nil_of_le hk,
    List.nil_append]
  by_cases h : k ≤ p.length + t.length
  · rw [if_pos h, if_pos (by omega)]
  · rw [if_neg h, if_neg (by omega)]

theorem splitAux_append (sep : Nat) (p t cur : Bytes) (hp : sep ∉ p) :
    splitAux sep (p ++ t) cur = splitAux sep t (cur ++ p) := by
  induction p generalizing cur with
  | nil => simp
  | cons c rest ih =>
    have hc : c ≠ sep := fun h => hp (h ▸ List.mem_cons_self c rest)
    have hr : sep ∉ rest := fun h => hp (List.mem_cons_of_mem c h)
    simp only [List.cons_append, splitAux, if_neg hc, List.append_eq]
    rw [ih _ hr, List.append_assoc, List.singleton_append]

theorem splitAux_cur (sep : Nat) (t cur : Bytes) :
    splitAux sep t cur =
      (cur ++ (splitAux sep t []).headD []) :: (splitAux sep t []).tail := by
  induction t generalizing cur with
  | nil => simp [splitAux]
  | cons c rest ih =>
    by_cases hc : c = sep
    · simp [splitAux, hc]
    · simp only [splitAux, if_neg hc, List.nil_append]
      rw [ih (cur ++ [c]), ih [c]]
      simp

/-- The fields of a line that begins with separator-free bytes `p`: `p` is part
of the first field and the other fields are those of the tail. -/
theorem split_append (sep : Nat) (p t : Bytes) (hp : sep ∉ p) :
    split (p ++ t) sep = (p ++ (split t sep).headD []) :: (split t sep).tail := by
  unfold split
  rw [splitAux_append sep p t [] hp, List.nil_append, splitAux_cur]

/-- The `AUTH` case looks at the fields after the first one only. -/
theorem doAuth_fields (w : World) (sc : ServerConfig) (s : Session) (i1 i2 f1 f2 : Bytes)
    (rest : List Bytes) (h1 : split i1 32 = f1 :: rest) (h2 : split i2 32 = f2 :: rest) :
    doAuth w sc s i1 = doAuth w sc s i2 := by
  unfold doAuth
  simp only [h1, h2, index, List.length_cons, List.get?_cons_succ]


/-- The case that the command switch selects has its verb at offset 0 of the
command. -/
theorem dispatch_sound (sc : ServerConfig) (cmd : Bytes) (b : Branch) (h : dispatch sc cmd = b)
    (u : Bytes) (hu : verbOf b = some u) : cmdMatch u cmd = true := by
  unfold dispatch at h
  by_cases h0 : cmdMatch cmdHELO cmd = true
  · rw [if_pos h0] at h; subst h
    injection hu with hu; subst hu
    exact h0
  rw [if_neg h0] at h
  by_cases h1 : cmdMatch cmdEHLO cmd = true
  · rw [if_pos h1] at h; subst h
    injection hu with hu; subst hu
    exact h1
  rw [if_neg h1] at h
  by_cases h2 : cmdMatch cmdHELP cmd = true
  · rw [if_pos h2] at h; subst h
    injection hu with hu; subst hu
    exact h2
  rw [if_neg h2] at h
  by_cases h3 : (sc.xclientOn && cmdMatch cmdXCLIENT cmd) = true
  · rw [if_pos h3] at h; subst h
    injection hu with hu; subst hu
    exact (Bool.and_eq_true _ _ ▸ h3).2
  rw [if_neg h3] at h
  by_cases h4 : cmdMatch cmdAUTH cmd = true
  · rw [if_pos h4] at h; subst h
    injection hu with hu; subst hu
    exact h4
  rw [if_neg h4] at h
  by_cases h5 : cmdMatch cmdMAIL cmd = true
  · rw [if_pos h5] at h; subst h
    injection hu with hu; subst hu
    exact h5
  rw [if_neg h5] at h
  by_cases h6 : cmdMatch cmdRCPT cmd = true
  · rw [if_pos h6] at h; subst h
    injection hu with hu; subst hu
    exact h6
  rw [if_neg h6] at h
  by_cases h7 : cmdMatch cmdRSET cmd = true
  · rw [if_pos h7] at h; subst h
    injection hu with hu; subst hu
    exact h7
  rw [if_neg h7] at h
  by_cases h8 : cmdMatch cmdVRFY cmd = true
  · rw [if_pos h8] at h; subst h
    injection hu with hu; subst hu
    exact h8
  rw [if_neg h8] at h
  by_cases h9 : cmdMatch cmdNOOP cmd = true
  · rw [if_pos h9] at h; subst h
    injection hu with hu; subst hu
    exact h9
  rw [if_neg h9] at h
  by_cases h10 : cmdMatch cmdASTERISK cmd = true
  · rw [if_pos h10] at h; subst h
    injection hu with hu; subst hu
    exact h10
  rw [if_neg h10] at h
  by_cases h11 : cmdMatch cmdQUIT cmd = true
  · rw [if_pos h11] at h; subst h
    injection hu with hu; subst hu
    exact h11
  rw [if_neg h11] at h
  by_cases h12 : cmdMatch cmdDATA cmd = true
  · rw [if_pos h12] at h; subst h
    injection hu with hu; subst hu
    exact h12
  rw [if_neg h12] at h
  by_cases h13 : (sc.startTLSOn && cmdMatch cmdSTARTTLS cmd) = true
  · rw [if_pos h13] at h; subst h
    injection hu with hu; subst hu
    exact (Bool.and_eq_true _ _ ▸ h13).2
  rw [if_neg h13] at h
  subst h
  cases hu

theorem upperByte_ascii (c : Nat) (h : upperByte c < 128) : c < 128 := by
  unfold upperByte at h
  split at h <;> omega

theorem ascii_of_map_upperByte (p q : Bytes) (h : p.map upperByte = q) (hq : ∀ c ∈ q, c < 128) :
    ∀ c ∈ p, c < 128 := by
  intro c hc
  exact upperByte_ascii c (hq _ (h ▸ List.mem_map_of_mem upperByte hc))

theorem no_space_of_map_upperByte (p q : Bytes) (h : p.map upperByte = q) (hq : 32 ∉ q) :
    32 ∉ p := by
  intro hc
  exact hq (h ▸ List.mem_map_of_mem upperByte hc)

/-- What the verbs are like: upper-case ASCII of at most sixteen bytes; and, by
first byte, no longer than the offset at which the case that starts with that
byte slices the line, with no space in the one verb that starts like `AUTH`. -/
theorem verbs_table : ∀ u ∈ verbs,
    u.map upperByte = u ∧ (∀ c ∈ u, c < 128) ∧ u.length ≤ CommandVerbMaxLength ∧ u ≠ [] ∧
    (u.head? = some 72 → u.length ≤ 4) ∧ (u.head? = some 69 → u.length ≤ 4) ∧
    (u.head? = some 88 → u.length ≤ 8) ∧ (u.head? = some 82 → u.length ≤ 8) ∧
    (u.head? = some 77 → u.length ≤ 10) ∧ (u.head? = some 65 → 32 ∉ u) := by
  decide

/-- The body of a case of the command switch is the same on two lines that
differ in a head of equal length, when that head is no longer than the offset the
case slices at and, for `AUTH`, has no space. -/
theorem execBranch_variant (w : World) (sc : ServerConfig) (s : Session) (p q tail : Bytes)
    (b : Branch) (hlen : p.length = q.length)
    (h4 : b = .helo ∨ b = .ehlo → q.length ≤ 4)
    (h8 : b = .xclient ∨ b = .rcpt → q.length ≤ 8)
    (h10 : b = .mail → q.length ≤ 10)
    (ha : b = .auth → 32 ∉ p ∧ 32 ∉ q) :
    execBranch w sc s (p ++ tail) b = execBranch w sc s (q ++ tail) b := by
  cases b
  case helo =>
    have h := h4 (Or.inl rfl)
    simp only [execBranch, doHelo]
    rw [sliceFrom_append p tail 4 (hlen ▸ h), sliceFrom_append q tail 4 h, hlen]
  case ehlo =>
    have h := h4 (Or.inr rfl)
    simp only [execBranch, doEhlo]
    rw [sliceFrom_append p tail 4 (hlen ▸ h), sliceFrom_append q tail 4 h, hlen]
  case xclient =>
    have h := h8 (Or.inl rfl)
    simp only [execBranch, doXclient]
    rw [sliceFrom_append p tail 8 (hlen ▸ h), sliceFrom_append q tail 8 h, hlen]
  case rcpt =>
    have h := h8 (Or.inr rfl)
    simp only [execBranch, doRcpt]
    rw [sliceFrom_append p tail 8 (hlen ▸ h), sliceFrom_append q tail 8 h, hlen]
  case mail =>
    have h := h10 rfl
    simp only [execBranch, doMail]
    rw [sliceFrom_append p tail 10 (hlen ▸ h), sliceFrom_append q tail 10 h, hlen]
  case auth =>
    obtain ⟨hp, hq⟩ := ha rfl
    simp only [execBranch]
    exact doAuth_fields w sc s _ _ _ _ _ (split_append 32 p tail hp) (split_append 32 q tail hq)
  all_goals rfl


/-- An iteration in the `Cmd` state that reads the line `input`: the shutdown
check, the command switch, the flush. -/
theorem tick_line (w : World) (sc : ServerConfig) (s : Session) (input : Bytes)
    (hCmd : s.state = .Cmd) (hRead : readCommand w.readSlice = some (input, none)) :
    tick w sc s =
      if w.shuttingDown then
        .running { s with limit := CommandLineMaxLength, state := .Shutdown }
      else
        match execCmd w sc { s with limit := CommandLineMaxLength } input with
        | none => .panicked
        | some s1 => afterSwitch w s1 := by
  unfold tick
  rw [hCmd]
  simp only [onLine, hRead]

/-- C8: for each of the fourteen verbs `v`, every tail and every variant `v'` of
`v` that differs from it in the case of ASCII letters only, the line `v' ++ tail`
gives the same command, selects the same case of the command switch and has the
same effect on the session (replies included) as the line `v ++ tail`; so does a
whole iteration in the `Cmd` state that reads the one line or the other. -/
theorem verb_case_insensitive (w : World) (sc : ServerConfig) (s : Session)
    (v v' tail : Bytes) (hv : v ∈ verbs) (hvar : v'.map upperByte = v) :
    dispatch sc (commandOf w.lib (v' ++ tail)) = dispatch sc (commandOf w.lib (v ++ tail)) ∧
    execCmd w sc s (v' ++ tail) = execCmd w sc s (v ++ tail) ∧
    ∀ r1 r2, readCommand r1 = some (v' ++ tail, none) → readCommand r2 = some (v ++ tail, none) →
      s.state = .Cmd →
      tick { w with readSlice := r1 } sc s = tick { w with readSlice := r2 } sc s := by
  obtain ⟨hup, hasc, hlen16, hne, t72, t69, t88, t82, t77, t65⟩ := verbs_table v hv
  have hlen : v'.length = v.length := by rw [← hvar, List.length_map]
  have hasc1 : ∀ c ∈ v', c < 128 := ascii_of_map_upperByte v' v hvar hasc
  have hcmdv : commandOf w.lib (v ++ tail) =
      v ++ bytesToUpper w.lib.upperTable (tail.take (CommandVerbMaxLength - v.length)) := by
    rw [commandOf_append w.lib v tail hasc hlen16, hup]
  have hcmd : commandOf w.lib (v' ++ tail) = commandOf w.lib (v ++ tail) := by
    rw [hcmdv, commandOf_append w.lib v' tail hasc1 (hlen ▸ hlen16), hvar, hlen]
  have hexec : ∀ s0 : Session, execCmd w sc s0 (v' ++ tail) = execCmd w sc s0 (v ++ tail) := by
    intro s0
    unfold execCmd
    rw [hcmd]
    generalize hb : dispatch sc (commandOf w.lib (v ++ tail)) = b
    have hhead : ∀ a c, verbOf b = some (a :: c) → v.head? = some a := by
      intro a c hu
      have h1 := cmdMatch_head a c _ (dispatch_sound sc _ b hb _ hu)
      rw [hcmdv] at h1
      cases v with
      | nil => exact absurd rfl hne
      | cons x rest => exact h1
    refine execBranch_variant w sc s0 v' v tail b hlen ?_ ?_ ?_ ?_
    · rintro (rfl | rfl)
      · exact t72 (hhead 72 _ rfl)
      · exact t69 (hhead 69 _ rfl)
    · rintro (rfl | rfl)
      · exact t88 (hhead 88 _ rfl)
      · exact t82 (hhead 82 _ rfl)
    · rintro rfl
      exact t77 (hhead 77 _ rfl)
    · rintro rfl
      have h32 := t65 (hhead 65 _ rfl)
      exact ⟨no_space_of_map_upperByte v' v hvar h32, h32⟩
  refine ⟨by rw [hcmd], hexec s, ?_⟩
  intro r1 r2 h1 h2 hCmd
  rw [tick_line { w with readSlice := r1 } sc s (v' ++ tail) hCmd h1,
    tick_line { w with readSlice := r2 } sc s (v ++ tail) hCmd h2]
  have e1 : ∀ i, execCmd { w with readSlice := r1 } sc { s with limit := CommandLineMaxLength } i =
      execCmd w sc { s with limit := CommandLineMaxLength } i := fun _ => rfl
  have e2 : ∀ i, execCmd { w with readSlice := r2 } sc { s with limit := CommandLineMaxLength } i =
      execCmd w sc { s with limit := CommandLineMaxLength } i := fun _ => rfl
  rw [e1, e2, hexec]
  rfl

/-- Witness of C8: `mail from:` is a case variant of the verb `MAIL FROM:`. -/
theorem verb_case_insensitive_witness :
    cmdMAIL ∈ verbs ∧ (ascii "mail from:").map upperByte = cmdMAIL ∧
    execCmd (sampleWorld sampleFile []) sampleConfig greetedSession
        (ascii "mail from:" ++ ascii "<a@b>") =
      execCmd (sampleWorld sampleFile []) sampleConfig greetedSession (cmdMAIL ++ ascii "<a@b>") :=
  ⟨by decide, by decide,
   (verb_case_insensitive (sampleWorld sampleFile []) sampleConfig greetedSession cmdMAIL
    (ascii "mail from:") (ascii "<a@b>") (by decide) (by decide)).2.1⟩


/-! ## Allowed hosts -/

theorem setAllowedHosts_dot (lib : Lib) :
    setAllowedHosts lib [ascii "."] = { table := [ascii "."], wildcards := [] } := rfl

theorem allowsHost_dot (lib : Lib) (h : Bytes) :
    allowsHost lib { table := [ascii "."], wildcards := [] } h = true := by
  unfold allowsHost
  rw [if_pos ⟨rfl, List.mem_singleton.mpr rfl⟩]

/-- C9: after `setAllowedHosts(["."])`, `allowsHost` is true for every host and
`allowsIp` for every IP, so the relay check of `RCPT TO` never fails: whatever
the line and the session, the one reply that the `RCPT TO` case sends is not the
relay-denied reply. -/
theorem single_dot_allows_all (lib : Lib) (h ip : Bytes) (w : World) (s s1 : Session)
    (input : Bytes)
    (hr : doRcpt { w with hosts := setAllowedHosts w.lib [ascii "."] } s input = some s1) :
    allowsHost lib (setAllowedHosts lib [ascii "."]) h = true ∧
    allowsIp lib (setAllowedHosts lib [ascii "."]) ip = true ∧
    (∀ rcpt, relayDenied { w with hosts := setAllowedHosts w.lib [ascii "."] } rcpt = false) ∧
    ∃ r, s1.out = s.out ++ [r] ∧ Item.canned .ErrorRelayDenied ∉ r := by
  have hd : ∀ rcpt, relayDenied { w with hosts := setAllowedHosts w.lib [ascii "."] } rcpt = false := by
    intro rcpt
    unfold relayDenied
    split
    · simp only [allowsIp, setAllowedHosts_dot, allowsHost_dot, Bool.not_true]
    · simp only [setAllowedHosts_dot, allowsHost_dot, Bool.not_true]
  refine ⟨?_, ?_, hd, ?_⟩
  · rw [setAllowedHosts_dot, allowsHost_dot]
  · unfold allowsIp
    rw [setAllowedHosts_dot, allowsHost_dot]
  · unfold doRcpt at hr
    split at hr
    · injection hr with hr
      subst hr
      exact ⟨_, rfl, by simp⟩
    · rw [Option.map_eq_some'] at hr
      obtain ⟨arg, -, hr⟩ := hr
      subst hr
      simp only [hd, Bool.false_eq_true, if_false]
      split
      · exact ⟨_, rfl, by simp⟩
      · split
        · exact ⟨_, rfl, by simp⟩
        · exact ⟨_, rfl, by simp⟩

/-- Witness of C9: a `RCPT TO` line under the allowed-hosts list `["."]`. -/
theorem single_dot_allows_all_witness :
    allowsHost sampleLib (setAllowedHosts sampleLib [ascii "."]) (ascii "elsewhere.org") = true :=
  (single_dot_allows_all sampleLib (ascii "elsewhere.org") [127, 0, 0, 1]
    (sampleWorld sampleFile []) greetedSession
    (sendResponse (PushRcpt greetedSession (samplePath (ascii "<x@elsewhere.org>")).addr)
      [.canned .SuccessRcptCmd])
    (ascii "RCPT TO:<x@elsewhere.org>") (by decide)).1

/-- C10, the code at the failing input: with the list `[".", "*.example.com"]`
the table holds the single key `.` (the wildcard goes to the other list), so
`allowsHost` skips all checking and accepts every host, `evil.org` included,
whatever `filepath.Match` answers. -/
theorem dot_with_wildcard_allows_all (lib : Lib) (h : Bytes) :
    setAllowedHosts lib [ascii ".", ascii "*.example.com"] =
      { table := [ascii "."], wildcards := [ascii "*.example.com"] } ∧
    allowsHost lib (setAllowedHosts lib [ascii ".", ascii "*.example.com"]) h = true ∧
    allowsHost lib (setAllowedHosts lib [ascii ".", ascii "*.example.com"]) (ascii "evil.org") =
      true := by
  have e : setAllowedHosts lib [ascii ".", ascii "*.example.com"] =
      { table := [ascii "."], wildcards := [ascii "*.example.com"] } := rfl
  have a : ∀ x, allowsHost lib { table := [ascii "."], wildcards := [ascii "*.example.com"] } x =
      true := by
    intro x
    unfold allowsHost
    rw [if_pos ⟨rfl, List.mem_singleton.mpr rfl⟩]
  exact ⟨e, by rw [e, a], by rw [e, a]⟩

/-! ## The `AUTH PLAIN` loop on ASCII credentials -/

theorem plainLoop_authzid (z rest user pass : Bytes) (hz : 0 ∉ z) :
    plainLoop (z ++ rest) 0 user pass = plainLoop rest 0 user pass := by
  induction z with
  | nil => rfl
  | cons b t ih =>
    have hb : b ≠ 0 := fun h => hz (h ▸ List.mem_cons_self b t)
    have ht : 0 ∉ t := fun h => hz (List.mem_cons_of_mem b h)
    simp only [List.cons_append, plainLoop, if_neg hb]
    exact ih ht

theorem plainLoop_authcid (c rest user pass : Bytes) (hc : ∀ b ∈ c, b ≠ 0 ∧ b < 128) :
    plainLoop (c ++ rest) 1 user pass = plainLoop rest 1 (user ++ c) pass := by
  induction c generalizing user with
  | nil => simp
  | cons b t ih =>
    obtain ⟨hb, hlt⟩ := hc b (List.mem_cons_self b t)
    have ht : ∀ d ∈ t, d ≠ 0 ∧ d < 128 := fun d hd => hc d (List.mem_cons_of_mem b hd)
    have hle : b ≤ 0x7F := by omega
    simp only [List.cons_append, plainLoop, if_neg hb, if_true, encodeRune, if_pos hle,
      List.append_eq]
    rw [ih _ ht, List.append_assoc, List.singleton_append]

theorem plainLoop_passwd (c user pass : Bytes) (hc : ∀ b ∈ c, b ≠ 0 ∧ b < 128) :
    plainLoop c 2 user pass = (user, pass ++ c) := by
  induction c generalizing pass with
  | nil => simp [plainLoop]
  | cons b t ih =>
    obtain ⟨hb, hlt⟩ := hc b (List.mem_cons_self b t)
    have ht : ∀ d ∈ t, d ≠ 0 ∧ d < 128 := fun d hd => hc d (List.mem_cons_of_mem b hd)
    have hle : b ≤ 0x7F := by omega
    have h21 : ¬ (2 = 1) := by decide
    simp only [plainLoop, if_neg hb, if_neg h21, if_true, encodeRune, if_pos hle]
    rw [ih _ ht, List.append_assoc, List.singleton_append]

/-- What the loop does get right: on a payload `authzid \0 authcid \0 passwd`
whose authcid and passwd are NUL-free ASCII, and whose authzid is NUL-free, it
yields the authcid and the passwd, whatever the authzid. -/
theorem plainLoop_ascii (authzid authcid passwd : Bytes) (hz : 0 ∉ authzid)
    (hc : ∀ b ∈ authcid, b ≠ 0 ∧ b < 128) (hp : ∀ b ∈ passwd, b ≠ 0 ∧ b < 128) :
    plainLoop (authzid ++ [0] ++ authcid ++ [0] ++ passwd) 0 [] [] = (authcid, passwd) := by
  rw [List.append_assoc, List.append_assoc, List.append_assoc, plainLoop_authzid _ _ _ _ hz]
  simp only [List.singleton_append, plainLoop, if_true, List.append_eq, List.nil_append,
    Nat.zero_add]
  rw [plainLoop_authcid _ _ _ _ hc]
  simp only [plainLoop, if_true, List.nil_append, List.append_eq]
  rw [plainLoop_passwd _ _ _ hp, List.nil_append]


/-! ## The bound on the recipients that the code does keep -/

theorem afterSwitch_env (w : World) (s s1 : Session) (h : afterSwitch w s = .running s1) :
    s1.env = s.env := by
  rcases afterSwitch_running w s s1 h with h1 | h1 <;> subst h1 <;> rfl

theorem xclientTok_env (s : Session) (tok : Bytes) : (xclientTok s tok).env = s.env := by
  unfold xclientTok
  split
  · split
    · rfl
    · split <;> split <;> rfl
  · rfl

theorem xclientFold_env (toks : List Bytes) (s : Session) :
    (toks.foldl xclientTok s).env = s.env := by
  induction toks generalizing s with
  | nil => rfl
  | cons t rest ih =>
    simp only [List.foldl_cons]
    exact (ih (xclientTok s t)).trans (xclientTok_env s t)

theorem checkCredentials_rcptTo (w : World) (sc : ServerConfig) (s : Session) (user pass : Bytes) :
    (checkCredentials w sc s user pass).env.rcptTo = s.env.rcptTo := by
  unfold checkCredentials
  split
  · split <;> rfl
  · rfl

theorem doAuth_rcptTo (w : World) (sc : ServerConfig) (s s1 : Session) (input : Bytes)
    (h : doAuth w sc s input = some s1) : s1.env.rcptTo = s.env.rcptTo := by
  unfold doAuth at h
  simp only at h
  split at h
  · cases h
  · injection h with h; subst h; rfl
  · split at h
    · cases h
    · rw [Option.map_eq_some'] at h
      obtain ⟨b64, -, h⟩ := h
      subst h
      split
      · rfl
      · exact checkCredentials_rcptTo w sc _ _ _
    · injection h with h; subst h; rfl

/-- No case of the command switch takes the envelope past `LimitRecipients + 1`
recipients. -/
theorem execBranch_rcptTo (w : World) (sc : ServerConfig) (s s1 : Session) (input : Bytes)
    (b : Branch) (h : execBranch w sc s input b = some s1)
    (hs : s.env.rcptTo.length ≤ LimitRecipients + 1) :
    s1.env.rcptTo.length ≤ LimitRecipients + 1 := by
  cases b
  case auth => rw [doAuth_rcptTo w sc s s1 input h]; exact hs
  case helo =>
    simp only [execBranch, doHelo, Option.map_eq_some'] at h
    obtain ⟨arg, -, h⟩ := h
    subst h
    split
    · exact Nat.zero_le _
    · exact hs
  case ehlo =>
    simp only [execBranch, doEhlo, Option.map_eq_some'] at h
    obtain ⟨arg, -, h⟩ := h
    subst h
    split
    · exact Nat.zero_le _
    · exact hs
  case xclient =>
    simp only [execBranch, doXclient, Option.map_eq_some'] at h
    obtain ⟨arg, -, h⟩ := h
    subst h
    simp only [sendResponse, xclientFold_env]
    exact hs
  case mail =>
    simp only [execBranch, doMail] at h
    split at h
    · simp only [Option.some.injEq] at h; subst h; exact hs
    · split at h
      · simp only [Option.some.injEq] at h; subst h; exact hs
      · simp only [Option.map_eq_some'] at h
        obtain ⟨arg, -, h⟩ := h
        subst h
        split
        · exact hs
        · split <;> exact hs
  case rcpt =>
    simp only [execBranch, doRcpt] at h
    split at h
    · simp only [Option.some.injEq] at h; subst h; exact hs
    · rename_i hlim
      simp only [Option.map_eq_some'] at h
      obtain ⟨arg, -, h⟩ := h
      subst h
      split
      · exact hs
      · split
        · exact hs
        · split
          · simp only [sendResponse, PopRcpt, PushRcpt, List.dropLast_concat]
            exact hs
          · simp only [sendResponse, PushRcpt, List.length_append, List.length_singleton]
            omega
  case rset =>
    simp only [execBranch, Option.some.injEq] at h
    subst h; exact Nat.zero_le _
  case data =>
    simp only [execBranch, doData, Option.some.injEq] at h
    subst h
    split <;> exact hs
  case unrecognized =>
    simp only [execBranch, doUnrecognized, Option.some.injEq] at h
    subst h
    split <;> exact hs
  all_goals
    simp only [execBranch, Option.some.injEq] at h
    subst h; exact hs

theorem dataTick_rcptTo (w : World) (sc : ServerConfig) (s : Session) :
    (dataTick w sc s).env.rcptTo = [] := by
  unfold dataTick
  simp only
  split <;> rfl

theorem startTLSTick_rcptTo (w : World) (sc : ServerConfig) (s : Session)
    (hs : s.env.rcptTo.length ≤ LimitRecipients + 1) :
    (startTLSTick w sc s).env.rcptTo.length ≤ LimitRecipients + 1 := by
  unfold startTLSTick
  simp only
  split
  · split
    · exact hs
    · split
      · exact Nat.zero_le _
      · exact hs
  · exact hs

theorem onLine_rcptTo (w : World) (s s1 : Session) (body : Bytes → Option Session)
    (hs : s.env.rcptTo.length ≤ LimitRecipients + 1)
    (hbody : ∀ input s2, body input = some s2 → s2.env.rcptTo.length ≤ LimitRecipients + 1)
    (h : onLine w s body = .running s1) : s1.env.rcptTo.length ≤ LimitRecipients + 1 := by
  unfold onLine at h
  split at h
  · cases h
  · cases h
  · cases h
  · rw [afterSwitch_env w _ s1 h]; exact hs
  · rw [afterSwitch_env w _ s1 h]; exact hs
  · split at h
    · injection h with h
      subst h
      exact hs
    · split at h
      · cases h
      · rename_i s2 hb
        rw [afterSwitch_env w _ s1 h]
        exact hbody _ s2 hb

/-- An iteration of the loop keeps the envelope within `LimitRecipients + 1`
recipients. -/
theorem tick_rcptTo (w : World) (sc : ServerConfig) (s s1 : Session)
    (hs : s.env.rcptTo.length ≤ LimitRecipients + 1) (h : tick w sc s = .running s1) :
    s1.env.rcptTo.length ≤ LimitRecipients + 1 := by
  unfold tick at h
  split at h
  · rw [afterSwitch_env w _ s1 h]; exact hs
  · have hs1 : ({ s with limit := CommandLineMaxLength } : Session).env.rcptTo.length ≤
        LimitRecipients + 1 := hs
    exact onLine_rcptTo w _ s1 _ hs1
      (fun input s2 hb => execBranch_rcptTo w sc _ s2 input _ hb hs1) h
  · have hs1 : ({ s with limit := CredentialsMaxLength } : Session).env.rcptTo.length ≤
        LimitRecipients + 1 := hs
    refine onLine_rcptTo w _ s1 _ hs1 ?_ h
    intro input s2 hb
    injection hb with hb
    subst hb
    unfold authPlainLine
    simp only
    split
    · exact hs
    · show (checkCredentials w sc _ _ _).env.rcptTo.length ≤ LimitRecipients + 1
      rw [checkCredentials_rcptTo]
      exact hs
  · rw [afterSwitch_env w _ s1 h, dataTick_rcptTo]
    exact Nat.zero_le _
  · rw [afterSwitch_env w _ s1 h]
    exact startTLSTick_rcptTo w sc s hs
  · rw [afterSwitch_env w _ s1 h]; exact hs

/-- The bound that the guard of `RCPT TO` does enforce: a session that starts
with at most `LimitRecipients + 1` recipients never holds more than
`LimitRecipients + 1`. -/
theorem loop_rcptTo (sc : ServerConfig) (ws : List World) (s s1 : Session)
    (hs : s.env.rcptTo.length ≤ LimitRecipients + 1) (h : loop sc ws s = .running s1) :
    s1.env.rcptTo.length ≤ LimitRecipients + 1 := by
  induction ws generalizing s with
  | nil =>
    unfold loop at h
    injection h with h
    subst h
    exact hs
  | cons w rest ih =>
    unfold loop at h
    split at h
    · split at h
      · rename_i s2 ht
        exact ih s2 (tick_rcptTo w sc s s2 hs ht) h
      · rename_i hne
        exact absurd h (hne s1)
    · cases h


/-! ## The shape of one iteration -/

/-- What an iteration that ends normally has done: `s2` is the session when the
state switch is left, and the flush may then have advanced the count of flushed
replies. -/
theorem tick_running_cases (w : World) (sc : ServerConfig) (s s1 : Session)
    (h : tick w sc s = .running s1) :
    ∃ s2, (s1 = s2 ∨ s1 = { s2 with flushed := s2.out.length }) ∧
      ((s.state = .Greeting ∧ s2 = { sendResponse s [.greeting sc.hostname] with state := .Cmd }) ∨
       (∃ lim : Int, ∃ x,
          ((s.state = .Cmd ∧ lim = CommandLineMaxLength) ∨
            (s.state = .AuthPlainCredentials ∧ lim = CredentialsMaxLength)) ∧
          ((readCommand w.readSlice = some (x, some .lineLimitExceeded) ∧
              s2 = kill (sendResponse { s with limit := lim } [.canned .FailLineTooLong])) ∨
           (readCommand w.readSlice = some (x, some .other) ∧ s2 = kill { s with limit := lim }) ∨
           (readCommand w.readSlice = some (x, none) ∧ w.shuttingDown = true ∧
              s2 = { s with limit := lim, state := .Shutdown }))) ∨
       (s.state = .Cmd ∧ ∃ input, readCommand w.readSlice = some (input, none) ∧
          w.shuttingDown = false ∧
          execCmd w sc { s with limit := CommandLineMaxLength } input = some s2) ∨
       (s.state = .AuthPlainCredentials ∧ ∃ input, readCommand w.readSlice = some (input, none) ∧
          w.shuttingDown = false ∧
          s2 = authPlainLine w sc { s with limit := CredentialsMaxLength } input) ∨
       (s.state = .Data ∧ s2 = dataTick w sc s) ∨
       (s.state = .StartTLS ∧ s2 = startTLSTick w sc s) ∨
       (s.state = .Shutdown ∧ s2 = kill (sendResponse s [.canned .ErrorShutdown]))) := by
  have hline : ∀ (s0 : Session) (body : Bytes → Option Session), onLine w s0 body = .running s1 →
      ∃ s2, (s1 = s2 ∨ s1 = { s2 with flushed := s2.out.length }) ∧
        ((∃ x, (readCommand w.readSlice = some (x, some .lineLimitExceeded) ∧
              s2 = kill (sendResponse s0 [.canned .FailLineTooLong])) ∨
            (readCommand w.readSlice = some (x, some .other) ∧ s2 = kill s0) ∨
            (readCommand w.readSlice = some (x, none) ∧ w.shuttingDown = true ∧
              s2 = { s0 with state := .Shutdown })) ∨
          ∃ input, readCommand w.readSlice = some (input, none) ∧ w.shuttingDown = false ∧
            body input = some s2) := by
    intro s0 body h0
    unfold onLine at h0
    split at h0
    · cases h0
    · cases h0
    · cases h0
    · rename_i x hr
      exact ⟨_, afterSwitch_running w _ s1 h0, Or.inl ⟨x, Or.inl ⟨hr, rfl⟩⟩⟩
    · rename_i x hr
      exact ⟨_, afterSwitch_running w _ s1 h0, Or.inl ⟨x, Or.inr (Or.inl ⟨hr, rfl⟩)⟩⟩
    · rename_i input hr
      split at h0
      · rename_i hup
        injection h0 with h0
        exact ⟨_, Or.inl h0.symm, Or.inl ⟨input, Or.inr (Or.inr ⟨hr, hup, rfl⟩)⟩⟩
      · rename_i hup
        split at h0
        · cases h0
        · rename_i s2 hb
          exact ⟨s2, afterSwitch_running w _ s1 h0, Or.inr ⟨input, hr, by simpa using hup, hb⟩⟩
  unfold tick at h
  split at h
  · rename_i hst
    exact ⟨_, afterSwitch_running w _ s1 h, Or.inl ⟨hst, rfl⟩⟩
  · rename_i hst
    obtain ⟨s2, hf, hc⟩ := hline _ _ h
    refine ⟨s2, hf, ?_⟩
    rcases hc with ⟨x, hx⟩ | ⟨input, hr, hup, hb⟩
    · exact Or.inr (Or.inl ⟨CommandLineMaxLength, x, Or.inl ⟨hst, rfl⟩, hx⟩)
    · exact Or.inr (Or.inr (Or.inl ⟨hst, input, hr, hup, hb⟩))
  · rename_i hst
    obtain ⟨s2, hf, hc⟩ := hline _ _ h
    refine ⟨s2, hf, ?_⟩
    rcases hc with ⟨x, hx⟩ | ⟨input, hr, hup, hb⟩
    · exact Or.inr (Or.inl ⟨CredentialsMaxLength, x, Or.inr ⟨hst, rfl⟩, hx⟩)
    · injection hb with hb
      exact Or.inr (Or.inr (Or.inr (Or.inl ⟨hst, input, hr, hup, hb.symm⟩)))
  · rename_i hst
    exact ⟨_, afterSwitch_running w _ s1 h, Or.inr (Or.inr (Or.inr (Or.inr (Or.inl ⟨hst, rfl⟩))))⟩
  · rename_i hst
    exact ⟨_, afterSwitch_running w _ s1 h,
      Or.inr (Or.inr (Or.inr (Or.inr (Or.inr (Or.inl ⟨hst, rfl⟩)))))⟩
  · rename_i hst
    exact ⟨_, afterSwitch_running w _ s1 h,
      Or.inr (Or.inr (Or.inr (Or.inr (Or.inr (Or.inr ⟨hst, rfl⟩)))))⟩

/-- A property that every iteration keeps holds along the whole loop. -/
theorem loop_invariant (sc : ServerConfig) (P : Session → Prop)
    (step : ∀ w s s1, P s → s.alive = true → tick w sc s = .running s1 → P s1)
    (ws : List World) (s s1 : Session) (hs : P s) (h : loop sc ws s = .running s1) : P s1 := by
  induction ws generalizing s with
  | nil =>
    unfold loop at h
    injection h with h
    subst h
    exact hs
  | cons w rest ih =>
    unfold loop at h
    split at h
    · rename_i hal
      split at h
      · rename_i s2 ht
        exact ih s2 (step w s s2 hs hal ht) h
      · rename_i hne
        exact absurd h (hne s1)
    · cases h


/-! ## What the cases of the command switch leave alone -/

theorem xclientTok_fields (s : Session) (tok : Bytes) :
    (xclientTok s tok).tls = s.tls ∧ (xclientTok s tok).advertiseTLS = s.advertiseTLS ∧
      (xclientTok s tok).errors = s.errors ∧ (xclientTok s tok).alive = s.alive := by
  unfold xclientTok
  split
  · split
    · exact ⟨rfl, rfl, rfl, rfl⟩
    · split <;> split <;> exact ⟨rfl, rfl, rfl, rfl⟩
  · exact ⟨rfl, rfl, rfl, rfl⟩

theorem xclientFold_fields (toks : List Bytes) (s : Session) :
    (toks.foldl xclientTok s).tls = s.tls ∧
      (toks.foldl xclientTok s).advertiseTLS = s.advertiseTLS ∧
      (toks.foldl xclientTok s).errors = s.errors ∧ (toks.foldl xclientTok s).alive = s.alive := by
  induction toks generalizing s with
  | nil => exact ⟨rfl, rfl, rfl, rfl⟩
  | cons t rest ih =>
    have h1 := ih (xclientTok s t)
    have h2 := xclientTok_fields s t
    simp only [List.foldl_cons]
    exact ⟨h1.1.trans h2.1, h1.2.1.trans h2.2.1, h1.2.2.1.trans h2.2.2.1,
      h1.2.2.2.trans h2.2.2.2⟩

theorem checkCredentials_fields (w : World) (sc : ServerConfig) (s : Session) (user pass : Bytes) :
    (checkCredentials w sc s user pass).tls = s.tls ∧
      (checkCredentials w sc s user pass).advertiseTLS = s.advertiseTLS ∧
      (checkCredentials w sc s user pass).errors = s.errors ∧
      (checkCredentials w sc s user pass).state = s.state ∧
      (checkCredentials w sc s user pass).alive = s.alive := by
  unfold checkCredentials
  split
  · split <;> exact ⟨rfl, rfl, rfl, rfl, rfl⟩
  · exact ⟨rfl, rfl, rfl, rfl, rfl⟩

/-- What a case of the command switch does to the TLS flag, the advertisement,
the counter of unrecognized commands and the state: only the `default` case
counts, and the state changes only to wait for credentials (`AUTH`), to read the
message (`DATA`, with a recipient in the envelope) or to start TLS. -/
theorem execBranch_fields (w : World) (sc : ServerConfig) (s s1 : Session) (input : Bytes)
    (b : Branch) (h : execBranch w sc s input b = some s1) :
    s1.tls = s.tls ∧ s1.advertiseTLS = s.advertiseTLS ∧
    s1.errors = s.errors + (if b = .unrecognized then 1 else 0) ∧
    (s1.state = s.state ∨ (b = .auth ∧ s1.state = .AuthPlainCredentials) ∨
      (b = .data ∧ s1.state = .Data ∧ s1.env.rcptTo ≠ []) ∨
      (b = .starttls ∧ s1.state = .StartTLS)) := by
  cases b
  case helo =>
    simp only [execBranch, doHelo, Option.map_eq_some'] at h
    obtain ⟨arg, -, h⟩ := h
    subst h
    split <;> exact ⟨rfl, rfl, rfl, Or.inl rfl⟩
  case ehlo =>
    simp only [execBranch, doEhlo, Option.map_eq_some'] at h
    obtain ⟨arg, -, h⟩ := h
    subst h
    split <;> exact ⟨rfl, rfl, rfl, Or.inl rfl⟩
  case help =>
    simp only [execBranch, Option.some.injEq] at h
    subst h; exact ⟨rfl, rfl, rfl, Or.inl rfl⟩
  case xclient =>
    simp only [execBranch, doXclient, Option.map_eq_some'] at h
    obtain ⟨arg, -, h⟩ := h
    subst h
    have hf := xclientFold_fields (split arg 32) s
    have hg := xclientFold_frame (split arg 32) s
    exact ⟨hf.1, hf.2.1, hf.2.2.1, Or.inl hg.2⟩
  case auth =>
    simp only [execBranch] at h
    unfold doAuth at h
    simp only at h
    split at h
    · cases h
    · injection h with h; subst h
      exact ⟨rfl, rfl, rfl, Or.inr (Or.inl ⟨rfl, rfl⟩)⟩
    · split at h
      · cases h
      · rw [Option.map_eq_some'] at h
        obtain ⟨b64, -, h⟩ := h
        subst h
        split
        · exact ⟨rfl, rfl, rfl, Or.inl rfl⟩
        · rename_i up _
          have hc := checkCredentials_fields w sc { s with authDone := true } up.1 up.2
          exact ⟨hc.1, hc.2.1, hc.2.2.1, Or.inl hc.2.2.2.1⟩
      · injection h with h; subst h
        exact ⟨rfl, rfl, rfl, Or.inl rfl⟩
  case mail =>
    simp only [execBranch, doMail] at h
    split at h
    · simp only [Option.some.injEq] at h; subst h; exact ⟨rfl, rfl, rfl, Or.inl rfl⟩
    · split at h
      · simp only [Option.some.injEq] at h; subst h; exact ⟨rfl, rfl, rfl, Or.inl rfl⟩
      · simp only [Option.map_eq_some'] at h
        obtain ⟨arg, -, h⟩ := h
        subst h
        split
        · exact ⟨rfl, rfl, rfl, Or.inl rfl⟩
        · split <;> exact ⟨rfl, rfl, rfl, Or.inl rfl⟩
  case rcpt =>
    simp only [execBranch, doRcpt] at h
    split at h
    · simp only [Option.some.injEq] at h; subst h; exact ⟨rfl, rfl, rfl, Or.inl rfl⟩
    · simp only [Option.map_eq_some'] at h
      obtain ⟨arg, -, h⟩ := h
      subst h
      split
      · exact ⟨rfl, rfl, rfl, Or.inl rfl⟩
      · split
        · exact ⟨rfl, rfl, rfl, Or.inl rfl⟩
        · split <;> exact ⟨rfl, rfl, rfl, Or.inl rfl⟩
  case data =>
    simp only [execBranch, doData, Option.some.injEq] at h
    subst h
    split
    · exact ⟨rfl, rfl, rfl, Or.inl rfl⟩
    · rename_i hne
      refine ⟨rfl, rfl, rfl, Or.inr (Or.inr (Or.inl ⟨rfl, rfl, ?_⟩))⟩
      intro hc
      apply hne
      show s.env.rcptTo.length = 0
      have : s.env.rcptTo = [] := hc
      rw [this]
      rfl
  case starttls =>
    simp only [execBranch, Option.some.injEq] at h
    subst h
    exact ⟨rfl, rfl, rfl, Or.inr (Or.inr (Or.inr ⟨rfl, rfl⟩))⟩
  case unrecognized =>
    simp only [execBranch, doUnrecognized, Option.some.injEq] at h
    subst h
    split <;> exact ⟨rfl, rfl, rfl, Or.inl rfl⟩
  all_goals
    simp only [execBranch, Option.some.injEq] at h
    subst h
    exact ⟨rfl, rfl, rfl, Or.inl rfl⟩

theorem authPlainLine_fields (w : World) (sc : ServerConfig) (s : Session) (input : Bytes) :
    (authPlainLine w sc s input).tls = s.tls ∧
      (authPlainLine w sc s input).advertiseTLS = s.advertiseTLS ∧
      (authPlainLine w sc s input).errors = s.errors ∧
      ((authPlainLine w sc s input).state = s.state ∨ (authPlainLine w sc s input).state = .Cmd) := by
  unfold authPlainLine
  simp only
  split
  · exact ⟨rfl, rfl, rfl, Or.inl rfl⟩
  · rename_i up _
    have hc := checkCredentials_fields w sc { s with authDone := true } up.1 up.2
    exact ⟨hc.1, hc.2.1, hc.2.2.1, Or.inr rfl⟩

theorem dataTick_fields (w : World) (sc : ServerConfig) (s : Session) :
    (dataTick w sc s).tls = s.tls ∧ (dataTick w sc s).advertiseTLS = s.advertiseTLS ∧
      (dataTick w sc s).errors = s.errors ∧
      ((dataTick w sc s).alive = false ∨ (dataTick w sc s).state = .Cmd ∨
        (dataTick w sc s).state = .Shutdown) := by
  unfold dataTick
  simp only
  split
  · exact ⟨rfl, rfl, rfl, Or.inl rfl⟩
  · exact ⟨rfl, rfl, rfl, Or.inl rfl⟩
  · exact ⟨rfl, rfl, rfl, Or.inl rfl⟩
  · refine ⟨?_, ?_, ?_, ?_⟩
    · simp only [resetTransaction, sendResponse]
      split <;> split <;> rfl
    · simp only [resetTransaction, sendResponse]
      split <;> split <;> rfl
    · simp only [resetTransaction, sendResponse]
      split <;> split <;> rfl
    · simp only [resetTransaction, sendResponse]
      split
      · right; right; rfl
      · right; left; rfl


/-! ## The advertisement of `STARTTLS` -/

theorem startSession_advertise (w : World) (sc : ServerConfig) (c : Session)
    (hc : c.tls = false) : AdvertiseInv sc (startSession w sc c) := by
  unfold AdvertiseInv startSession
  cases h1 : sc.tlsAlwaysOn <;> cases h2 : sc.startTLSOn <;> cases h3 : w.tlsConfigLoaded <;>
    cases h4 : w.handshakeOk <;> simp [kill, hc]

theorem startTLSTick_advertise (w : World) (sc : ServerConfig) (s : Session)
    (hs : AdvertiseInv sc s) : AdvertiseInv sc (startTLSTick w sc s) := by
  unfold AdvertiseInv at hs ⊢
  unfold startTLSTick
  cases h1 : s.tls <;> cases h2 : sc.startTLSOn <;> cases h3 : w.tlsConfigLoaded <;>
    cases h4 : w.handshakeOk <;> simp [resetTransaction, h1, h2] at hs ⊢ <;> exact hs

/-- An iteration keeps the link between `advertiseTLS` and the TLS flag. -/
theorem tick_advertise (w : World) (sc : ServerConfig) (s s1 : Session)
    (hs : AdvertiseInv sc s) (h : tick w sc s = .running s1) : AdvertiseInv sc s1 := by
  obtain ⟨s2, hf, hc⟩ := tick_running_cases w sc s s1 h
  have key : s2.tls = s.tls ∧ s2.advertiseTLS = s.advertiseTLS ∨ AdvertiseInv sc s2 := by
    rcases hc with ⟨-, rfl⟩ | ⟨lim, x, -, hx⟩ | ⟨-, input, -, -, hb⟩ | ⟨-, input, -, -, rfl⟩ |
      ⟨-, rfl⟩ | ⟨-, rfl⟩ | ⟨-, rfl⟩
    · exact Or.inl ⟨rfl, rfl⟩
    · rcases hx with ⟨-, rfl⟩ | ⟨-, rfl⟩ | ⟨-, -, rfl⟩ <;> exact Or.inl ⟨rfl, rfl⟩
    · have hfld := execBranch_fields w sc _ s2 input _ hb
      exact Or.inl ⟨hfld.1, hfld.2.1⟩
    · have hfld := authPlainLine_fields w sc { s with limit := CredentialsMaxLength } input
      exact Or.inl ⟨hfld.1, hfld.2.1⟩
    · have hfld := dataTick_fields w sc s
      exact Or.inl ⟨hfld.1, hfld.2.1⟩
    · exact Or.inr (startTLSTick_advertise w sc s hs)
    · exact Or.inl ⟨rfl, rfl⟩
  have h2 : AdvertiseInv sc s2 := by
    rcases key with ⟨k1, k2⟩ | k
    · unfold AdvertiseInv at hs ⊢
      rw [k1, k2]
      exact hs
    · exact k
  rcases hf with rfl | rfl
  · exact h2
  · exact h2

/-- An iteration never turns a TLS connection back into a plain one. -/
theorem tick_tls (w : World) (sc : ServerConfig) (s s1 : Session) (hs : s.tls = true)
    (h : tick w sc s = .running s1) : s1.tls = true := by
  obtain ⟨s2, hf, hc⟩ := tick_running_cases w sc s s1 h
  have h2 : s2.tls = true := by
    rcases hc with ⟨-, rfl⟩ | ⟨lim, x, -, hx⟩ | ⟨-, input, -, -, hb⟩ | ⟨-, input, -, -, rfl⟩ |
      ⟨-, rfl⟩ | ⟨-, rfl⟩ | ⟨-, rfl⟩
    · exact hs
    · rcases hx with ⟨-, rfl⟩ | ⟨-, rfl⟩ | ⟨-, -, rfl⟩ <;> exact hs
    · exact (execBranch_fields w sc _ s2 input _ hb).1.trans hs
    · exact (authPlainLine_fields w sc { s with limit := CredentialsMaxLength } input).1.trans hs
    · exact (dataTick_fields w sc s).1.trans hs
    · unfold startTLSTick
      simp [hs]
    · exact hs
  rcases hf with rfl | rfl
  · exact h2
  · exact h2

/-- A command that matches `EHLO` selects the case `cmdEHLO`. -/
theorem dispatch_ehlo (sc : ServerConfig) (cmd : Bytes) (h : cmdMatch cmdEHLO cmd = true) :
    dispatch sc cmd = .ehlo := by
  have e1 : cmdMatch cmdHELO cmd = false := cmdMatch_other 69 72 _ _ cmd h (by decide)
  simp [dispatch, e1, h]

/-- The line `250-STARTTLS` is among the items of the reply to `EHLO` exactly
when it is the value of `advertiseTLS`. -/
theorem mem_ehloReply (sc : ServerConfig) (adv : Bytes) :
    Item.text (ascii "250-STARTTLS\r\n") ∈ ehloReply sc adv ↔ adv = ascii "250-STARTTLS\r\n" := by
  have n1 : ascii "250-" ++ sc.hostname ++ ascii " Hello\r\n" ≠ ascii "250-STARTTLS\r\n" := by
    intro hc
    have hs : ascii " Hello\r\n" <:+ ascii "250-STARTTLS\r\n" := ⟨_, hc⟩
    revert hs
    decide
  have n2 : ascii "250-SIZE " ++ fmtInt sc.maxSize ++ ascii "\r\n" ≠ ascii "250-STARTTLS\r\n" := by
    intro hc
    have hp : ascii "250-SIZE " <+: ascii "250-STARTTLS\r\n" :=
      ⟨fmtInt sc.maxSize ++ ascii "\r\n", by rw [← List.append_assoc]; exact hc⟩
    revert hp
    decide
  have n3 : ascii "250-PIPELINING\r\n" ≠ ascii "250-STARTTLS\r\n" := by decide
  have n5 : ascii "250-ENHANCEDSTATUSCODES\r\n" ≠ ascii "250-STARTTLS\r\n" := by decide
  have n6 : ascii "250 AUTH PLAIN" ≠ ascii "250-STARTTLS\r\n" := by decide
  unfold ehloReply
  simp only [List.mem_cons, Item.text.injEq, List.mem_singleton, List.not_mem_nil, or_false]
  constructor
  · rintro (h | h | h | h | h | h)
    · exact absurd h.symm n1
    · exact absurd h.symm n2
    · exact absurd h.symm n3
    · exact h.symm
    · exact absurd h.symm n5
    · exact absurd h.symm n6
  · intro h
    exact Or.inr (Or.inr (Or.inr (Or.inl h.symm)))

/-- C14: at every point of a session that started on a plain connection, the
reply to a valid `EHLO` has the line `250-STARTTLS` among its items if and only
if `TLS.StartTLSOn` is set and the connection has not been upgraded to TLS.  The
`StartTLS` state with a successful handshake sets the TLS flag, and the flag,
once set, stays set in every later iteration, so every later `EHLO` reply omits
the line. -/
theorem ehlo_advertises_starttls (sc : ServerConfig) (w0 : World) (ws : List World)
    (c s : Session) (w : World) (input arg domain : Bytes)
    (hPlain : c.tls = false)
    (hRun : handleClient sc w0 ws c = .running s)
    (hEhlo : cmdMatch cmdEHLO (commandOf w.lib input) = true)
    (hArg : sliceFrom input 4 = some arg)
    (hValid : w.parserEhlo arg = some domain) :
    (∃ reply, execCmd w sc s input =
        some (sendResponse (resetTransaction { s with helo := domain, esmtp := true }) reply) ∧
      (Item.text (ascii "250-STARTTLS\r\n") ∈ reply ↔ (sc.startTLSOn = true ∧ s.tls = false))) ∧
    (∀ w1, s.tls = false → sc.startTLSOn = true → w1.tlsConfigLoaded = true →
      w1.handshakeOk = true → (startTLSTick w1 sc s).tls = true) ∧
    (∀ ws1 s1, s.tls = true → loop sc ws1 s = .running s1 → s1.tls = true) := by
  have hInv : AdvertiseInv sc s :=
    loop_invariant sc (AdvertiseInv sc) (fun w1 a b ha _ hb => tick_advertise w1 sc a b ha hb)
      ws _ s (startSession_advertise w0 sc c hPlain) hRun
  refine ⟨⟨ehloReply sc s.advertiseTLS, ?_, ?_⟩, ?_, ?_⟩
  · simp only [execCmd, dispatch_ehlo sc _ hEhlo, execBranch, doEhlo, hArg, Option.map_some',
      hValid]
    rfl
  · rw [mem_ehloReply]
    unfold AdvertiseInv at hInv
    rw [hInv]
    by_cases hc : sc.startTLSOn = true ∧ s.tls = false
    · simp [hc]
    · rw [if_neg hc]
      constructor
      · intro h
        have hne : ([] : Bytes) ≠ ascii "250-STARTTLS\r\n" := by decide
        exact absurd h hne
      · intro h
        exact absurd h hc
  · intro w1 h1 h2 h3 h4
    simp [startTLSTick, h1, h2, h3, h4, resetTransaction]
  · intro ws1 s1 h1 h2
    exact loop_invariant sc (fun x => x.tls = true)
      (fun w1 a b ha _ hb => tick_tls w1 sc a b ha hb) ws1 s s1 h1 h2


/-- Witness of C14: under a configuration with `TLS.StartTLSOn`, the reply to
`EHLO x` on the plain connection of a new client has the line `250-STARTTLS`. -/
theorem ehlo_advertises_starttls_witness :
    ∃ reply, execCmd (sampleWorld sampleFile (ascii "EHLO x")) startTLSConfig advertisingSession
        (ascii "EHLO x") =
        some (sendResponse
          (resetTransaction { advertisingSession with helo := ascii " x", esmtp := true }) reply) ∧
      (Item.text (ascii "250-STARTTLS\r\n") ∈ reply ↔
        (startTLSConfig.startTLSOn = true ∧ advertisingSession.tls = false)) :=
  (ehlo_advertises_starttls startTLSConfig (sampleWorld sampleFile [])
    [sampleWorld sampleFile []] (newClient []) advertisingSession
    (sampleWorld sampleFile (ascii "EHLO x")) (ascii "EHLO x") (ascii " x") (ascii " x")
    (by decide) (by decide) (by decide) (by decide) (by decide)).1

/-! ## `DATA` and the recipients -/

theorem startSession_state (w : World) (sc : ServerConfig) (c : Session) :
    (startSession w sc c).state = c.state ∧ (startSession w sc c).errors = c.errors := by
  unfold startSession
  cases h1 : sc.tlsAlwaysOn <;> cases h2 : sc.startTLSOn <;> cases h3 : w.tlsConfigLoaded <;>
    cases h4 : w.handshakeOk <;> simp [kill]

/-- An iteration keeps the condition under which the message may be read. -/
theorem tick_dataInv (w : World) (sc : ServerConfig) (s s1 : Session)
    (h : tick w sc s = .running s1) : DataInv s1 := by
  obtain ⟨s2, hf, hc⟩ := tick_running_cases w sc s s1 h
  have h2 : DataInv s2 := by
    rcases hc with ⟨-, rfl⟩ | ⟨lim, x, -, hx⟩ | ⟨hst, input, -, -, hb⟩ | ⟨hst, input, -, -, rfl⟩ |
      ⟨-, rfl⟩ | ⟨-, rfl⟩ | ⟨-, rfl⟩
    · intro _ hd
      cases hd
    · rcases hx with ⟨-, rfl⟩ | ⟨-, rfl⟩ | ⟨-, -, rfl⟩
      · intro ha; cases ha
      · intro ha; cases ha
      · intro _ hd; cases hd
    · have hfld := (execBranch_fields w sc _ s2 input _ hb).2.2.2
      intro _ hd
      rcases hfld with h1 | ⟨-, h1⟩ | ⟨-, -, h1⟩ | ⟨-, h1⟩
      · rw [hd] at h1
        have : s.state = .Data := h1.symm
        rw [hst] at this
        cases this
      · rw [hd] at h1; cases h1
      · exact h1
      · rw [hd] at h1; cases h1
    · have hfld := (authPlainLine_fields w sc { s with limit := CredentialsMaxLength } input).2.2.2
      intro _ hd
      rcases hfld with h1 | h1
      · rw [hd] at h1
        have : s.state = .Data := h1.symm
        rw [hst] at this
        cases this
      · rw [hd] at h1; cases h1
    · have hfld := (dataTick_fields w sc s).2.2.2
      intro ha hd
      rcases hfld with h1 | h1 | h1
      · rw [ha] at h1; cases h1
      · rw [hd] at h1; cases h1
      · rw [hd] at h1; cases h1
    · intro _ hd
      cases hd
    · intro ha
      cases ha
  rcases hf with rfl | rfl
  · exact h2
  · exact h2

/-- A command that matches `DATA` selects the case `cmdDATA`. -/
theorem dispatch_data (sc : ServerConfig) (cmd : Bytes) (h : cmdMatch cmdDATA cmd = true) :
    dispatch sc cmd = .data := by
  have e1 : cmdMatch cmdHELO cmd = false := cmdMatch_other 68 72 _ _ cmd h (by decide)
  have e2 : cmdMatch cmdEHLO cmd = false := cmdMatch_other 68 69 _ _ cmd h (by decide)
  have e3 : cmdMatch cmdHELP cmd = false := cmdMatch_other 68 72 _ _ cmd h (by decide)
  have e4 : cmdMatch cmdXCLIENT cmd = false := cmdMatch_other 68 88 _ _ cmd h (by decide)
  have e5 : cmdMatch cmdAUTH cmd = false := cmdMatch_other 68 65 _ _ cmd h (by decide)
  have e6 : cmdMatch cmdMAIL cmd = false := cmdMatch_other 68 77 _ _ cmd h (by decide)
  have e7 : cmdMatch cmdRCPT cmd = false := cmdMatch_other 68 82 _ _ cmd h (by decide)
  have e8 : cmdMatch cmdRSET cmd = false := cmdMatch_other 68 82 _ _ cmd h (by decide)
  have e9 : cmdMatch cmdVRFY cmd = false := cmdMatch_other 68 86 _ _ cmd h (by decide)
  have e10 : cmdMatch cmdNOOP cmd = false := cmdMatch_other 68 78 _ _ cmd h (by decide)
  have e11 : cmdMatch cmdASTERISK cmd = false := cmdMatch_other 68 42 _ _ cmd h (by decide)
  have e12 : cmdMatch cmdQUIT cmd = false := cmdMatch_other 68 81 _ _ cmd h (by decide)
  simp [dispatch, e1, e2, e3, e4, e5, e6, e7, e8, e9, e10, e11, e12, h]

/-- C15 as amended: in the `Cmd` state a `DATA` command with an empty `RcptTo` is answered
with the no-recipients reply and leaves the state at `Cmd`; with at least one
recipient it is answered with `SuccessDataCmd` (354) and moves to `Data`; the
envelope is unchanged in both cases.  Hence in every session that the loop has
reached and still runs (it is alive), the state `Data` comes with a non-empty
`RcptTo`. -/
theorem data_requires_recipient (sc : ServerConfig) (w0 : World) (ws : List World)
    (c s : Session) (w : World) (input : Bytes)
    (hStart : c.state = .Greeting)
    (hRun : handleClient sc w0 ws c = .running s)
    (hData : cmdMatch cmdDATA (commandOf w.lib input) = true) :
    (s.state = .Cmd → s.env.rcptTo = [] → ∃ s1, execCmd w sc s input = some s1 ∧
      s1.out = s.out ++ [[.canned .FailNoRecipientsDataCmd]] ∧ s1.state = .Cmd ∧ s1.env = s.env) ∧
    (s.state = .Cmd → s.env.rcptTo ≠ [] → ∃ s1, execCmd w sc s input = some s1 ∧
      s1.out = s.out ++ [[.canned .SuccessDataCmd]] ∧ s1.state = .Data ∧ s1.env = s.env) ∧
    (s.alive = true → s.state = .Data → s.env.rcptTo ≠ []) := by
  have hInit : DataInv (startSession w0 sc c) := by
    intro _ hd
    rw [(startSession_state w0 sc c).1, hStart] at hd
    cases hd
  have hInv : DataInv s :=
    loop_invariant sc DataInv (fun w1 a b _ _ hb => tick_dataInv w1 sc a b hb)
      ws _ s hInit hRun
  refine ⟨?_, ?_, hInv⟩
  · intro hCmd he
    refine ⟨sendResponse s [.canned .FailNoRecipientsDataCmd], ?_, rfl, hCmd, rfl⟩
    simp [execCmd, dispatch_data sc _ hData, execBranch, doData, he]
  · intro _ hne
    refine ⟨{ sendResponse s [.canned .SuccessDataCmd] with state := .Data }, ?_, rfl, rfl, rfl⟩
    have hl : ¬ s.env.rcptTo.length = 0 := fun h0 => hne (List.length_eq_zero.mp h0)
    simp [execCmd, dispatch_data sc _ hData, execBranch, doData, hl]

/-- Witness of C15: `DATA` right after the greeting, with no recipient. -/
theorem data_requires_recipient_witness :
    ∃ s1,
      execCmd (sampleWorld sampleFile (ascii "DATA")) sampleConfig greetedSession (ascii "DATA") =
        some s1 ∧
      s1.out = greetedSession.out ++ [[.canned .FailNoRecipientsDataCmd]] ∧ s1.state = .Cmd ∧
      s1.env = greetedSession.env :=
  (data_requires_recipient sampleConfig (sampleWorld sampleFile []) [sampleWorld sampleFile []]
    (newClient []) greetedSession (sampleWorld sampleFile (ascii "DATA")) (ascii "DATA")
    (by decide) (by decide) (by decide)).1 (by decide) (by decide)

/-- C15, the claim at a concrete session: a new client that sends `MAIL FROM`,
`RCPT TO` and `DATA` and whose message is read with an error is killed and its
transaction reset while its state stays `Data`; `handleClient` has reached a
session whose state is `Data` and whose `RcptTo` is empty. -/
theorem data_state_after_failed_read :
    (newClient []).state = .Greeting ∧
    (match handleClient noAuthConfig (sampleWorld sampleFile []) failedDataWorlds (newClient []) with
      | .running s => some (s.state, s.alive, s.env.rcptTo)
      | _ => none) = some (.Data, false, []) := by
  refine ⟨rfl, by decide⟩


/-! ## The counter of unrecognized commands -/

theorem startTLSTick_errors (w : World) (sc : ServerConfig) (s : Session) :
    (startTLSTick w sc s).errors = s.errors := by
  unfold startTLSTick
  simp only
  split
  · split
    · rfl
    · split <;> rfl
  · rfl

/-- An iteration adds one to the counter exactly when it runs the `default` case
of the command switch. -/
theorem tick_errors (w : World) (sc : ServerConfig) (s s1 : Session)
    (h : tick w sc s = .running s1) :
    s1.errors = s.errors + (if unrecognizedLine w sc s = true then 1 else 0) := by
  obtain ⟨s2, hf, hc⟩ := tick_running_cases w sc s s1 h
  have h2 : s2.errors = s.errors + (if unrecognizedLine w sc s = true then 1 else 0) := by
    rcases hc with ⟨hst, rfl⟩ | ⟨lim, x, -, hx⟩ | ⟨hst, input, hr, hup, hb⟩ |
      ⟨hst, input, -, -, rfl⟩ | ⟨hst, rfl⟩ | ⟨hst, rfl⟩ | ⟨hst, rfl⟩
    · simp [unrecognizedLine, hst, sendResponse]
    · rcases hx with ⟨hr, rfl⟩ | ⟨hr, rfl⟩ | ⟨hr, hup, rfl⟩
      · simp [unrecognizedLine, hr, sendResponse, kill]
      · simp [unrecognizedLine, hr, kill]
      · simp [unrecognizedLine, hup]
    · have hfld := (execBranch_fields w sc _ s2 input _ hb).2.2.1
      rw [hfld]
      simp only [unrecognizedLine, hst, hr, hup, decide_True, Bool.not_false, Bool.and_self,
        Bool.true_and, decide_eq_true_eq]
    · have hfld := (authPlainLine_fields w sc { s with limit := CredentialsMaxLength } input).2.2.1
      rw [hfld]
      simp [unrecognizedLine, hst]
    · rw [(dataTick_fields w sc s).2.2.1]
      simp [unrecognizedLine, hst]
    · rw [startTLSTick_errors]
      simp [unrecognizedLine, hst]
    · simp [unrecognizedLine, hst, sendResponse, kill]
  rcases hf with rfl | rfl
  · exact h2
  · exact h2

/-- The counter of a running session is its value at the start plus the number
of iterations that ran the `default` case. -/
theorem loop_errors (sc : ServerConfig) (ws : List World) (s s1 : Session)
    (h : loop sc ws s = .running s1) : s1.errors = s.errors + countUnrecognized sc ws s := by
  induction ws generalizing s with
  | nil =>
    unfold loop at h
    injection h with h
    subst h
    rfl
  | cons w rest ih =>
    unfold loop at h
    unfold countUnrecognized
    split at h
    · rename_i hal
      rw [if_pos hal]
      split at h
      · rename_i s2 ht
        rw [ih s2 h, tick_errors w sc s s2 ht, Nat.add_assoc]
      · rename_i hne
        exact absurd h (hne s1)
    · cases h

/-- C16: in a session whose counter starts at zero, the counter is the number of
lines so far that matched no enabled verb, whatever was recognized in between;
while fewer than four such lines have been seen, the next one is answered with
`FailUnrecognizedCmd` and the session stays as alive as it was; when four have
been seen, the next one, the fifth, is answered with `FailMaxUnrecognizedCmd`
and the session is killed. -/
theorem unrecognized_quota (sc : ServerConfig) (w0 : World) (ws : List World)
    (c s : Session) (w : World) (input : Bytes)
    (hFresh : c.errors = 0)
    (hRun : handleClient sc w0 ws c = .running s)
    (hNone : dispatch sc (commandOf w.lib input) = .unrecognized) :
    s.errors = countUnrecognized sc ws (startSession w0 sc c) ∧
    (countUnrecognized sc ws (startSession w0 sc c) < 4 →
      execCmd w sc s input =
        some (sendResponse { s with errors := s.errors + 1 } [.canned .FailUnrecognizedCmd])) ∧
    (countUnrecognized sc ws (startSession w0 sc c) = 4 →
      execCmd w sc s input =
        some (kill (sendResponse { s with errors := s.errors + 1 }
          [.canned .FailMaxUnrecognizedCmd]))) := by
  have hcount : s.errors = countUnrecognized sc ws (startSession w0 sc c) := by
    have h1 := loop_errors sc ws _ s hRun
    rw [(startSession_state w0 sc c).2, hFresh, Nat.zero_add] at h1
    exact h1
  refine ⟨hcount, ?_, ?_⟩
  · intro hlt
    have hl : ¬ (s.errors + 1 ≥ MaxUnrecognizedCommands) := by
      unfold MaxUnrecognizedCommands
      omega
    simp only [execCmd, hNone, execBranch, doUnrecognized, if_neg hl]
  · intro heq
    have hl : s.errors + 1 ≥ MaxUnrecognizedCommands := by
      unfold MaxUnrecognizedCommands
      omega
    simp only [execCmd, hNone, execBranch, doUnrecognized, if_pos hl]

/-- Witness of C16: the first unrecognized line of a new session. -/
theorem unrecognized_quota_witness :
    countUnrecognized sampleConfig [sampleWorld sampleFile []]
        (startSession (sampleWorld sampleFile []) sampleConfig (newClient [])) < 4 ∧
      execCmd (sampleWorld sampleFile (ascii "FOO")) sampleConfig greetedSession (ascii "FOO") =
        some (sendResponse { greetedSession with errors := greetedSession.errors + 1 }
          [.canned .FailUnrecognizedCmd]) :=
  ⟨by decide,
    (unrecognized_quota sampleConfig (sampleWorld sampleFile []) [sampleWorld sampleFile []]
      (newClient []) greetedSession (sampleWorld sampleFile (ascii "FOO")) (ascii "FOO")
      (by decide) (by decide) (by decide)).2.1 (by decide)⟩


/-! ## The `Data` state -/

theorem tick_data (w : World) (sc : ServerConfig) (s : Session) (hst : s.state = .Data) :
    tick w sc s = afterSwitch w (dataTick w sc s) := by
  unfold tick
  rw [hst]

theorem dataTick_limit (w : World) (sc : ServerConfig) (s : Session) :
    (dataTick w sc s).limit = wrapInt64 (sc.maxSize + 1024000) := by
  unfold dataTick
  simp only
  split
  · rfl
  · rfl
  · rfl
  · simp only [resetTransaction, sendResponse]
    split <;> split <;> rfl

theorem wrapInt64_id (x : Int) (h1 : -(2 ^ 63) ≤ x) (h2 : x < 2 ^ 63) : wrapInt64 x = x := by
  unfold wrapInt64
  omega

/-- C17, the claim at a concrete configuration: with `MaxSize = 1000000` the
limit set in the `Data` state is `2024000`, which is not `MaxSize + 1048576`. -/
theorem data_limit_is_not_one_mebibyte :
    (tick (sampleWorld sampleFile []) sampleConfig dataSession).session.map (fun s => s.limit) =
      some 2024000 ∧
    (tick (sampleWorld sampleFile []) sampleConfig dataSession).session.map (fun s => s.limit) ≠
      some (sampleConfig.maxSize + 1048576) := by
  constructor <;> decide

/-- C17 as amended: in the `Data` state the iteration never panics and the limit
it sets on the reader is `MaxSize + 1024000` in `int64` arithmetic, which is
the integer `MaxSize + 1024000` whenever that sum is an `int64`. -/
theorem data_limit (w : World) (sc : ServerConfig) (s : Session) (hst : s.state = .Data) :
    ∃ s1, (tick w sc s).session = some s1 ∧ s1.limit = wrapInt64 (sc.maxSize + 1024000) ∧
      (-(2 ^ 63) ≤ sc.maxSize + 1024000 → sc.maxSize + 1024000 < 2 ^ 63 →
        s1.limit = sc.maxSize + 1024000) := by
  rw [tick_data w sc s hst]
  rcases afterSwitch_session w (dataTick w sc s) with h | h
  · refine ⟨_, h, dataTick_limit w sc s, ?_⟩
    intro h1 h2
    rw [dataTick_limit, wrapInt64_id _ h1 h2]
  · refine ⟨_, h, dataTick_limit w sc s, ?_⟩
    intro h1 h2
    show (dataTick w sc s).limit = _
    rw [dataTick_limit, wrapInt64_id _ h1 h2]

/-- Witness of C17: the limit under `MaxSize = 1000000`. -/
theorem data_limit_witness :
    ∃ s1, (tick (sampleWorld sampleFile []) sampleConfig dataSession).session = some s1 ∧
      s1.limit = wrapInt64 (sampleConfig.maxSize + 1024000) ∧
      (-(2 ^ 63) ≤ sampleConfig.maxSize + 1024000 → sampleConfig.maxSize + 1024000 < 2 ^ 63 →
        s1.limit = sampleConfig.maxSize + 1024000) :=
  data_limit (sampleWorld sampleFile []) sampleConfig dataSession (by decide)

/-- A body longer than `MaxSize`, whatever the reader reported: the reply is
`FailReadErrorDataCmd` with the text of the freshly made error, the session is
killed and the transaction reset, and the backend is not consulted. -/
theorem dataTick_oversize (w : World) (sc : ServerConfig) (s : Session)
    (h : (w.dataBody.length : Int) > sc.maxSize) :
    dataTick w sc s =
      resetTransaction (kill (sendResponse
        { s with
          limit := wrapInt64 (sc.maxSize + 1024000),
          env := { s.env with data := s.env.data ++ w.dataBody } }
        [.canned .FailReadErrorDataCmd, .text (ascii " "),
          .errorText (.other (ascii "maximum DATA size exceeded (" ++ fmtInt sc.maxSize ++
            ascii ")"))])) := by
  unfold dataTick
  simp only [if_pos h]

/-- C18, the code at the failing input: with `MaxSize = 10` and a body of eleven
bytes read without an error, the reply is `FailReadErrorDataCmd` followed by
the text `maximum DATA size exceeded (10)`, not `FailMessageSizeExceeded`; the
session is killed and the transaction reset.  `FailMessageSizeExceeded` is sent
only when the reader itself returns the error `MessageSizeExceeded`. -/
theorem oversize_message_reply :
    (tick (withBody (sampleWorld sampleFile []) (List.replicate 11 120)) smallConfig
        dataSession).session.map (fun s => (s.out.getLast?, s.alive, s.env.rcptTo, s.env.data)) =
      some (some [.canned .FailReadErrorDataCmd, .text (ascii " "),
        .errorText (.other (ascii "maximum DATA size exceeded (10)"))], false, [], []) ∧
    (tick { sampleWorld sampleFile [] with dataErr := some .messageSizeExceeded } smallConfig
        dataSession).session.map (fun s => (s.out.getLast?, s.alive)) =
      some (some [.canned .FailMessageSizeExceeded, .text (ascii " "),
        .errorText .messageSizeExceeded], false) := by
  constructor <;> decide

/-! ## Shutdown -/

/-- C19: when the shutting-down flag is observed after a line has been read in
the `Cmd` or `AuthPlainCredentials` state, the iteration ends with the session
as it was (envelope, `Helo`, `authDone`, error counter, replies and every other
field) except for the reader limit and the state, which is `Shutdown`: the line
is not executed and gets no reply.  The next iteration, whatever its
surroundings, sends `ErrorShutdown` (421) and kills the session. -/
theorem shutdown_observed (w : World) (sc : ServerConfig) (s : Session) (input : Bytes)
    (hState : s.state = .Cmd ∨ s.state = .AuthPlainCredentials)
    (hRead : readCommand w.readSlice = some (input, none))
    (hDown : w.shuttingDown = true) :
    ∃ lim : Int, tick w sc s = .running { s with limit := lim, state := .Shutdown } ∧
      ∀ w1, tick w1 sc { s with limit := lim, state := .Shutdown } =
          afterSwitch w1 (kill (sendResponse { s with limit := lim, state := .Shutdown }
            [.canned .ErrorShutdown])) ∧
        ∃ s2, (tick w1 sc { s with limit := lim, state := .Shutdown }).session = some s2 ∧
          s2.out = s.out ++ [[.canned .ErrorShutdown]] ∧ s2.alive = false ∧ s2.env = s.env := by
  have hnext : ∀ (lim : Int) (w1 : World),
      tick w1 sc { s with limit := lim, state := .Shutdown } =
          afterSwitch w1 (kill (sendResponse { s with limit := lim, state := .Shutdown }
            [.canned .ErrorShutdown])) ∧
        ∃ s2, (tick w1 sc { s with limit := lim, state := .Shutdown }).session = some s2 ∧
          s2.out = s.out ++ [[.canned .ErrorShutdown]] ∧ s2.alive = false ∧ s2.env = s.env := by
    intro lim w1
    have ht : tick w1 sc { s with limit := lim, state := .Shutdown } =
        afterSwitch w1 (kill (sendResponse { s with limit := lim, state := .Shutdown }
          [.canned .ErrorShutdown])) := rfl
    refine ⟨ht, ?_⟩
    rw [ht]
    rcases afterSwitch_session w1 (kill (sendResponse { s with limit := lim, state := .Shutdown }
      [.canned .ErrorShutdown])) with h | h
    · exact ⟨_, h, rfl, rfl, rfl⟩
    · exact ⟨_, h, rfl, rfl, rfl⟩
  rcases hState with hst | hst
  · refine ⟨CommandLineMaxLength, ?_, hnext _⟩
    unfold tick
    rw [hst]
    simp only [onLine, hRead, hDown, if_true]
  · refine ⟨CredentialsMaxLength, ?_, hnext _⟩
    unfold tick
    rw [hst]
    simp only [onLine, hRead, hDown, if_true]

/-- Witness of C19: a shutdown observed after `MAIL FROM:<a@b>` has been read. -/
theorem shutdown_observed_witness :
    ∃ lim : Int,
      tick { sampleWorld sampleFile (ascii "MAIL FROM:<a@b>") with shuttingDown := true }
          sampleConfig greetedSession =
        .running { greetedSession with limit := lim, state := .Shutdown } :=
  (shutdown_observed { sampleWorld sampleFile (ascii "MAIL FROM:<a@b>") with shuttingDown := true }
    sampleConfig greetedSession (ascii "MAIL FROM:<a@b>") (Or.inl (by decide)) (by decide)
    (by decide)).imp fun _ h => h.1


/-! ## The argument of a command -/

/-- C20, the claim at a concrete line: the verb `XCLIENT` has seven bytes, but on
the line `XCLIENTHELO=abc` the tokenizer is not handed the line from offset 7 on
(`HELO=abc`, which would set `Helo` to `abc`): it is handed the line from offset
8 on (`ELO=abc`) and `Helo` stays empty. -/
theorem xclient_argument_is_not_at_verb_length :
    cmdXCLIENT.length = 7 ∧
    doXclient greetedSession (ascii "XCLIENTHELO=abc") ≠
      some (sendResponse
        ((split ((ascii "XCLIENTHELO=abc").drop cmdXCLIENT.length) 32).foldl xclientTok
          greetedSession) [.canned .SuccessMailCmd]) ∧
    (execCmd (sampleWorld sampleFile []) xclientConfig greetedSession
        (ascii "XCLIENTHELO=abc")).map (fun s => s.helo) = some [] ∧
    ((split ((ascii "XCLIENTHELO=abc").drop cmdXCLIENT.length) 32).foldl xclientTok
        greetedSession).helo = ascii "abc" := by
  refine ⟨?_, ?_, ?_, ?_⟩ <;> decide

/-- C20 as amended: the cases `HELO`, `EHLO`, `MAIL FROM:` and `RCPT TO:` consult
the parser at the line from byte offset `len(verb)` onward and nowhere else
(two parsers that agree on that argument give the same outcome), and that slice
exists whenever the line is at least as long as the verb; the case `XCLIENT`
hands its tokenizer the line from byte offset `len(verb) + 1` onward. -/
theorem argument_offsets (w : World) (sc : ServerConfig) (s : Session) (line : Bytes) :
    (∀ p q : Bytes → Option Bytes,
      p (line.drop cmdHELO.length) = q (line.drop cmdHELO.length) →
      doHelo { w with parserHelo := p } sc s line = doHelo { w with parserHelo := q } sc s line) ∧
    (∀ p q : Bytes → Option Bytes,
      p (line.drop cmdEHLO.length) = q (line.drop cmdEHLO.length) →
      doEhlo { w with parserEhlo := p } sc s line = doEhlo { w with parserEhlo := q } sc s line) ∧
    (∀ p q : Bytes → PathResult,
      p (line.drop cmdMAIL.length) = q (line.drop cmdMAIL.length) →
      doMail { w with parseMailFrom := p } sc s line =
        doMail { w with parseMailFrom := q } sc s line) ∧
    (∀ p q : Bytes → PathResult,
      p (line.drop cmdRCPT.length) = q (line.drop cmdRCPT.length) →
      doRcpt { w with parseRcptTo := p } s line = doRcpt { w with parseRcptTo := q } s line) ∧
    (∀ v ∈ [cmdHELO, cmdEHLO, cmdMAIL, cmdRCPT], v.length ≤ line.length →
      sliceFrom line v.length = some (line.drop v.length)) ∧
    doXclient s line =
      (sliceFrom line (cmdXCLIENT.length + 1)).map fun arg =>
        sendResponse ((split arg 32).foldl xclientTok s) [.canned .SuccessMailCmd] := by
  refine ⟨?_, ?_, ?_, ?_, ?_, rfl⟩
  · intro p q hpq
    unfold doHelo sliceFrom
    split
    · simp only [Option.map_some']
      have h4 : cmdHELO.length = 4 := rfl
      rw [h4] at hpq
      rw [hpq]
    · rfl
  · intro p q hpq
    unfold doEhlo sliceFrom
    split
    · simp only [Option.map_some']
      have h4 : cmdEHLO.length = 4 := rfl
      rw [h4] at hpq
      rw [hpq]
    · rfl
  · intro p q hpq
    unfold doMail sliceFrom
    have h10 : cmdMAIL.length = 10 := rfl
    rw [h10] at hpq
    split
    · rfl
    · split
      · rfl
      · split
        · simp only [Option.map_some']
          rw [hpq]
        · rfl
  · intro p q hpq
    unfold doRcpt sliceFrom
    have h8 : cmdRCPT.length = 8 := rfl
    rw [h8] at hpq
    split
    · rfl
    · split
      · simp only [Option.map_some']
        rw [hpq]
        rfl
      · rfl
  · intro v _ hlen
    unfold sliceFrom
    rw [if_pos hlen]

/-- Witness of C20: two parsers that agree on ` x`, the line `HELO x` from
offset 4 on, give the same outcome of the `HELO` case. -/
theorem argument_offsets_witness :
    doHelo { sampleWorld sampleFile [] with parserHelo := fun a => some a } sampleConfig
        greetedSession (ascii "HELO x") =
      doHelo { sampleWorld sampleFile [] with parserHelo := fun _ => some (ascii " x") }
        sampleConfig greetedSession (ascii "HELO x") :=
  (argument_offsets (sampleWorld sampleFile []) sampleConfig greetedSession (ascii "HELO x")).1
    (fun a => some a) (fun _ => some (ascii " x")) (by decide)


/-! ## `filepath.Match` on a star followed by literal bytes -/

theorem dropStars_literal (S : Bytes) (h : 42 ∉ S) : dropStars S = S := by
  cases S with
  | nil => rfl
  | cons c rest =>
    have hc : c ≠ 42 := fun e => h (e ▸ List.mem_cons_self c rest)
    simp only [dropStars, if_neg hc]

theorem scanLen_literal (S : Bytes) (h : ∀ c ∈ S, c ≠ 42 ∧ c ≠ 91 ∧ c ≠ 92) :
    scanLen S false = S.length := by
  induction S with
  | nil => rfl
  | cons c rest ih =>
    obtain ⟨h1, h2, h3⟩ := h c (List.mem_cons_self c rest)
    have ih1 := ih (fun d hd => h d (List.mem_cons_of_mem c hd))
    have hstep : scanLen (c :: rest) false = 1 + scanLen rest false := by
      conv_lhs => unfold scanLen
      by_cases h93 : c = 93
      · simp only [if_neg h3, if_neg h2, if_pos h93]
      · simp only [if_neg h3, if_neg h2, if_neg h93, if_neg h1]
    rw [hstep, ih1, List.length_cons]
    omega

/-- The pattern `*S`, with `S` free of `*`, `[` and `\`, is one chunk behind a
star. -/
theorem scanChunk_star_literal (S : Bytes) (h : ∀ c ∈ S, c ≠ 42 ∧ c ≠ 91 ∧ c ≠ 92) :
    scanChunk (42 :: S) = (true, S, []) := by
  have h42 : 42 ∉ S := fun hm => (h 42 hm).1 rfl
  have hd : dropStars (42 :: S) = S := by
    simp only [dropStars, if_true]
    exact dropStars_literal S h42
  unfold scanChunk
  rw [hd, scanLen_literal S h]
  simp

/-- On a chunk of literal bytes `matchChunk` tests for the chunk at the start of
the string and never finds the pattern malformed. -/
theorem matchChunkLoop_literal (S : Bytes) (h : ∀ c ∈ S, c ≠ 63 ∧ c ≠ 91 ∧ c ≠ 92)
    (fuel : Nat) (hf : S.length < fuel) (s : Bytes) (failed : Bool) :
    matchChunkLoop fuel S s failed =
      some (if failed = false ∧ S <+: s then some (s.drop S.length) else none) := by
  induction S generalizing fuel s failed with
  | nil =>
    cases fuel with
    | zero => omega
    | succ k =>
      cases failed <;> simp [matchChunkLoop]
  | cons c rest ih =>
    cases fuel with
    | zero => omega
    | succ k =>
      obtain ⟨h1, h2, h3⟩ := h c (List.mem_cons_self c rest)
      have ih1 := ih (fun d hd => h d (List.mem_cons_of_mem c hd)) k
        (by simp only [List.length_cons] at hf; omega)
      simp only [matchChunkLoop, if_neg h2, if_neg h1, if_neg h3]
      rw [ih1]
      cases s with
      | nil => cases failed <;> simp
      | cons d t =>
        cases failed
        · by_cases hdc : d = c
          · subst hdc
            simp [List.cons_prefix_cons]
          · have hcd : ¬ c = d := fun e => hdc e.symm
            simp [List.cons_prefix_cons, hdc, hcd]
        · simp

theorem matchChunk_literal (S s : Bytes) (h : ∀ c ∈ S, c ≠ 63 ∧ c ≠ 91 ∧ c ≠ 92) :
    matchChunk S s = some (if S <+: s then some (s.drop S.length) else none) := by
  unfold matchChunk
  rw [matchChunkLoop_literal S h _ (Nat.lt_succ_self _)]
  simp

theorem prefix_drop_nil (S s : Bytes) (hp : S <+: s) (hd : s.drop S.length = []) : s = S := by
  obtain ⟨t, rfl⟩ := hp
  simp at hd
  simp [hd]

/-- The loop over the bytes that the star skips, for a last chunk of literal
bytes: it finds a match exactly when the name is the chunk behind a non-empty
head without `/`. -/
theorem starLoop_literal (S : Bytes) (h : ∀ c ∈ S, c ≠ 63 ∧ c ≠ 91 ∧ c ≠ 92) (name : Bytes) :
    (starLoop S true name = .found [] ∧ ∃ Q, Q ≠ [] ∧ name = Q ++ S ∧ 47 ∉ Q) ∨
    (starLoop S true name = .noMatch ∧ ¬ ∃ Q, Q ≠ [] ∧ name = Q ++ S ∧ 47 ∉ Q) := by
  induction name with
  | nil =>
    right
    refine ⟨rfl, ?_⟩
    rintro ⟨Q, hQ, he, -⟩
    cases Q with
    | nil => exact hQ rfl
    | cons q Q1 => simp at he
  | cons c rest ih =>
    by_cases hc : c = 47
    · right
      refine ⟨by simp [starLoop, hc], ?_⟩
      rintro ⟨Q, hQ, he, hs⟩
      cases Q with
      | nil => exact hQ rfl
      | cons q Q1 =>
        simp only [List.cons_append, List.cons.injEq] at he
        exact hs (he.1 ▸ hc ▸ List.mem_cons_self _ _)
    · simp only [starLoop, if_neg hc, matchChunk_literal S rest h]
      by_cases hp : S <+: rest
      · simp only [if_pos hp]
        by_cases hd : rest.drop S.length = []
        · left
          have hrs := prefix_drop_nil S rest hp hd
          refine ⟨by simp [hd], [c], by simp, by simp [hrs], by simpa using fun e => hc e.symm⟩
        · simp only [Bool.true_and, hd, ne_eq, not_false_eq_true, decide_True, if_true]
          rcases ih with ⟨h1, Q, hQ, he, hs⟩ | ⟨h1, hno⟩
          · left
            refine ⟨h1, c :: Q, by simp, by simp [he], ?_⟩
            intro hm
            rcases List.mem_cons.mp hm with e | e
            · exact hc e.symm
            · exact hs e
          · right
            refine ⟨h1, ?_⟩
            rintro ⟨Q, hQ, he, hs⟩
            cases Q with
            | nil => exact hQ rfl
            | cons q Q1 =>
              simp only [List.cons_append, List.cons.injEq] at he
              by_cases hQ1 : Q1 = []
              · subst hQ1
                simp only [List.nil_append] at he
                apply hd
                rw [he.2]
                simp
              · exact hno ⟨Q1, hQ1, he.2, fun hm => hs (List.mem_cons_of_mem q hm)⟩
      · simp only [if_neg hp]
        rcases ih with ⟨h1, Q, hQ, he, hs⟩ | ⟨h1, hno⟩
        · left
          refine ⟨h1, c :: Q, by simp, by simp [he], ?_⟩
          intro hm
          rcases List.mem_cons.mp hm with e | e
          · exact hc e.symm
          · exact hs e
        · right
          refine ⟨h1, ?_⟩
          rintro ⟨Q, hQ, he, hs⟩
          cases Q with
          | nil => exact hQ rfl
          | cons q Q1 =>
            simp only [List.cons_append, List.cons.injEq] at he
            by_cases hQ1 : Q1 = []
            · subst hQ1
              simp only [List.nil_append] at he
              exact hp (he.2 ▸ List.prefix_refl S)
            · exact hno ⟨Q1, hQ1, he.2, fun hm => hs (List.mem_cons_of_mem q hm)⟩


/-- A search for a one-byte string finds it exactly when the byte occurs. -/
theorem indexFrom_single (c : Nat) (s : Bytes) (i : Int) (hi : 0 ≤ i) :
    (0 ≤ indexFrom [c] s i ↔ c ∈ s) := by
  induction s generalizing i with
  | nil => simp [indexFrom]
  | cons x rest ih =>
    unfold indexFrom
    by_cases hx : c = x
    · subst hx
      have hp : [c] <+: c :: rest := by simp [List.cons_prefix_cons]
      rw [if_pos hp]
      simp [hi]
    · have hp : ¬ [c] <+: x :: rest := by simp [List.cons_prefix_cons, hx]
      rw [if_neg hp, ih (i + 1) (by omega)]
      simp [hx]

theorem stringsContains_single (c : Nat) (s : Bytes) : stringsContains s [c] = decide (c ∈ s) := by
  unfold stringsContains bytesIndex
  by_cases h : c ∈ s
  · simp [h, (indexFrom_single c s 0 (le_refl 0)).mpr h]
  · have h1 : ¬ 0 ≤ indexFrom [c] s 0 := fun hc => h ((indexFrom_single c s 0 (le_refl 0)).mp hc)
    simp [h, h1]

/-- What `filepath.Match` computes for a pattern `*S` with `S` free of glob
metacharacters: no error, and a match exactly when the name is `S` behind a
head without `/`. -/
theorem filepathMatch_star_literal (S name : Bytes)
    (h : ∀ c ∈ S, c ≠ 42 ∧ c ≠ 63 ∧ c ≠ 91 ∧ c ≠ 92) :
    (filepathMatch (42 :: S) name).2 = true ∧
    ((filepathMatch (42 :: S) name).1 = true ↔ ∃ Q, name = Q ++ S ∧ 47 ∉ Q) := by
  have hsc := scanChunk_star_literal S (fun c hc => ⟨(h c hc).1, (h c hc).2.2.1, (h c hc).2.2.2⟩)
  have hlit : ∀ c ∈ S, c ≠ 63 ∧ c ≠ 91 ∧ c ≠ 92 := fun c hc => (h c hc).2
  have hend : ∀ k, matchLoop (k + 1) [] [] = (true, true) := by
    intro k
    simp [matchLoop]
  have hne : (42 :: S : Bytes) ≠ [] := by simp
  unfold filepathMatch
  simp only [List.length_cons, matchLoop, if_neg hne, hsc]
  by_cases hS : S = []
  · subst hS
    simp only [decide_True, Bool.and_self, if_true, stringsContains_single, List.append_nil,
      exists_eq_left']
    simp
  · have hS1 : decide (S = []) = false := by simp [hS]
    simp only [hS1, Bool.and_false, Bool.false_eq_true, if_false, matchChunk_literal S name hlit]
    have hstar := starLoop_literal S hlit name
    by_cases hp : S <+: name
    · by_cases hd : name.drop S.length = []
      · have hns := prefix_drop_nil S name hp hd
        have hex : ∃ Q, name = Q ++ S ∧ 47 ∉ Q := ⟨[], by simp [hns], by simp⟩
        simp only [if_pos hp, hd, true_or, if_true, hend]
        simp [hex]
      · have hcond : ¬ (name.drop S.length = [] ∨ ([] : Bytes) ≠ []) := by simp [hd]
        simp only [if_pos hp, if_neg hcond, if_true, decide_True]
        rcases hstar with ⟨h1, Q, hQ, he, hs⟩ | ⟨h1, hno⟩
        · have hex : ∃ Q, name = Q ++ S ∧ 47 ∉ Q := ⟨Q, he, hs⟩
          rw [h1]
          simp only [hend]
          simp [hex]
        · have hnex : ¬ ∃ Q, name = Q ++ S ∧ 47 ∉ Q := by
            rintro ⟨Q, he, hs⟩
            by_cases hQ : Q = []
            · subst hQ
              simp only [List.nil_append] at he
              exact absurd (by rw [he]; simp) hd
            · exact absurd ⟨Q, hQ, he, hs⟩ hno
          rw [h1]
          simp [hnex]
    · simp only [if_neg hp, if_true, decide_True]
      rcases hstar with ⟨h1, Q, hQ, he, hs⟩ | ⟨h1, hno⟩
      · have hex : ∃ Q, name = Q ++ S ∧ 47 ∉ Q := ⟨Q, he, hs⟩
        rw [h1]
        simp only [hend]
        simp [hex]
      · have hnex : ¬ ∃ Q, name = Q ++ S ∧ 47 ∉ Q := by
          rintro ⟨Q, he, hs⟩
          by_cases hQ : Q = []
          · subst hQ
            simp only [List.nil_append] at he
            exact absurd (he ▸ List.prefix_refl S) hp
          · exact absurd ⟨Q, hQ, he, hs⟩ hno
        rw [h1]
        simp [hnex]


/-! ## Lower-casing -/

theorem lowerByte_le (c : Nat) (h : c < 128) : lowerByte c ≤ 0x7F := by
  unfold lowerByte
  split <;> omega

theorem map_lowerByte_of_no_upper (s : Bytes)
    (h : s.any (fun c => decide (65 ≤ c ∧ c ≤ 90)) = false) : s.map lowerByte = s := by
  induction s with
  | nil => rfl
  | cons c rest ih =>
    rw [List.any_cons, Bool.or_eq_false_iff] at h
    have hc : ¬ (65 ≤ c ∧ c ≤ 90) := by simpa using h.1
    rw [List.map_cons, ih h.2]
    unfold lowerByte
    rw [if_neg hc]

/-- On an all-ASCII input `strings.ToLower` lower-cases byte by byte. -/
theorem stringsToLower_ascii (tbl : Nat → Nat) (s : Bytes)
    (h : s.all (fun c => decide (c < 0x80)) = true) : stringsToLower tbl s = s.map lowerByte := by
  unfold stringsToLower
  rw [if_pos h]
  split
  · rfl
  · rename_i hl
    exact (map_lowerByte_of_no_upper s (by simpa using hl)).symm

theorem mapRunes_lower_append (tbl : Nat → Nat) (p t : Bytes) (hp : ∀ c ∈ p, c < 128) :
    mapRunes (unicodeToLower tbl) (p ++ t) 0 = p.map lowerByte ++ mapRunes (unicodeToLower tbl) t 0 := by
  induction p with
  | nil => rfl
  | cons c rest ih =>
    have hc : c < 128 := hp c (List.mem_cons_self c rest)
    have hu := lowerByte_le c hc
    have ih1 := ih (fun d hd => hp d (List.mem_cons_of_mem c hd))
    have h1 : ¬ c ≥ 0x80 := by omega
    have h2 : c ≤ 0x7F := by omega
    simp only [List.cons_append, mapRunes, if_neg h1, unicodeToLower, if_pos h2, encodeRune,
      if_pos hu, Nat.sub_self, List.append_eq, ih1, List.map_cons, List.singleton_append,
      List.nil_append]

/-- An ASCII head of the input of `strings.ToLower` is lower-cased byte by byte
and does not affect what becomes of the rest. -/
theorem stringsToLower_append (tbl : Nat → Nat) (p t : Bytes) (hp : ∀ c ∈ p, c < 128) :
    stringsToLower tbl (p ++ t) = p.map lowerByte ++ stringsToLower tbl t := by
  have hpa : p.all (fun c => decide (c < 0x80)) = true := by
    rw [List.all_eq_true]
    intro c hc
    exact decide_eq_true (hp c hc)
  cases ht : t.all (fun c => decide (c < 0x80))
  · have hpt : (p ++ t).all (fun c => decide (c < 0x80)) = false := by
      rw [List.all_append, ht, Bool.and_false]
    unfold stringsToLower
    rw [hpt, ht]
    simp only [Bool.false_eq_true, if_false]
    exact mapRunes_lower_append tbl p t hp
  · have hpt : (p ++ t).all (fun c => decide (c < 0x80)) = true := by
      rw [List.all_append, ht, hpa, Bool.and_true]
    rw [stringsToLower_ascii tbl _ hpt, stringsToLower_ascii tbl _ ht, List.map_append]

/-- Lower-casing ASCII bytes makes no glob metacharacter. -/
theorem lower_literal_of_ascii (tbl : Nat → Nat) (S : Bytes) (ha : ∀ c ∈ S, c < 128)
    (hS : ∀ c ∈ S, c ≠ 42 ∧ c ≠ 63 ∧ c ≠ 91 ∧ c ≠ 92) :
    ∀ c ∈ stringsToLower tbl S, c ≠ 42 ∧ c ≠ 63 ∧ c ≠ 91 ∧ c ≠ 92 := by
  have hall : S.all (fun c => decide (c < 0x80)) = true := by
    rw [List.all_eq_true]
    intro c hc
    exact decide_eq_true (ha c hc)
  rw [stringsToLower_ascii tbl S hall]
  intro c hc
  obtain ⟨d, hd, rfl⟩ := List.mem_map.mp hc
  have h4 := hS d hd
  unfold lowerByte
  split <;> omega

/-! ## Wildcard entries -/

/-- The allowed hosts built from the single entry `*S`. -/
theorem setAllowedHosts_wildcard (lib : Lib) (S : Bytes) :
    setAllowedHosts lib [ascii "*" ++ S] =
      { table := [], wildcards := [42 :: stringsToLower lib.lowerTable S] } := by
  have h1 : ascii "*" = [42] := by decide
  have hc : stringsContains ([42] ++ S) [42] = true := by
    rw [stringsContains_single]
    simp
  have hl : stringsToLower lib.lowerTable ([42] ++ S) = 42 :: stringsToLower lib.lowerTable S := by
    rw [stringsToLower_append lib.lowerTable [42] S (by simp)]
    rfl
  rw [h1]
  simp only [setAllowedHosts, List.foldl_cons, List.foldl_nil, addAllowedHost]
  rw [h1, if_pos hc, hl]
  rfl

/-- C12, the claim at a concrete host: under the single entry `*.example.com`
the host `a/b.example.com` is rejected although its lower-case form ends with
`.example.com`, because the star of `filepath.Match` does not match a `/`. -/
theorem wildcard_rejects_slash :
    allowsHost (goLib id id) (setAllowedHosts (goLib id id) [ascii "*" ++ ascii ".example.com"])
        (ascii "a/b.example.com") = false ∧
    stringsToLower id (ascii ".example.com") <:+ stringsToLower id (ascii "a/b.example.com") := by
  constructor <;> decide

/-- C12 as amended: under a list whose only entry is `*S`, where the lower-case
form of `S` is free of the glob metacharacters `*`, `?`, `[` and `\`, a host is
allowed exactly when its lower-case form is the lower-case form of `S` behind a
head that has no `/`; `*.example.com` accepts `a.example.com` and rejects
`example.net`. -/
theorem wildcard_entry (u l : Nat → Nat) (S h : Bytes)
    (hS : ∀ c ∈ stringsToLower l S, c ≠ 42 ∧ c ≠ 63 ∧ c ≠ 91 ∧ c ≠ 92) :
    (allowsHost (goLib u l) (setAllowedHosts (goLib u l) [ascii "*" ++ S]) h = true ↔
      ∃ Q, stringsToLower l h = Q ++ stringsToLower l S ∧ 47 ∉ Q) ∧
    allowsHost (goLib u l) (setAllowedHosts (goLib u l) [ascii "*" ++ ascii ".example.com"])
      (ascii "a.example.com") = true ∧
    allowsHost (goLib u l) (setAllowedHosts (goLib u l) [ascii "*" ++ ascii ".example.com"])
      (ascii "example.net") = false := by
  refine ⟨?_, by rfl, by rfl⟩
  rw [setAllowedHosts_wildcard]
  have hm := filepathMatch_star_literal (stringsToLower l S) (stringsToLower l h) hS
  show allowsHost (goLib u l)
    { table := [], wildcards := [42 :: stringsToLower l S] } h = true ↔ _
  unfold allowsHost
  have h0 : ¬ (([] : List Bytes).length = 1 ∧ ascii "." ∈ ([] : List Bytes)) := by simp
  have h1 : ¬ stringsToLower (goLib u l).lowerTable h ∈ ([] : List Bytes) := by simp
  simp only [if_neg h0, if_neg h1, List.any_cons, List.any_nil, Bool.or_false]
  show ((filepathMatch (42 :: stringsToLower l S) (stringsToLower l h)).1 &&
    (filepathMatch (42 :: stringsToLower l S) (stringsToLower l h)).2) = true ↔ _
  rw [hm.1, Bool.and_true]
  exact hm.2

/-- Witness of C12: the entry `*.example.com` and the host `A.Example.COM`. -/
theorem wildcard_entry_witness :
    (∀ c ∈ stringsToLower id (ascii ".example.com"), c ≠ 42 ∧ c ≠ 63 ∧ c ≠ 91 ∧ c ≠ 92) ∧
    (allowsHost (goLib id id) (setAllowedHosts (goLib id id) [ascii "*" ++ ascii ".example.com"])
        (ascii "A.Example.COM") = true ↔
      ∃ Q, stringsToLower id (ascii "A.Example.COM") =
        Q ++ stringsToLower id (ascii ".example.com") ∧ 47 ∉ Q) :=
  ⟨lower_literal_of_ascii id (ascii ".example.com") (by decide) (by decide),
    (wildcard_entry id id (ascii ".example.com") (ascii "A.Example.COM")
      (lower_literal_of_ascii id (ascii ".example.com") (by decide) (by decide))).1⟩


/-! ## What `net.ParseIP` reads -/

theorem dtoiLoop_take (s : Bytes) : ∀ n i : Nat,
    i ≤ (dtoiLoop s n i).2.1 ∧ ∀ c ∈ s.take ((dtoiLoop s n i).2.1 - i), 48 ≤ c ∧ c ≤ 57 := by
  induction s with
  | nil => intro n i; simp [dtoiLoop]
  | cons c rest ih =>
    intro n i
    unfold dtoiLoop
    by_cases hd : 48 ≤ c ∧ c ≤ 57
    · rw [if_pos hd]
      by_cases ho : n * 10 + (c - 48) ≥ 0xFFFFFF
      · rw [if_pos ho]; simp
      · rw [if_neg ho]
        obtain ⟨h1, h2⟩ := ih (n * 10 + (c - 48)) (i + 1)
        refine ⟨by omega, ?_⟩
        have he : (dtoiLoop rest (n * 10 + (c - 48)) (i + 1)).2.1 - i =
            ((dtoiLoop rest (n * 10 + (c - 48)) (i + 1)).2.1 - (i + 1)) + 1 := by omega
        rw [he, List.take_succ_cons]
        intro d hdm
        rcases List.mem_cons.mp hdm with rfl | hdm
        · exact hd
        · exact h2 d hdm
    · rw [if_neg hd]; simp

theorem dtoi_take (s : Bytes) : ∀ c ∈ s.take (dtoi s).2.1, 48 ≤ c ∧ c ≤ 57 := by
  have h := (dtoiLoop_take s 0 0).2
  simpa [dtoi] using h

theorem hexValue_some (c d : Nat) (h : hexValue c = some d) :
    (48 ≤ c ∧ c ≤ 57) ∨ (97 ≤ c ∧ c ≤ 102) ∨ (65 ≤ c ∧ c ≤ 70) := by
  unfold hexValue at h
  by_cases h1 : 48 ≤ c ∧ c ≤ 57
  · exact Or.inl h1
  · by_cases h2 : 97 ≤ c ∧ c ≤ 102
    · exact Or.inr (Or.inl h2)
    · by_cases h3 : 65 ≤ c ∧ c ≤ 70
      · exact Or.inr (Or.inr h3)
      · rw [if_neg h1, if_neg h2, if_neg h3] at h
        exact absurd h (by simp)

theorem xtoiLoop_take (s : Bytes) : ∀ n i : Nat,
    i ≤ (xtoiLoop s n i).2.1 ∧ ∀ c ∈ s.take ((xtoiLoop s n i).2.1 - i), c ≠ 42 := by
  induction s with
  | nil => intro n i; simp [xtoiLoop]
  | cons c rest ih =>
    intro n i
    unfold xtoiLoop
    cases hv : hexValue c with
    | none => simp
    | some d =>
      simp only []
      by_cases ho : n * 16 + d ≥ 0xFFFFFF
      · rw [if_pos ho]; simp
      · rw [if_neg ho]
        obtain ⟨h1, h2⟩ := ih (n * 16 + d) (i + 1)
        refine ⟨by omega, ?_⟩
        have he : (xtoiLoop rest (n * 16 + d) (i + 1)).2.1 - i =
            ((xtoiLoop rest (n * 16 + d) (i + 1)).2.1 - (i + 1)) + 1 := by omega
        rw [he, List.take_succ_cons]
        intro e hem
        rcases List.mem_cons.mp hem with rfl | hem
        · have := hexValue_some _ d hv
          omega
        · exact h2 e hem

theorem xtoi_take (s : Bytes) : ∀ c ∈ s.take (xtoi s).2.1, c ≠ 42 := by
  have h := (xtoiLoop_take s 0 0).2
  simpa [xtoi] using h

theorem no_star_of_take_drop (s : Bytes) (n : Nat) (h1 : ∀ c ∈ s.take n, c ≠ 42)
    (h2 : ∀ c ∈ s.drop n, c ≠ 42) : ∀ c ∈ s, c ≠ 42 := by
  intro c hc
  rw [← List.take_append_drop n s] at hc
  rcases List.mem_append.mp hc with h | h
  · exact h1 c h
  · exact h2 c h

theorem no_star_of_tail (s : Bytes) (d : Nat) (hd : d ≠ 42) (hh : s.head? = some d)
    (h : ∀ c ∈ s.tail, c ≠ 42) : ∀ c ∈ s, c ≠ 42 := by
  cases s with
  | nil => simp
  | cons e rest =>
    simp only [List.head?_cons, Option.some.injEq] at hh
    subst hh
    intro c hc
    rcases List.mem_cons.mp hc with rfl | hc
    · exact hd
    · exact h c hc

/-- A string that `parseIPv4` accepts has no `*`. -/
theorem parseIPv4Loop_no_star : ∀ (k : Nat) (first : Bool) (s p r : Bytes),
    parseIPv4Loop k first s p = some r → ∀ c ∈ s, c ≠ 42 := by
  intro k
  induction k with
  | zero =>
    intro first s p r h
    unfold parseIPv4Loop at h
    by_cases hs : s = []
    · subst hs; simp
    · rw [if_neg hs] at h; exact absurd h (by simp)
  | succ k ih =>
    intro first s p r h
    unfold parseIPv4Loop at h
    by_cases hs : s = []
    · subst hs; simp
    · rw [if_neg hs] at h
      by_cases hdot : (!first && decide (s.head? ≠ some 46)) = true
      · rw [if_pos hdot] at h; exact absurd h (by simp)
      · rw [if_neg hdot] at h
        simp only [] at h
        by_cases hbad : (dtoi (if first = true then s else s.tail)).2.2 = false ∨
            (dtoi (if first = true then s else s.tail)).1 > 0xFF
        · rw [if_pos hbad] at h; exact absurd h (by simp)
        · rw [if_neg hbad] at h
          by_cases hz : (dtoi (if first = true then s else s.tail)).2.1 > 1 ∧
              (if first = true then s else s.tail).head? = some 48
          · rw [if_pos hz] at h; exact absurd h (by simp)
          · rw [if_neg hz] at h
            have hrest := ih _ _ _ _ h
            have htake : ∀ c ∈ (if first = true then s else s.tail).take
                (dtoi (if first = true then s else s.tail)).2.1, c ≠ 42 := by
              intro c hc
              have := dtoi_take _ c hc
              omega
            have hs1 := no_star_of_take_drop _ _ htake hrest
            cases first with
            | true => simpa using hs1
            | false =>
              have hh : s.head? = some 46 := by simpa using hdot
              exact no_star_of_tail s 46 (by decide) hh (by simpa using hs1)

theorem parseIPv4_no_star (s r : Bytes) (h : parseIPv4 s = some r) : ∀ c ∈ s, c ≠ 42 :=
  parseIPv4Loop_no_star 4 true s [] r h

/-- A string that the loop of `parseIPv6` uses up has no `*`. -/
theorem parseIPv6Loop_no_star : ∀ (fuel : Nat) (s ip : Bytes) (ellipsis : Option Nat)
    (ip1 : Bytes) (e1 : Option Nat),
    parseIPv6Loop fuel s ip ellipsis = some (ip1, e1, []) → ∀ c ∈ s, c ≠ 42 := by
  intro fuel
  induction fuel with
  | zero =>
    intro s ip ellipsis ip1 e1 h
    unfold parseIPv6Loop at h
    simp only [Option.some.injEq, Prod.mk.injEq] at h
    rw [h.2.2]; simp
  | succ fuel ih =>
    intro s ip ellipsis ip1 e1 h
    unfold parseIPv6Loop at h
    by_cases h16 : ip.length ≥ 16
    · rw [if_pos h16] at h
      simp only [Option.some.injEq, Prod.mk.injEq] at h
      rw [h.2.2]; simp
    · rw [if_neg h16] at h
      by_cases hbad : (xtoi s).2.2 = false ∨ (xtoi s).1 > 0xFFFF
      · rw [if_pos hbad] at h; exact absurd h (by simp)
      · rw [if_neg hbad] at h
        by_cases hv4 : (xtoi s).2.1 < s.length ∧ s.get? (xtoi s).2.1 = some 46
        · rw [if_pos hv4] at h
          by_cases ha : ellipsis = none ∧ ip.length ≠ 12
          · rw [if_pos ha] at h; exact absurd h (by simp)
          · rw [if_neg ha] at h
            by_cases hb : ip.length + 4 > 16
            · rw [if_pos hb] at h; exact absurd h (by simp)
            · rw [if_neg hb] at h
              cases hp : parseIPv4 s with
              | none => rw [hp] at h; exact absurd h (by simp)
              | some ip4 => exact parseIPv4_no_star s ip4 hp
        · rw [if_neg hv4] at h
          simp only [] at h
          have htake := xtoi_take s
          by_cases hend : s.drop (xtoi s).2.1 = []
          · exact no_star_of_take_drop s _ htake (by rw [hend]; simp)
          · rw [if_neg hend] at h
            by_cases hcol : (s.drop (xtoi s).2.1).head? ≠ some 58 ∨ (s.drop (xtoi s).2.1).length = 1
            · rw [if_pos hcol] at h; exact absurd h (by simp)
            · rw [if_neg hcol] at h
              have hh : (s.drop (xtoi s).2.1).head? = some 58 := by
                by_contra hne
                exact hcol (Or.inl hne)
              by_cases hcc : (s.drop (xtoi s).2.1).tail.head? = some 58
              · rw [if_pos hcc] at h
                by_cases hel : ellipsis.isSome = true
                · rw [if_pos hel] at h; exact absurd h (by simp)
                · rw [if_neg hel] at h
                  have htt : ∀ c ∈ (s.drop (xtoi s).2.1).tail.tail, c ≠ 42 := by
                    by_cases he : (s.drop (xtoi s).2.1).tail.tail = []
                    · rw [he]; simp
                    · rw [if_neg he] at h
                      exact ih _ _ _ _ _ h
                  exact no_star_of_take_drop s _ htake
                    (no_star_of_tail _ 58 (by decide) hh
                      (no_star_of_tail _ 58 (by decide) hcc htt))
              · rw [if_neg hcc] at h
                exact no_star_of_take_drop s _ htake
                  (no_star_of_tail _ 58 (by decide) hh (ih _ _ _ _ _ h))

theorem finishIPv6_some (st : Bytes × Option Nat × Bytes) (r : Bytes)
    (h : finishIPv6 st = some r) : st.2.2 = [] := by
  obtain ⟨ip, e, s⟩ := st
  unfold finishIPv6 at h
  by_cases hs : s ≠ []
  · simp only [] at h
    rw [if_pos hs] at h
    exact absurd h (by simp)
  · simpa using hs

theorem parseIPv6Loop_finish_no_star (s ip : Bytes) (ellipsis : Option Nat) (r : Bytes)
    (h : (parseIPv6Loop 9 s ip ellipsis).bind finishIPv6 = some r) : ∀ c ∈ s, c ≠ 42 := by
  cases hl : parseIPv6Loop 9 s ip ellipsis with
  | none => rw [hl] at h; exact absurd h (by simp)
  | some st =>
    rw [hl] at h
    simp only [Option.some_bind] at h
    have := finishIPv6_some st r h
    obtain ⟨ip1, e1, s1⟩ := st
    simp only at this
    subst this
    exact parseIPv6Loop_no_star 9 s ip ellipsis ip1 e1 hl

theorem parseIPv6_no_star (s r : Bytes) (h : parseIPv6 s = some r) : ∀ c ∈ s, c ≠ 42 := by
  unfold parseIPv6 at h
  by_cases h2 : s.length ≥ 2 ∧ s.head? = some 58 ∧ s.tail.head? = some 58
  · rw [if_pos h2] at h
    have htt : ∀ c ∈ s.tail.tail, c ≠ 42 := by
      by_cases he : s.tail.tail = []
      · rw [he]; simp
      · rw [if_neg he] at h
        exact parseIPv6Loop_finish_no_star _ _ _ r h
    exact no_star_of_tail _ 58 (by decide) h2.2.1 (no_star_of_tail _ 58 (by decide) h2.2.2 htt)
  · rw [if_neg h2] at h
    exact parseIPv6Loop_finish_no_star _ _ _ r h

theorem parseIPScan_no_star (whole : Bytes) (t r : Bytes) (h : parseIPScan whole t = some r) :
    ∀ c ∈ whole, c ≠ 42 := by
  induction t with
  | nil => unfold parseIPScan at h; exact absurd h (by simp)
  | cons d rest ih =>
    unfold parseIPScan at h
    by_cases h1 : d = 46
    · rw [if_pos h1] at h
      cases hp : parseIPv4 whole with
      | none => rw [hp] at h; exact absurd h (by simp)
      | some p => exact parseIPv4_no_star whole p hp
    · rw [if_neg h1] at h
      by_cases h2 : d = 58
      · rw [if_pos h2] at h
        exact parseIPv6_no_star whole r h
      · rw [if_neg h2] at h
        exact ih h

/-- A string that `net.ParseIP` accepts has no `*`. -/
theorem ParseIP_no_star (s r : Bytes) (h : ParseIP s = some r) : 42 ∉ s := by
  intro hm
  exact parseIPScan_no_star s s r h 42 hm rfl


/-! ## What `net.IP.String` prints -/

/-- The sixteen digit characters are ASCII and none is an upper-case letter. -/
theorem digitChar_lower : ∀ d, d < 16 →
    (Nat.digitChar d).toNat < 128 ∧ ¬ (65 ≤ (Nat.digitChar d).toNat ∧ (Nat.digitChar d).toNat ≤ 90) := by
  decide

theorem toDigitsCore_lower (base : Nat) (hb0 : 0 < base) (hb : base ≤ 16) :
    ∀ (fuel n : Nat) (ds : List Char),
      (∀ c ∈ ds, c.toNat < 128 ∧ ¬ (65 ≤ c.toNat ∧ c.toNat ≤ 90)) →
      ∀ c ∈ Nat.toDigitsCore base fuel n ds, c.toNat < 128 ∧ ¬ (65 ≤ c.toNat ∧ c.toNat ≤ 90) := by
  intro fuel
  induction fuel with
  | zero => intro n ds hds; simpa [Nat.toDigitsCore] using hds
  | succ fuel ih =>
    intro n ds hds
    have hd : n % base < 16 := Nat.lt_of_lt_of_le (Nat.mod_lt n hb0) hb
    have hcons : ∀ c ∈ Nat.digitChar (n % base) :: ds,
        c.toNat < 128 ∧ ¬ (65 ≤ c.toNat ∧ c.toNat ≤ 90) := by
      intro c hc
      rcases List.mem_cons.mp hc with rfl | hc
      · exact digitChar_lower _ hd
      · exact hds c hc
    unfold Nat.toDigitsCore
    simp only []
    split
    · exact hcons
    · exact ih _ _ hcons

/-- The digits of a number in a base up to sixteen are lower-case ASCII. -/
theorem digits_lower (base n : Nat) (hb0 : 0 < base) (hb : base ≤ 16) :
    ∀ c ∈ digits base n, c < 128 ∧ ¬ (65 ≤ c ∧ c ≤ 90) := by
  intro c hc
  unfold digits at hc
  obtain ⟨ch, hch, rfl⟩ := List.mem_map.mp hc
  exact toDigitsCore_lower base hb0 hb _ _ [] (by simp) ch hch

theorem printGroups_lower : ∀ (fuel : Nat) (gs : List Nat) (k : Nat) (run : Nat × Nat),
    ∀ c ∈ printGroups fuel gs k run, c < 128 ∧ ¬ (65 ≤ c ∧ c ≤ 90) := by
  intro fuel
  induction fuel with
  | zero => intro gs k run c hc; simp [printGroups] at hc
  | succ fuel ih =>
    intro gs k run c hc
    cases gs with
    | nil => simp [printGroups] at hc
    | cons g rest =>
      unfold printGroups at hc
      by_cases hr : run.2 > 1 ∧ k = run.1
      · rw [if_pos hr] at hc
        cases hd : (g :: rest).drop run.2 with
        | nil =>
          rw [hd] at hc
          simp only [List.mem_cons, List.mem_singleton, List.not_mem_nil, or_false] at hc
          omega
        | cons g1 rest1 =>
          rw [hd] at hc
          simp only [List.mem_append, List.mem_cons, List.not_mem_nil, or_false] at hc
          rcases hc with (hc | hc) | hc
          · omega
          · exact digits_lower 16 g1 (by decide) (by decide) c hc
          · exact ih _ _ _ c hc
      · rw [if_neg hr] at hc
        simp only [List.mem_append] at hc
        rcases hc with (hc | hc) | hc
        · by_cases hk : k > 0
          · rw [if_pos hk] at hc
            simp only [List.mem_singleton] at hc
            omega
          · rw [if_neg hk] at hc
            simp at hc
        · exact digits_lower 16 g (by decide) (by decide) c hc
        · exact ih _ _ _ c hc

theorem hexString_lower (ip : Bytes) : ∀ c ∈ hexString ip, c < 128 ∧ ¬ (65 ≤ c ∧ c ≤ 90) := by
  intro c hc
  unfold hexString at hc
  obtain ⟨b, _, hb⟩ := List.mem_flatMap.mp hc
  rcases List.mem_append.mp hb with h | h
  · exact digits_lower 16 _ (by decide) (by decide) c h
  · exact digits_lower 16 _ (by decide) (by decide) c h

/-- The text of an IP is lower-case ASCII. -/
theorem ipString_lower (ip : Bytes) : ∀ c ∈ IP.String ip, c < 128 ∧ ¬ (65 ≤ c ∧ c ≤ 90) := by
  intro c hc
  unfold IP.String at hc
  by_cases h0 : ip.length = 0
  · rw [if_pos h0] at hc
    have : ∀ d ∈ ascii "<nil>", d < 128 ∧ ¬ (65 ≤ d ∧ d ≤ 90) := by decide
    exact this c hc
  · rw [if_neg h0] at hc
    have hother : c ∈ (if ip.length ≠ 16 then [63] ++ hexString ip
        else printGroups 9 (groups ip) 0 (longestRun 9 (groups ip) 0 (0, 0))) →
        c < 128 ∧ ¬ (65 ≤ c ∧ c ≤ 90) := by
      intro hc
      by_cases h16 : ip.length ≠ 16
      · rw [if_pos h16] at hc
        rcases List.mem_append.mp hc with h | h
        · simp only [List.mem_singleton] at h
          omega
        · exact hexString_lower ip c h
      · rw [if_neg h16] at hc
        exact printGroups_lower _ _ _ _ c hc
    split at hc
    · simp only [List.mem_append, List.mem_singleton] at hc
      have hd := fun n => digits_lower 10 n (by decide) (by decide) c
      rcases hc with (((((h | h) | h) | h) | h) | h) | h
      · exact hd _ h
      · omega
      · exact hd _ h
      · omega
      · exact hd _ h
      · omega
      · exact hd _ h
    · exact hother hc

/-- What `strings.ToLower` leaves alone. -/
theorem stringsToLower_fixed (tbl : Nat → Nat) (s : Bytes)
    (h : ∀ c ∈ s, c < 128 ∧ ¬ (65 ≤ c ∧ c ≤ 90)) : stringsToLower tbl s = s := by
  have ha : s.all (fun c => decide (c < 0x80)) = true := by
    rw [List.all_eq_true]
    intro c hc
    exact decide_eq_true (h c hc).1
  rw [stringsToLower_ascii tbl s ha]
  apply map_lowerByte_of_no_upper
  rw [List.any_eq_false]
  intro c hc
  simpa using (h c hc).2

/-! ## IP literal entries -/

theorem tableInsert_mem (t : List Bytes) (k : Bytes) : k ∈ tableInsert t k := by
  unfold tableInsert
  split
  · assumption
  · simp

theorem tableInsert_mono (t : List Bytes) (k j : Bytes) (h : j ∈ t) : j ∈ tableInsert t k := by
  unfold tableInsert
  split
  · exact h
  · exact List.mem_append_left _ h

/-- A key of the table stays in it for the rest of the loop of `setAllowedHosts`. -/
theorem addAllowedHost_mono (lib : Lib) (a : AllowedHosts) (h j : Bytes) (hj : j ∈ a.table) :
    j ∈ (addAllowedHost lib a h).table := by
  unfold addAllowedHost
  split
  · exact hj
  · split
    · split
      · exact tableInsert_mono _ _ _ hj
      · exact hj
    · exact tableInsert_mono _ _ _ hj

theorem foldl_addAllowedHost_mono (lib : Lib) (L : List Bytes) :
    ∀ (a : AllowedHosts) (j : Bytes), j ∈ a.table → j ∈ (L.foldl (addAllowedHost lib) a).table := by
  induction L with
  | nil => intro a j hj; exact hj
  | cons h rest ih =>
    intro a j hj
    rw [List.foldl_cons]
    exact ih _ j (addAllowedHost_mono lib a h j hj)

theorem foldl_addAllowedHost_mem (lib : Lib) (L : List Bytes) (h j : Bytes) (hL : h ∈ L)
    (hadd : ∀ a, j ∈ (addAllowedHost lib a h).table) :
    ∀ a : AllowedHosts, j ∈ (L.foldl (addAllowedHost lib) a).table := by
  induction L with
  | nil => exact absurd hL (List.not_mem_nil h)
  | cons g rest ih =>
    intro a
    rw [List.foldl_cons]
    rcases List.mem_cons.mp hL with rfl | hr
    · exact foldl_addAllowedHost_mono lib rest _ j (hadd a)
    · exact ih hr _

/-- The step of `setAllowedHosts` at an entry `[x]` of more than five bytes
whose `x` parses and has no `*`: the text of the IP goes into the table. -/
theorem addAllowedHost_ip (lib : Lib) (a : AllowedHosts) (x ip : Bytes) (hx : x.length > 3)
    (hstar : 42 ∉ x) (hp : lib.parseIP x = some ip) :
    ascii "[" ++ lib.ipString ip ++ ascii "]" ∈
      (addAllowedHost lib a (ascii "[" ++ x ++ ascii "]")).table := by
  have hb1 : ascii "[" = [91] := by decide
  have hb2 : ascii "]" = [93] := by decide
  have hs1 : ascii "*" = [42] := by decide
  have hc : stringsContains ([91] ++ x ++ [93]) [42] = false := by
    rw [stringsContains_single]
    simp [hstar]
  have hc2 : ¬ stringsContains ([91] ++ x ++ [93]) [42] = true := by rw [hc]; simp
  have hform : ([91] ++ x ++ [93]).length > 5 ∧ ([91] ++ x ++ [93]).head? = some 91 ∧
      ([91] ++ x ++ [93]).getLast? = some 93 := by
    refine ⟨by simp; omega, by simp, ?_⟩
    rw [List.getLast?_append]
    simp
  have hinner : (([91] ++ x ++ [93]).drop 1).take (([91] ++ x ++ [93]).length - 2) = x := by
    simp
  unfold addAllowedHost
  rw [hb1, hb2, hs1, if_neg hc2, if_pos hform, hinner, hp]
  exact tableInsert_mem _ _

/-- C13, the claim at a concrete entry: `0::` parses as the IPv6 address of
sixteen zero bytes, but the entry `[0::]` has only five bytes, so it is stored
as the host name `[0::]`, while `allowsIp` looks up `[::]`. -/
theorem short_ip_literal_not_allowed :
    ParseIP (ascii "0::") = some (List.replicate 16 0) ∧
    IP.String (List.replicate 16 0) = ascii "::" ∧
    (setAllowedHosts (goLib id id) [ascii "[" ++ ascii "0::" ++ ascii "]"]).table =
      [ascii "[0::]"] ∧
    allowsIp (goLib id id) (setAllowedHosts (goLib id id) [ascii "[" ++ ascii "0::" ++ ascii "]"])
      (List.replicate 16 0) = false := by
  refine ⟨by decide, by decide, by decide, by decide⟩

/-- C13 as amended: for every entry `[x]` of more than five bytes whose `x`
parses as an IP, after `setAllowedHosts` with a list that has the entry,
`allowsIp` of the parsed IP is true. -/
theorem ip_literal_entry (u l : Nat → Nat) (L : List Bytes) (x ip : Bytes)
    (hx : (ascii "[" ++ x ++ ascii "]").length > 5)
    (hL : ascii "[" ++ x ++ ascii "]" ∈ L) (hp : ParseIP x = some ip) :
    allowsIp (goLib u l) (setAllowedHosts (goLib u l) L) ip = true := by
  have hx3 : x.length > 3 := by
    have h1 : (ascii "[" ++ x ++ ascii "]").length = x.length + 2 := by
      have hb1 : ascii "[" = [91] := by decide
      have hb2 : ascii "]" = [93] := by decide
      rw [hb1, hb2]; simp
    omega
  have hmem : ascii "[" ++ IP.String ip ++ ascii "]" ∈ (setAllowedHosts (goLib u l) L).table :=
    foldl_addAllowedHost_mem (goLib u l) L _ _ hL
      (fun a => addAllowedHost_ip (goLib u l) a x ip hx3 (ParseIP_no_star x ip hp) hp) _
  have hlow : stringsToLower l (ascii "[" ++ IP.String ip ++ ascii "]") =
      ascii "[" ++ IP.String ip ++ ascii "]" := by
    apply stringsToLower_fixed
    intro c hc
    have hb : ∀ d ∈ ascii "[", d < 128 ∧ ¬ (65 ≤ d ∧ d ≤ 90) := by decide
    have hb2 : ∀ d ∈ ascii "]", d < 128 ∧ ¬ (65 ≤ d ∧ d ≤ 90) := by decide
    rcases List.mem_append.mp hc with h | h
    · rcases List.mem_append.mp h with h | h
      · exact hb c h
      · exact ipString_lower ip c h
    · exact hb2 c h
  unfold allowsIp allowsHost
  show (if _ then true else if stringsToLower l (ascii "[" ++ IP.String ip ++ ascii "]") ∈
    (setAllowedHosts (goLib u l) L).table then true else _) = true
  rw [hlow, if_pos hmem]
  simp

/-- Witness of C13: the long form `[2001:DB8:0:0:0:0:0:1]` next to another entry. -/
theorem ip_literal_entry_witness :
    allowsIp (goLib id id)
      (setAllowedHosts (goLib id id) [ascii "example.com", ascii "[" ++ ascii "2001:DB8:0:0:0:0:0:1" ++ ascii "]"])
      [0x20, 0x01, 0x0d, 0xb8, 0, 0, 0, 0, 0, 0, 0, 0, 0, 0, 0, 1] = true :=
  ip_literal_entry id id
    [ascii "example.com", ascii "[" ++ ascii "2001:DB8:0:0:0:0:0:1" ++ ascii "]"]
    (ascii "2001:DB8:0:0:0:0:0:1") [0x20, 0x01, 0x0d, 0xb8, 0, 0, 0, 0, 0, 0, 0, 0, 0, 0, 0, 1]
    (by decide) (by decide) (by decide)


/-! ## Case variants -/

theorem lowerByte_cases (b : Nat) :
    lowerByte b = b ∨ (b < 0x80 ∧ lowerByte b < 0x80 ∧ lowerByte b = b + 32 ∧ 65 ≤ b ∧ b ≤ 90) := by
  unfold lowerByte
  by_cases h : 65 ≤ b ∧ b ≤ 90
  · rw [if_pos h]; right; omega
  · rw [if_neg h]; left; rfl

theorem lowerByte_idem (b : Nat) : lowerByte (lowerByte b) = lowerByte b := by
  rcases lowerByte_cases b with e | e
  · rw [e, e]
  · have h : lowerByte (b + 32) = b + 32 := by
      unfold lowerByte
      rw [if_neg (by omega)]
    rw [e.2.2.1, h]

/-- A byte that is no ASCII letter is met after lower-casing exactly where it
was met before. -/
theorem lowerByte_eq_neutral (b k : Nat) (hk : k < 65 ∨ (90 < k ∧ k < 97) ∨ 122 < k) :
    lowerByte b = k ↔ b = k := by
  unfold lowerByte
  split <;> omega

theorem head?_lower_neutral (s : Bytes) (k : Nat) (hk : k < 65 ∨ (90 < k ∧ k < 97) ∨ 122 < k) :
    (s.map lowerByte).head? = some k ↔ s.head? = some k := by
  cases s with
  | nil => simp
  | cons c rest =>
    simp only [List.map_cons, List.head?_cons, Option.some.injEq]
    exact lowerByte_eq_neutral c k hk

theorem getLast?_lower_neutral (s : Bytes) (k : Nat)
    (hk : k < 65 ∨ (90 < k ∧ k < 97) ∨ 122 < k) :
    (s.map lowerByte).getLast? = some k ↔ s.getLast? = some k := by
  rw [List.getLast?_map]
  cases s.getLast? with
  | none => simp
  | some c =>
    simp only [Option.map_some', Option.some.injEq]
    exact lowerByte_eq_neutral c k hk

theorem mem_lower_neutral (s : Bytes) (k : Nat) (hk : k < 65 ∨ (90 < k ∧ k < 97) ∨ 122 < k) :
    k ∈ s.map lowerByte ↔ k ∈ s := by
  rw [List.mem_map]
  constructor
  · rintro ⟨c, hc, he⟩
    rw [(lowerByte_eq_neutral c k hk).mp he] at hc
    exact hc
  · intro h
    exact ⟨k, h, (lowerByte_eq_neutral k k hk).mpr rfl⟩

theorem inRange_lower (lo hi b : Nat) (hlo : 0x80 ≤ lo) :
    inRange lo hi (lowerByte b) = inRange lo hi b := by
  rcases lowerByte_cases b with h | h
  · rw [h]
  · unfold inRange
    rw [decide_eq_false (by omega), decide_eq_false (by omega)]

/-- The decoding of a rune that starts with a byte above ASCII does not see the
case of the ASCII letters behind that byte. -/
theorem decodeRune_lower_tail (b0 : Nat) (rest : Bytes) (h : 0x80 ≤ b0) :
    decodeRune (b0 :: rest.map lowerByte) = decodeRune (b0 :: rest) := by
  have hin : ∀ lo hi b, 0x80 ≤ lo → inRange lo hi b = true → lowerByte b = b := by
    intro lo hi b hlo hb
    rcases lowerByte_cases b with e | e
    · exact e
    · unfold inRange at hb
      have := of_decide_eq_true hb
      omega
  have hlo1 : 0x80 ≤ (if b0 = 0xE0 then 0xA0 else 0x80) := by split <;> omega
  have hlo2 : 0x80 ≤ (if b0 = 0xF0 then 0x90 else 0x80) := by split <;> omega
  have h0 : ¬ b0 < 0x80 := by omega
  simp only [decodeRune]
  rw [if_neg h0, if_neg h0]
  by_cases h2 : 0xC2 ≤ b0 ∧ b0 ≤ 0xDF
  · rw [if_pos h2, if_pos h2]
    cases rest with
    | nil => rfl
    | cons b1 t =>
      simp only [List.map_cons]
      rw [inRange_lower _ _ b1 (by omega)]
      cases hb : inRange 0x80 0xBF b1
      · rfl
      · rw [hin _ _ b1 (by omega) hb]
  · rw [if_neg h2, if_neg h2]
    by_cases h3 : 0xE0 ≤ b0 ∧ b0 ≤ 0xEF
    · rw [if_pos h3, if_pos h3]
      rcases rest with _ | ⟨b1, _ | ⟨b2, t⟩⟩
      · simp only [List.map_nil]
      · simp only [List.map_cons, List.map_nil]
      · simp only [List.map_cons]
        rw [inRange_lower _ _ b1 hlo1, inRange_lower _ _ b2 (by omega)]
        cases hb1 : inRange (if b0 = 0xE0 then 0xA0 else 0x80) (if b0 = 0xED then 0x9F else 0xBF) b1
        · rfl
        · cases hb2 : inRange 0x80 0xBF b2
          · rfl
          · rw [hin _ _ b1 hlo1 hb1, hin _ _ b2 (by omega) hb2]
    · rw [if_neg h3, if_neg h3]
      by_cases h4 : 0xF0 ≤ b0 ∧ b0 ≤ 0xF4
      · rw [if_pos h4, if_pos h4]
        rcases rest with _ | ⟨b1, _ | ⟨b2, _ | ⟨b3, t⟩⟩⟩
        · simp only [List.map_nil]
        · simp only [List.map_cons, List.map_nil]
        · simp only [List.map_cons, List.map_nil]
        · simp only [List.map_cons]
          rw [inRange_lower _ _ b1 hlo2, inRange_lower _ _ b2 (by omega),
            inRange_lower _ _ b3 (by omega)]
          cases hb1 : inRange (if b0 = 0xF0 then 0x90 else 0x80)
              (if b0 = 0xF4 then 0x8F else 0xBF) b1
          · simp only [Bool.false_and, Bool.and_false, Bool.false_eq_true, if_false]
          · cases hb2 : inRange 0x80 0xBF b2
            · simp only [Bool.false_and, Bool.and_false, Bool.false_eq_true, if_false]
            · cases hb3 : inRange 0x80 0xBF b3
              · simp only [Bool.false_and, Bool.and_false, Bool.false_eq_true, if_false]
              · rw [hin _ _ b1 hlo2 hb1, hin _ _ b2 (by omega) hb2, hin _ _ b3 (by omega) hb3]
      · rw [if_neg h4, if_neg h4]

theorem mapRunes_lower (tbl : Nat → Nat) (s : Bytes) : ∀ k : Nat,
    mapRunes (unicodeToLower tbl) (s.map lowerByte) k = mapRunes (unicodeToLower tbl) s k := by
  induction s with
  | nil => intro k; rfl
  | cons b rest ih =>
    intro k
    cases k with
    | succ k => simp only [List.map_cons, mapRunes]; exact ih k
    | zero =>
      simp only [List.map_cons, mapRunes]
      by_cases hb : b ≥ 0x80
      · have hl : lowerByte b = b := by
          rcases lowerByte_cases b with e | e
          · exact e
          · omega
        rw [hl]
        simp only [if_pos hb]
        rw [decodeRune_lower_tail b rest hb, ih]
      · have hl : ¬ lowerByte b ≥ 0x80 := by
          rcases lowerByte_cases b with e | e
          · rw [e]; exact hb
          · omega
        rw [if_neg hb, if_neg hl]
        have h1 : lowerByte b ≤ 0x7F := by omega
        have h2 : b ≤ 0x7F := by omega
        simp only [unicodeToLower, if_pos h1, if_pos h2, lowerByte_idem, ih]

/-- The function `strings.ToLower` does not see the case of ASCII letters. -/
theorem stringsToLower_lower (tbl : Nat → Nat) (s : Bytes) :
    stringsToLower tbl (s.map lowerByte) = stringsToLower tbl s := by
  have hall : (s.map lowerByte).all (fun c => decide (c < 0x80)) =
      s.all (fun c => decide (c < 0x80)) := by
    rw [List.all_map]
    congr 1
    funext c
    simp only [Function.comp]
    rcases lowerByte_cases c with e | e
    · rw [e]
    · rw [decide_eq_true e.1, decide_eq_true e.2.1]
  cases ha : s.all (fun c => decide (c < 0x80))
  · unfold stringsToLower
    rw [hall, ha]
    simp only [Bool.false_eq_true, if_false]
    exact mapRunes_lower tbl s 0
  · rw [stringsToLower_ascii tbl _ (hall.trans ha), stringsToLower_ascii tbl _ ha, List.map_map]
    congr 1
    funext c
    exact lowerByte_idem c

theorem stringsToLower_variant (tbl : Nat → Nat) (a b : Bytes) (h : CaseVariant a b) :
    stringsToLower tbl a = stringsToLower tbl b := by
  rw [← stringsToLower_lower tbl a, ← stringsToLower_lower tbl b, h]


/-! ## `net.ParseIP` and the case of hexadecimal digits -/

theorem dtoiLoop_lower (s : Bytes) : ∀ n i : Nat,
    dtoiLoop (s.map lowerByte) n i = dtoiLoop s n i := by
  induction s with
  | nil => intro n i; rfl
  | cons c rest ih =>
    intro n i
    simp only [List.map_cons, dtoiLoop]
    rcases lowerByte_cases c with e | e
    · rw [e, ih]
    · have h1 : ¬ (48 ≤ lowerByte c ∧ lowerByte c ≤ 57) := by omega
      have h2 : ¬ (48 ≤ c ∧ c ≤ 57) := by omega
      rw [if_neg h1, if_neg h2]

theorem dtoi_lower (s : Bytes) : dtoi (s.map lowerByte) = dtoi s := dtoiLoop_lower s 0 0

theorem hexValue_lower (c : Nat) : hexValue (lowerByte c) = hexValue c := by
  rcases lowerByte_cases c with e | e
  · rw [e]
  · unfold hexValue
    rw [e.2.2.1]
    have h1 : ¬ (48 ≤ c + 32 ∧ c + 32 ≤ 57) := by omega
    have h2 : ¬ (48 ≤ c ∧ c ≤ 57) := by omega
    have h3 : ¬ (97 ≤ c ∧ c ≤ 102) := by omega
    rw [if_neg h1, if_neg h2, if_neg h3]
    by_cases h4 : 65 ≤ c ∧ c ≤ 70
    · have h5 : 97 ≤ c + 32 ∧ c + 32 ≤ 102 := by omega
      rw [if_pos h4, if_pos h5]
      congr 1
    · have h5 : ¬ (97 ≤ c + 32 ∧ c + 32 ≤ 102) := by omega
      have h6 : ¬ (65 ≤ c + 32 ∧ c + 32 ≤ 70) := by omega
      rw [if_neg h4, if_neg h5, if_neg h6]

theorem xtoiLoop_lower (s : Bytes) : ∀ n i : Nat,
    xtoiLoop (s.map lowerByte) n i = xtoiLoop s n i := by
  induction s with
  | nil => intro n i; rfl
  | cons c rest ih =>
    intro n i
    simp only [List.map_cons, xtoiLoop, hexValue_lower, ih]

theorem xtoi_lower (s : Bytes) : xtoi (s.map lowerByte) = xtoi s := xtoiLoop_lower s 0 0

theorem map_eq_nil_lower (s : Bytes) : s.map lowerByte = [] ↔ s = [] := List.map_eq_nil_iff

theorem parseIPv4Loop_lower : ∀ (k : Nat) (first : Bool) (s p : Bytes),
    parseIPv4Loop k first (s.map lowerByte) p = parseIPv4Loop k first s p := by
  intro k
  induction k with
  | zero =>
    intro first s p
    simp only [parseIPv4Loop, map_eq_nil_lower]
  | succ k ih =>
    intro first s p
    have hs1 : (if first = true then s.map lowerByte else (s.map lowerByte).tail) =
        (if first = true then s else s.tail).map lowerByte := by
      cases first <;> simp [List.map_tail]
    have hh : decide ((s.map lowerByte).head? ≠ some 46) = decide (s.head? ≠ some 46) := by
      have := head?_lower_neutral s 46 (by omega)
      simp only [ne_eq, this]
    have h48 : ((if first = true then s else s.tail).map lowerByte).head? = some 48 ↔
        (if first = true then s else s.tail).head? = some 48 :=
      head?_lower_neutral _ 48 (by omega)
    unfold parseIPv4Loop
    simp only [map_eq_nil_lower, hh, hs1, dtoi_lower, h48, ← List.map_drop, ih]

theorem parseIPv4_lower (s : Bytes) : parseIPv4 (s.map lowerByte) = parseIPv4 s :=
  parseIPv4Loop_lower 4 true s []

/-- The loop of `parseIPv6` on a lower-cased input: the same state, with the
rest of the input lower-cased. -/
theorem parseIPv6Loop_lower : ∀ (fuel : Nat) (s ip : Bytes) (ellipsis : Option Nat),
    parseIPv6Loop fuel (s.map lowerByte) ip ellipsis =
      (parseIPv6Loop fuel s ip ellipsis).map (fun st => (st.1, st.2.1, st.2.2.map lowerByte)) := by
  intro fuel
  induction fuel with
  | zero => intro s ip ellipsis; simp [parseIPv6Loop]
  | succ fuel ih =>
    intro s ip ellipsis
    have hget : (s.map lowerByte).get? (xtoi s).2.1 = some 46 ↔ s.get? (xtoi s).2.1 = some 46 := by
      rw [List.get?_eq_getElem?, List.get?_eq_getElem?, List.getElem?_map]
      cases s[(xtoi s).2.1]? with
      | none => simp
      | some c =>
        simp only [Option.map_some', Option.some.injEq]
        exact lowerByte_eq_neutral c 46 (by omega)
    have hhead : ((s.drop (xtoi s).2.1).map lowerByte).head? = some 58 ↔
        (s.drop (xtoi s).2.1).head? = some 58 := head?_lower_neutral _ 58 (by omega)
    have hhead2 : ((s.drop (xtoi s).2.1).tail.map lowerByte).head? = some 58 ↔
        (s.drop (xtoi s).2.1).tail.head? = some 58 := head?_lower_neutral _ 58 (by omega)
    unfold parseIPv6Loop
    by_cases h16 : ip.length ≥ 16
    · simp only [if_pos h16]; rfl
    · simp only [if_neg h16]
      simp only [xtoi_lower, List.length_map, hget, parseIPv4_lower, ← List.map_drop,
        ← List.map_tail, map_eq_nil_lower, ne_eq, hhead, hhead2, ih]
      by_cases hbad : (xtoi s).2.2 = false ∨ (xtoi s).1 > 0xFFFF
      · simp only [if_pos hbad]; rfl
      · simp only [if_neg hbad]
        by_cases hv4 : (xtoi s).2.1 < s.length ∧ s.get? (xtoi s).2.1 = some 46
        · simp only [if_pos hv4]
          by_cases ha : ellipsis = none ∧ ip.length ≠ 12
          · simp only [if_pos ha]; rfl
          · simp only [if_neg ha]
            by_cases hb : ip.length + 4 > 16
            · simp only [if_pos hb]; rfl
            · simp only [if_neg hb]
              cases parseIPv4 s <;> rfl
        · simp only [if_neg hv4]
          by_cases hend : s.drop (xtoi s).2.1 = []
          · simp only [if_pos hend]; rfl
          · simp only [if_neg hend]
            by_cases hcol : ¬ (s.drop (xtoi s).2.1).head? = some 58 ∨ (s.drop (xtoi s).2.1).length = 1
            · simp only [if_pos hcol]; rfl
            · simp only [if_neg hcol]
              by_cases hcc : (s.drop (xtoi s).2.1).tail.head? = some 58
              · simp only [if_pos hcc]
                by_cases hel : ellipsis.isSome = true
                · simp only [if_pos hel]; rfl
                · simp only [if_neg hel]
                  by_cases he : (s.drop (xtoi s).2.1).tail.tail = []
                  · simp only [if_pos he]; rfl
                  · simp only [if_neg he]
              · simp only [if_neg hcc]

theorem finishIPv6_lower (ip : Bytes) (e : Option Nat) (s : Bytes) :
    finishIPv6 (ip, e, s.map lowerByte) = finishIPv6 (ip, e, s) := by
  simp only [finishIPv6, ne_eq, map_eq_nil_lower]

theorem parseIPv6Loop_finish_lower (fuel : Nat) (s ip : Bytes) (ellipsis : Option Nat) :
    (parseIPv6Loop fuel (s.map lowerByte) ip ellipsis).bind finishIPv6 =
      (parseIPv6Loop fuel s ip ellipsis).bind finishIPv6 := by
  rw [parseIPv6Loop_lower]
  cases parseIPv6Loop fuel s ip ellipsis with
  | none => rfl
  | some st =>
    obtain ⟨ip1, e1, s1⟩ := st
    exact finishIPv6_lower ip1 e1 s1

theorem parseIPv6_lower (s : Bytes) : parseIPv6 (s.map lowerByte) = parseIPv6 s := by
  have h1 : (s.map lowerByte).head? = some 58 ↔ s.head? = some 58 :=
    head?_lower_neutral s 58 (by omega)
  have h2 : (s.tail.map lowerByte).head? = some 58 ↔ s.tail.head? = some 58 :=
    head?_lower_neutral _ 58 (by omega)
  unfold parseIPv6
  simp only [List.length_map, h1, ← List.map_tail, h2, map_eq_nil_lower,
    parseIPv6Loop_finish_lower]

theorem parseIPScan_lower (whole : Bytes) (t : Bytes) :
    parseIPScan (whole.map lowerByte) (t.map lowerByte) = parseIPScan whole t := by
  induction t with
  | nil => rfl
  | cons c rest ih =>
    simp only [List.map_cons, parseIPScan, lowerByte_eq_neutral c 46 (by omega),
      lowerByte_eq_neutral c 58 (by omega), parseIPv4_lower, parseIPv6_lower, ih]

/-- The function `net.ParseIP` does not see the case of ASCII letters. -/
theorem ParseIP_lower (s : Bytes) : ParseIP (s.map lowerByte) = ParseIP s :=
  parseIPScan_lower s s


/-! ## Case-insensitivity of the allowed hosts -/

/-- One step of `setAllowedHosts` does not see the case of the entry, when
`net.ParseIP` does not see it. -/
theorem addAllowedHost_lower (lib : Lib)
    (hparse : ∀ x, lib.parseIP (x.map lowerByte) = lib.parseIP x) (a : AllowedHosts) (h : Bytes) :
    addAllowedHost lib a (h.map lowerByte) = addAllowedHost lib a h := by
  have hs1 : ascii "*" = [42] := by decide
  have hc : stringsContains (h.map lowerByte) [42] = stringsContains h [42] := by
    rw [stringsContains_single, stringsContains_single]
    exact decide_eq_decide.mpr (mem_lower_neutral h 42 (by omega))
  have h91 := head?_lower_neutral h 91 (by omega)
  have h93 := getLast?_lower_neutral h 93 (by omega)
  unfold addAllowedHost
  simp only [hs1, hc, stringsToLower_lower, List.length_map, h91, h93, ← List.map_drop,
    ← List.map_take, hparse]

theorem addAllowedHost_variant (lib : Lib)
    (hparse : ∀ x, lib.parseIP (x.map lowerByte) = lib.parseIP x) (a : AllowedHosts)
    (e e1 : Bytes) (h : CaseVariant e e1) :
    addAllowedHost lib a e = addAllowedHost lib a e1 := by
  rw [← addAllowedHost_lower lib hparse a e, ← addAllowedHost_lower lib hparse a e1, h]

theorem foldl_addAllowedHost_variant (lib : Lib)
    (hparse : ∀ x, lib.parseIP (x.map lowerByte) = lib.parseIP x) (L L1 : List Bytes)
    (hL : List.Forall₂ CaseVariant L L1) :
    ∀ a : AllowedHosts, L.foldl (addAllowedHost lib) a = L1.foldl (addAllowedHost lib) a := by
  induction hL with
  | nil => intro a; rfl
  | cons he _ ih =>
    intro a
    rw [List.foldl_cons, List.foldl_cons, addAllowedHost_variant lib hparse a _ _ he]
    exact ih _

/-- The tables that `setAllowedHosts` builds from two lists whose entries are
case variants of each other are the same. -/
theorem setAllowedHosts_variant (lib : Lib)
    (hparse : ∀ x, lib.parseIP (x.map lowerByte) = lib.parseIP x) (L L1 : List Bytes)
    (hL : List.Forall₂ CaseVariant L L1) : setAllowedHosts lib L = setAllowedHosts lib L1 :=
  foldl_addAllowedHost_variant lib hparse L L1 hL _

theorem allowsHost_variant (lib : Lib) (a : AllowedHosts) (h h1 : Bytes)
    (hh : CaseVariant h h1) : allowsHost lib a h = allowsHost lib a h1 := by
  unfold allowsHost
  rw [stringsToLower_variant lib.lowerTable h h1 hh]

/-- A wildcard entry is stored in its lower-case form. -/
theorem addAllowedHost_wildcard (lib : Lib) (a : AllowedHosts) (e : Bytes) (h : 42 ∈ e) :
    addAllowedHost lib a e =
      { a with wildcards := a.wildcards ++ [stringsToLower lib.lowerTable e] } := by
  have hs1 : ascii "*" = [42] := by decide
  have hc : stringsContains e [42] = true := by
    rw [stringsContains_single]
    exact decide_eq_true h
  unfold addAllowedHost
  rw [hs1, if_pos hc]

/-- An entry with no `*` that is not of the bracketed form is stored in the
table in its lower-case form. -/
theorem addAllowedHost_hostname (lib : Lib) (a : AllowedHosts) (e : Bytes) (h : 42 ∉ e)
    (hb : ¬ Bracketed e) :
    addAllowedHost lib a e =
      { a with table := tableInsert a.table (stringsToLower lib.lowerTable e) } := by
  have hs1 : ascii "*" = [42] := by decide
  have hc : ¬ stringsContains e [42] = true := by
    rw [stringsContains_single]
    simpa using h
  have hb1 : ¬ (e.length > 5 ∧ e.head? = some 91 ∧ e.getLast? = some 93) := hb
  unfold addAllowedHost
  rw [hs1, if_neg hc, if_neg hb1]

theorem addAllowedHost_entryVariant (lib : Lib)
    (hparse : ∀ x, lib.parseIP (x.map lowerByte) = lib.parseIP x) (a : AllowedHosts)
    (e e1 : Bytes) (h : EntryVariant lib.lowerTable e e1) :
    addAllowedHost lib a e = addAllowedHost lib a e1 := by
  rcases h with h | ⟨hlow, ⟨h1, h2⟩ | ⟨h1, hb1, h2, hb2⟩⟩
  · exact addAllowedHost_variant lib hparse a e e1 h
  · rw [addAllowedHost_wildcard lib a e h1, addAllowedHost_wildcard lib a e1 h2, hlow]
  · rw [addAllowedHost_hostname lib a e h1 hb1, addAllowedHost_hostname lib a e1 h2 hb2, hlow]

theorem foldl_addAllowedHost_entryVariant (lib : Lib)
    (hparse : ∀ x, lib.parseIP (x.map lowerByte) = lib.parseIP x) (L L1 : List Bytes)
    (hL : List.Forall₂ (EntryVariant lib.lowerTable) L L1) :
    ∀ a : AllowedHosts, L.foldl (addAllowedHost lib) a = L1.foldl (addAllowedHost lib) a := by
  induction hL with
  | nil => intro a; rfl
  | cons he _ ih =>
    intro a
    rw [List.foldl_cons, List.foldl_cons, addAllowedHost_entryVariant lib hparse a _ _ he]
    exact ih _

/-- The function `allowsHost` sees the host only through `strings.ToLower`. -/
theorem allowsHost_sameLower (lib : Lib) (a : AllowedHosts) (h h1 : Bytes)
    (hh : HostVariant lib.lowerTable h h1) : allowsHost lib a h = allowsHost lib a h1 := by
  have hl : stringsToLower lib.lowerTable h = stringsToLower lib.lowerTable h1 := by
    rcases hh with hh | hh
    · exact stringsToLower_variant lib.lowerTable h h1 hh
    · exact hh
  unfold allowsHost
  rw [hl]

/-- C11, the claim at a concrete entry: with the lower-case table of Go the
entry `[KK1]` written with two Kelvin signs and the entry `[kk1]` have the same
lower-case form, so they are case variants of each other; the first has nine
bytes, is taken for an IP literal that does not parse and is stored nowhere, the
second has five bytes and is stored as a host name, so the host `[kk1]` is
allowed under the one list and not under the other. -/
theorem kelvin_entry_is_case_sensitive :
    stringsToLower sampleLower kelvinEntry = ascii "[kk1]" ∧
    stringsToLower sampleLower (ascii "[kk1]") = ascii "[kk1]" ∧
    kelvinEntry.length = 9 ∧
    setAllowedHosts (goLib id sampleLower) [kelvinEntry] = { table := [], wildcards := [] } ∧
    allowsHost (goLib id sampleLower) (setAllowedHosts (goLib id sampleLower) [kelvinEntry])
      (ascii "[kk1]") = false ∧
    allowsHost (goLib id sampleLower) (setAllowedHosts (goLib id sampleLower) [ascii "[kk1]"])
      (ascii "[kk1]") = true := by
  refine ⟨by decide, by decide, by decide, by decide, by decide, by decide⟩

/-- C11 as amended: `allowsHost` after `setAllowedHosts` does not change when the
host is replaced by a case variant of it (a string that differs in the case of
ASCII letters, or any string with the same lower-case form under
`strings.ToLower`), and when entries of the list are replaced by case variants
of them that differ in the case of ASCII letters only or that have the same
lower-case form where the entry and its variant are both wildcard entries or
both host names. -/
theorem allowsHost_case_insensitive (u l : Nat → Nat) (L L1 : List Bytes) (h h1 : Bytes)
    (hL : List.Forall₂ (EntryVariant l) L L1) (hh : HostVariant l h h1) :
    allowsHost (goLib u l) (setAllowedHosts (goLib u l) L1) h1 =
      allowsHost (goLib u l) (setAllowedHosts (goLib u l) L) h := by
  have hset : setAllowedHosts (goLib u l) L = setAllowedHosts (goLib u l) L1 :=
    foldl_addAllowedHost_entryVariant (goLib u l) ParseIP_lower L L1 hL _
  rw [hset]
  exact (allowsHost_sameLower (goLib u l) _ h h1 hh).symm

/-- Witness of C11: a host name, a wildcard and an IP literal in two ASCII
spellings, and the host name `É.com` with its lower case `é.com`. -/
theorem allowsHost_case_insensitive_witness :
    List.Forall₂ (EntryVariant sampleLower)
        [ascii "example.com", ascii "*.Example.org", ascii "[2001:DB8::1]",
          [0xC3, 0x89] ++ ascii ".com"]
        [ascii "EXAMPLE.com", ascii "*.example.ORG", ascii "[2001:db8::1]",
          [0xC3, 0xA9] ++ ascii ".com"] ∧
    HostVariant sampleLower ([0xC3, 0x89] ++ ascii ".COM") ([0xC3, 0xA9] ++ ascii ".com") ∧
    allowsHost (goLib id sampleLower) (setAllowedHosts (goLib id sampleLower)
        [ascii "EXAMPLE.com", ascii "*.example.ORG", ascii "[2001:db8::1]",
          [0xC3, 0xA9] ++ ascii ".com"])
        ([0xC3, 0xA9] ++ ascii ".com") =
      allowsHost (goLib id sampleLower) (setAllowedHosts (goLib id sampleLower)
        [ascii "example.com", ascii "*.Example.org", ascii "[2001:DB8::1]",
          [0xC3, 0x89] ++ ascii ".com"])
        ([0xC3, 0x89] ++ ascii ".COM") ∧
    allowsHost (goLib id sampleLower) (setAllowedHosts (goLib id sampleLower)
        [ascii "example.com", ascii "*.Example.org", ascii "[2001:DB8::1]",
          [0xC3, 0x89] ++ ascii ".com"])
        ([0xC3, 0x89] ++ ascii ".COM") = true :=
  have hL : List.Forall₂ (EntryVariant sampleLower)
      [ascii "example.com", ascii "*.Example.org", ascii "[2001:DB8::1]",
        [0xC3, 0x89] ++ ascii ".com"]
      [ascii "EXAMPLE.com", ascii "*.example.ORG", ascii "[2001:db8::1]",
        [0xC3, 0xA9] ++ ascii ".com"] :=
    List.Forall₂.cons (Or.inl (by decide)) (List.Forall₂.cons (Or.inl (by decide))
      (List.Forall₂.cons (Or.inl (by decide))
        (List.Forall₂.cons
          (Or.inr ⟨by decide, Or.inr ⟨by decide, by decide, by decide, by decide⟩⟩)
          List.Forall₂.nil)))
  have hh : HostVariant sampleLower ([0xC3, 0x89] ++ ascii ".COM")
      ([0xC3, 0xA9] ++ ascii ".com") := Or.inr (by decide)
  ⟨hL, hh, allowsHost_case_insensitive id sampleLower _ _ _ _ hL hh, by decide⟩


/-! ## The verbs are prefix-free -/

/-- No verb is the head of another verb. -/
theorem verbs_prefix_free : ∀ u ∈ verbs, ∀ v ∈ verbs, u <+: v → u = v := by
  decide

/-- At most one verb matches a byte string at offset 0. -/
theorem cmdMatch_unique (inp u v : Bytes) (hu : u ∈ verbs) (hv : v ∈ verbs)
    (h1 : cmdMatch u inp = true) (h2 : cmdMatch v inp = true) : u = v := by
  rw [cmdMatch_iff] at h1 h2
  rcases Nat.le_total u.length v.length with hl | hl
  · exact verbs_prefix_free u hu v hv (List.prefix_of_prefix_length_le h1 h2 hl)
  · exact (verbs_prefix_free v hv u hu (List.prefix_of_prefix_length_le h2 h1 hl)).symm

/-- The condition of a case holds only when the verb of the case matches. -/
theorem caseCond_match (sc : ServerConfig) (cmd : Bytes) (b : Branch)
    (h : caseCond sc cmd b = true) : ∃ u, verbOf b = some u ∧ u ∈ verbs ∧ cmdMatch u cmd = true := by
  cases b <;> simp only [caseCond, Bool.and_eq_true, Bool.false_eq_true] at h
  · exact ⟨cmdHELO, rfl, by decide, h⟩
  · exact ⟨cmdEHLO, rfl, by decide, h⟩
  · exact ⟨cmdHELP, rfl, by decide, h⟩
  · exact ⟨cmdXCLIENT, rfl, by decide, h.2⟩
  · exact ⟨cmdAUTH, rfl, by decide, h⟩
  · exact ⟨cmdMAIL, rfl, by decide, h⟩
  · exact ⟨cmdRCPT, rfl, by decide, h⟩
  · exact ⟨cmdRSET, rfl, by decide, h⟩
  · exact ⟨cmdVRFY, rfl, by decide, h⟩
  · exact ⟨cmdNOOP, rfl, by decide, h⟩
  · exact ⟨cmdASTERISK, rfl, by decide, h⟩
  · exact ⟨cmdQUIT, rfl, by decide, h⟩
  · exact ⟨cmdDATA, rfl, by decide, h⟩
  · exact ⟨cmdSTARTTLS, rfl, by decide, h.2⟩

theorem verbOf_injective : ∀ a b : Branch, ∀ u, verbOf a = some u → verbOf b = some u → a = b := by
  intro a b u ha hb
  cases a <;> cases b <;> first | rfl | (exfalso; rw [← ha] at hb; revert hb; decide)

/-- The conditions of two different cases never hold together. -/
theorem caseCond_unique (sc : ServerConfig) (cmd : Bytes) (a b : Branch)
    (ha : caseCond sc cmd a = true) (hb : caseCond sc cmd b = true) : a = b := by
  obtain ⟨u, hu1, hu2, hu3⟩ := caseCond_match sc cmd a ha
  obtain ⟨v, hv1, hv2, hv3⟩ := caseCond_match sc cmd b hb
  have huv := cmdMatch_unique cmd u v hu2 hv2 hu3 hv3
  subst huv
  exact verbOf_injective a b u hu1 hv1

/-- The command switch of `handleClient` is the switch over the cases in source
order. -/
theorem dispatch_eq_switchOn (sc : ServerConfig) (cmd : Bytes) :
    dispatch sc cmd = switchOn sc cmd sourceCases := by
  unfold dispatch switchOn sourceCases
  simp only [List.find?, caseCond]
  cases cmdMatch cmdHELO cmd
  swap
  · rfl
  cases cmdMatch cmdEHLO cmd
  swap
  · rfl
  cases cmdMatch cmdHELP cmd
  swap
  · rfl
  cases (sc.xclientOn && cmdMatch cmdXCLIENT cmd)
  swap
  · rfl
  cases cmdMatch cmdAUTH cmd
  swap
  · rfl
  cases cmdMatch cmdMAIL cmd
  swap
  · rfl
  cases cmdMatch cmdRCPT cmd
  swap
  · rfl
  cases cmdMatch cmdRSET cmd
  swap
  · rfl
  cases cmdMatch cmdVRFY cmd
  swap
  · rfl
  cases cmdMatch cmdNOOP cmd
  swap
  · rfl
  cases cmdMatch cmdASTERISK cmd
  swap
  · rfl
  cases cmdMatch cmdQUIT cmd
  swap
  · rfl
  cases cmdMatch cmdDATA cmd
  swap
  · rfl
  cases (sc.startTLSOn && cmdMatch cmdSTARTTLS cmd)
  swap
  · rfl
  rfl

/-- Where the conditions of the cases exclude each other, the first case that
holds is the same in every order of the cases. -/
theorem find?_perm_of_unique {α : Type} (p : α → Bool) (l1 l2 : List α) (hp : l1.Perm l2)
    (hu : ∀ a ∈ l1, ∀ b ∈ l1, p a = true → p b = true → a = b) :
    l1.find? p = l2.find? p := by
  cases h1 : l1.find? p with
  | none =>
    rw [List.find?_eq_none] at h1
    symm
    rw [List.find?_eq_none]
    intro x hx
    exact h1 x (hp.mem_iff.mpr hx)
  | some a =>
    have ha := List.find?_some h1
    have hm := List.mem_of_find?_eq_some h1
    cases h2 : l2.find? p with
    | none =>
      rw [List.find?_eq_none] at h2
      exact absurd ha (h2 a (hp.mem_iff.mp hm))
    | some b =>
      have hb := List.find?_some h2
      have hmb := hp.mem_iff.mpr (List.mem_of_find?_eq_some h2)
      rw [hu a hm b hmb ha hb]

/-- C24: the fourteen verbs are prefix-free, so at most one of them matches a
byte string at offset 0; the command switch of `handleClient` is the switch over
its cases in source order, and the switch over the same cases in any other order
selects the same case. -/
theorem verbs_prefix_free_switch (sc : ServerConfig) (cmd : Bytes) :
    verbs.length = 14 ∧
    (∀ u ∈ verbs, ∀ v ∈ verbs, u <+: v → u = v) ∧
    (∀ u ∈ verbs, ∀ v ∈ verbs, cmdMatch u cmd = true → cmdMatch v cmd = true → u = v) ∧
    dispatch sc cmd = switchOn sc cmd sourceCases ∧
    (∀ cases : List Branch, cases.Perm sourceCases → switchOn sc cmd cases = dispatch sc cmd) := by
  refine ⟨rfl, verbs_prefix_free, ?_, dispatch_eq_switchOn sc cmd, ?_⟩
  · intro u hu v hv h1 h2
    exact cmdMatch_unique cmd u v hu hv h1 h2
  · intro cases hperm
    rw [dispatch_eq_switchOn]
    unfold switchOn
    rw [find?_perm_of_unique (caseCond sc cmd) cases sourceCases hperm
      (fun a _ b _ ha hb => caseCond_unique sc cmd a b ha hb)]

/-- Witness of C24: on the line `RSET` the switch with its cases in the reverse
order selects the case that `handleClient` selects. -/
theorem verbs_prefix_free_switch_witness :
    sourceCases.reverse.Perm sourceCases ∧
    switchOn sampleConfig (ascii "RSET") sourceCases.reverse = dispatch sampleConfig (ascii "RSET") ∧
    dispatch sampleConfig (ascii "RSET") = .rset :=
  ⟨List.reverse_perm sourceCases,
    (verbs_prefix_free_switch sampleConfig (ascii "RSET")).2.2.2.2 sourceCases.reverse
      (List.reverse_perm sourceCases),
    by decide⟩

/-- A case whose condition holds is the case that the command switch selects. -/
theorem dispatch_of_caseCond (sc : ServerConfig) (cmd : Bytes) (b : Branch)
    (hb : b ∈ sourceCases) (h : caseCond sc cmd b = true) : dispatch sc cmd = b := by
  rw [dispatch_eq_switchOn]
  unfold switchOn
  cases hf : sourceCases.find? (caseCond sc cmd) with
  | none =>
    rw [List.find?_eq_none] at hf
    exact absurd h (hf b hb)
  | some a =>
    exact caseCond_unique sc cmd a b (List.find?_some hf) h

/-! ## The length of a line that matches a verb -/

/-- The encoding of a rune is one ASCII byte or starts with a byte above ASCII. -/
theorem encodeRune_head (r : Nat) :
    encodeRune r = [r] ∧ r ≤ 0x7F ∨ ∃ b t, encodeRune r = b :: t ∧ 0x80 ≤ b := by
  unfold encodeRune
  by_cases h1 : r ≤ 0x7F
  · left; rw [if_pos h1]; exact ⟨rfl, h1⟩
  · right
    rw [if_neg h1]
    by_cases h2 : r ≤ 0x7FF
    · rw [if_pos h2]; exact ⟨_, _, rfl, by omega⟩
    · rw [if_neg h2]
      by_cases h3 : r > 0x10FFFF ∨ (0xD800 ≤ r ∧ r ≤ 0xDFFF)
      · rw [if_pos h3]; exact ⟨_, _, rfl, by omega⟩
      · rw [if_neg h3]
        by_cases h4 : r ≤ 0xFFFF
        · rw [if_pos h4]; exact ⟨_, _, rfl, by omega⟩
        · rw [if_neg h4]; exact ⟨_, _, rfl, by omega⟩

/-- ASCII bytes at the head of the output of `bytes.Map` come from as many runes
of the input, so the input is at least as long. -/
theorem mapRunes_ascii_prefix_length (f : Nat → Nat) (s : Bytes) :
    ∀ (k : Nat) (V : Bytes), (∀ c ∈ V, c < 0x80) → V <+: mapRunes f s k →
      V.length ≤ s.length := by
  induction s with
  | nil =>
    intro k V _ hp
    simp only [mapRunes, List.prefix_nil] at hp
    rw [hp]
  | cons b rest ih =>
    intro k V hV hp
    cases k with
    | succ k =>
      simp only [mapRunes] at hp
      exact Nat.le_succ_of_le (ih k V hV hp)
    | zero =>
      cases V with
      | nil => exact Nat.zero_le _
      | cons v V1 =>
        simp only [mapRunes] at hp
        have hv : v < 0x80 := hV v (List.mem_cons_self v V1)
        have hV1 : ∀ c ∈ V1, c < 0x80 := fun c hc => hV c (List.mem_cons_of_mem v hc)
        rcases encodeRune_head (f (if b ≥ 0x80 then decodeRune (b :: rest) else (b, 1)).1) with
          ⟨he, _⟩ | ⟨e, t, he, hge⟩
        · rw [he, List.singleton_append, List.cons_prefix_cons] at hp
          have := ih _ V1 hV1 hp.2
          simp only [List.length_cons]
          omega
        · rw [he, List.cons_append, List.cons_prefix_cons] at hp
          omega

theorem bytesToUpper_ascii_prefix_length (tbl : Nat → Nat) (s V : Bytes)
    (hV : ∀ c ∈ V, c < 0x80) (hp : V <+: bytesToUpper tbl s) : V.length ≤ s.length := by
  unfold bytesToUpper at hp
  split at hp
  · split at hp
    · have := hp.length_le
      rwa [List.length_map] at this
    · exact hp.length_le
  · exact mapRunes_ascii_prefix_length _ s 0 V hV hp

/-- A line whose command matches a verb is at least as long as the verb. -/
theorem matched_line_length (lib : Lib) (input V : Bytes) (hV : ∀ c ∈ V, c < 0x80)
    (h : cmdMatch V (commandOf lib input) = true) : V.length ≤ input.length := by
  rw [cmdMatch_iff] at h
  unfold commandOf at h
  have := bytesToUpper_ascii_prefix_length _ _ V hV h
  rw [List.length_take] at this
  omega

/-- The slices of the cases `HELO`, `EHLO`, `MAIL FROM:` and `RCPT TO:` are
within the line whenever the command matches the verb; the slice of the case
`XCLIENT` is outside the line exactly when the line has seven bytes. -/
theorem verb_slices (lib : Lib) (input : Bytes) :
    (∀ v ∈ [cmdHELO, cmdEHLO, cmdMAIL, cmdRCPT], cmdMatch v (commandOf lib input) = true →
      sliceFrom input v.length = some (input.drop v.length)) ∧
    (cmdMatch cmdXCLIENT (commandOf lib input) = true →
      (sliceFrom input 8 = none ↔ input.length = 7)) := by
  constructor
  · intro v hv hm
    have htab : ∀ u ∈ [cmdHELO, cmdEHLO, cmdMAIL, cmdRCPT], ∀ c ∈ u, c < 0x80 := by decide
    have hasc := htab v hv
    have := matched_line_length lib input v hasc hm
    unfold sliceFrom
    rw [if_pos this]
  · intro hm
    have := matched_line_length lib input cmdXCLIENT (by decide) hm
    have h7 : cmdXCLIENT.length = 7 := rfl
    unfold sliceFrom
    constructor
    · intro h
      by_cases h8 : 8 ≤ input.length
      · rw [if_pos h8] at h; exact absurd h (by simp)
      · omega
    · intro h
      rw [if_neg (by omega)]


/-! ## The file store always gives a reason -/

/-- C26: `FileAuthStore.Authenticate` never returns `(false, nil)`: whatever the
file (or the failure to open or read it) and the credentials, the result is
`(true, nil)` or `(false, err)` with an error.  With this store the block that
checks the credentials therefore always sends a reply, `FailInvalidAuth` or
`SuccessAuthCmd`. -/
theorem file_store_never_silent (f : File) (username password : Bytes) (w : World)
    (sc : ServerConfig) (s : Session) :
    (FileAuthStore.Authenticate f username password = (true, none) ∨
      ∃ e, FileAuthStore.Authenticate f username password = (false, some e)) ∧
    FileAuthStore.Authenticate f username password ≠ (false, none) ∧
    ((checkCredentials { w with authenticate := FileAuthStore.Authenticate f } sc s
        username password).out = s.out ++ [[.canned .FailInvalidAuth]] ∨
      (checkCredentials { w with authenticate := FileAuthStore.Authenticate f } sc s
        username password).out = s.out ++ [[.canned .SuccessAuthCmd]]) := by
  have h1 : FileAuthStore.Authenticate f username password = (true, none) ∨
      ∃ e, FileAuthStore.Authenticate f username password = (false, some e) := by
    unfold FileAuthStore.Authenticate
    split
    · exact Or.inr ⟨_, rfl⟩
    · split
      · exact Or.inl rfl
      · exact Or.inr ⟨_, rfl⟩
  refine ⟨h1, ?_, ?_⟩
  · rcases h1 with h | ⟨e, h⟩ <;> rw [h] <;> simp
  · unfold checkCredentials
    by_cases ht : sc.authType ≠ .NoAuth
    · rw [if_pos ht]
      rcases h1 with h | ⟨e, h⟩
      · right
        simp only [h]
        rfl
      · left
        simp only [h]
        rfl
    · rw [if_neg ht]
      right
      rfl

/-! ## Syntax errors of `HELO` and `EHLO` -/

/-- C25, what the code does: for a `HELO` line and an `EHLO` line whose argument
the parser rejects, the case `cmdHELO` sends one `FailSyntaxError` reply and the
case `cmdEHLO` sends two; both leave `Helo`, the ESMTP flag, the envelope and
everything else of the session as they were. -/
theorem helo_ehlo_syntax_error (w : World) (sc : ServerConfig) (s : Session)
    (lineH lineE : Bytes)
    (hH : cmdMatch cmdHELO (commandOf w.lib lineH) = true)
    (hE : cmdMatch cmdEHLO (commandOf w.lib lineE) = true)
    (hRejH : w.parserHelo (lineH.drop 4) = none)
    (hRejE : w.parserEhlo (lineE.drop 4) = none) :
    execCmd w sc s lineH = some (sendResponse s [.canned .FailSyntaxError]) ∧
    execCmd w sc s lineE =
      some (sendResponse (sendResponse s [.canned .FailSyntaxError]) [.canned .FailSyntaxError]) ∧
    (sendResponse s [.canned .FailSyntaxError]).out = s.out ++ [[.canned .FailSyntaxError]] ∧
    (sendResponse (sendResponse s [.canned .FailSyntaxError]) [.canned .FailSyntaxError]).out =
      s.out ++ [[.canned .FailSyntaxError], [.canned .FailSyntaxError]] := by
  have hsH := (verb_slices w.lib lineH).1 cmdHELO (by decide) hH
  have hsE := (verb_slices w.lib lineE).1 cmdEHLO (by decide) hE
  have h4 : cmdHELO.length = 4 := rfl
  have h4e : cmdEHLO.length = 4 := rfl
  rw [h4] at hsH
  rw [h4e] at hsE
  refine ⟨?_, ?_, rfl, ?_⟩
  · unfold execCmd
    rw [dispatch_of_caseCond sc _ .helo (by decide) hH]
    simp only [execBranch, doHelo, hsH, Option.map_some', hRejH]
  · unfold execCmd
    rw [dispatch_of_caseCond sc _ .ehlo (by decide) hE]
    simp only [execBranch, doEhlo, hsE, Option.map_some', hRejE]
  · simp [sendResponse]

/-- Witness of C25: the lines `HELO ?` and `EHLO ?` with a parser that rejects
every argument. -/
theorem helo_ehlo_syntax_error_witness :
    (execCmd (withStrictParser (sampleWorld sampleFile [])) sampleConfig greetedSession
        (ascii "HELO ?")).map (fun s => s.out.length) = some 2 ∧
    (execCmd (withStrictParser (sampleWorld sampleFile [])) sampleConfig greetedSession
        (ascii "EHLO ?")).map (fun s => s.out.length) = some 3 :=
  have h := helo_ehlo_syntax_error (withStrictParser (sampleWorld sampleFile [])) sampleConfig
    greetedSession (ascii "HELO ?") (ascii "EHLO ?") (by decide) (by decide) rfl rfl
  ⟨by rw [h.1]; rfl, by rw [h.2.1]; rfl⟩


/-! ## What `RCPT TO` does to the recipients -/

theorem PopRcpt_PushRcpt (s : Session) (a : Address) : PopRcpt (PushRcpt s a) = s := by
  simp [PopRcpt, PushRcpt, List.dropLast_concat]

/-- C21: a line that matches `RCPT TO:` is answered with one reply, whatever the
parser, the allowed-host check and `backend.ValidateRcpt` answer; when the reply
is not `SuccessRcptCmd` (250) the session is as before the command but for the
reply, so `RcptTo` is the list it was (also after the push and the pop on a
backend error), and when the reply is `SuccessRcptCmd` the address `to`, which
is the parsed address after `defaultHost`, has been appended to `RcptTo`. -/
theorem rcpt_to_frame (w : World) (sc : ServerConfig) (s : Session) (input : Bytes)
    (hRcpt : cmdMatch cmdRCPT (commandOf w.lib input) = true) :
    ∃ s1 reply, execCmd w sc s input = some s1 ∧ s1.out = s.out ++ [reply] ∧
      ((reply ≠ [.canned .SuccessRcptCmd] ∧ s1 = sendResponse s reply ∧
          s1.env.rcptTo = s.env.rcptTo) ∨
        (reply = [.canned .SuccessRcptCmd] ∧
          s1 = sendResponse (PushRcpt s (defaultHost w (w.parseRcptTo (input.drop 8)).addr)) reply ∧
          s1.env.rcptTo =
            s.env.rcptTo ++ [defaultHost w (w.parseRcptTo (input.drop 8)).addr])) := by
  have hs := (verb_slices w.lib input).1 cmdRCPT (by decide) hRcpt
  have h8 : cmdRCPT.length = 8 := rfl
  rw [h8] at hs
  unfold execCmd
  rw [dispatch_of_caseCond sc _ .rcpt (by decide) hRcpt]
  simp only [execBranch, doRcpt, hs, Option.map_some']
  by_cases hlim : s.env.rcptTo.length > LimitRecipients
  · rw [if_pos hlim]
    exact ⟨_, _, rfl, rfl, Or.inl ⟨by decide, rfl, rfl⟩⟩
  · rw [if_neg hlim]
    cases herr : (w.parseRcptTo (input.drop 8)).err with
    | some e =>
      exact ⟨_, _, rfl, rfl, Or.inl ⟨by simp, rfl, rfl⟩⟩
    | none =>
      simp only []
      by_cases hrel : relayDenied w (defaultHost w (w.parseRcptTo (input.drop 8)).addr) = true
      · rw [if_pos hrel]
        exact ⟨_, _, rfl, rfl, Or.inl ⟨by simp, rfl, rfl⟩⟩
      · rw [if_neg hrel]
        cases hval : w.validateRcpt
            (PushRcpt s (defaultHost w (w.parseRcptTo (input.drop 8)).addr)).env with
        | some e =>
          refine ⟨_, [.canned .FailRcptCmd, .text (ascii " "), .text e], rfl, ?_,
            Or.inl ⟨by simp, ?_, ?_⟩⟩
          · rw [PopRcpt_PushRcpt]; rfl
          · rw [PopRcpt_PushRcpt]
          · rw [PopRcpt_PushRcpt]; rfl
        | none =>
          exact ⟨_, _, rfl, rfl, Or.inr ⟨rfl, rfl, rfl⟩⟩

/-- Witness of C21: `RCPT TO:<x@example.com>` with an allowed host and a backend
that accepts. -/
theorem rcpt_to_frame_witness :
    ∃ s1 reply, execCmd (sampleWorld sampleFile []) sampleConfig greetedSession
        (ascii "RCPT TO:<x@example.com>") = some s1 ∧
      s1.out = greetedSession.out ++ [reply] ∧
      ((reply ≠ [.canned .SuccessRcptCmd] ∧ s1 = sendResponse greetedSession reply ∧
          s1.env.rcptTo = greetedSession.env.rcptTo) ∨
        (reply = [.canned .SuccessRcptCmd] ∧
          s1 = sendResponse (PushRcpt greetedSession (defaultHost (sampleWorld sampleFile [])
            ((sampleWorld sampleFile []).parseRcptTo
              ((ascii "RCPT TO:<x@example.com>").drop 8)).addr)) reply ∧
          s1.env.rcptTo = greetedSession.env.rcptTo ++
            [defaultHost (sampleWorld sampleFile [])
              ((sampleWorld sampleFile []).parseRcptTo
                ((ascii "RCPT TO:<x@example.com>").drop 8)).addr])) :=
  rcpt_to_frame (sampleWorld sampleFile []) sampleConfig greetedSession
    (ascii "RCPT TO:<x@example.com>") (by decide)

/-! ## Lines on which the slicing goes wrong -/

/-- C22, the code at the failing input: with `XClientOn` the line `XCLIENT`, in
either case, matches the verb and has seven bytes, the slice `input[8:]` is out
of range and the iteration panics, also as the second iteration of
`handleClient` on a new client; with a byte more (`XCLIENT` and a space) or with
`XClientOn` off the line is answered. -/
theorem bare_xclient_panics :
    cmdMatch cmdXCLIENT (commandOf sampleLib (ascii "XCLIENT")) = true ∧
    tick (sampleWorld sampleFile (ascii "XCLIENT")) xclientConfig greetedSession = .panicked ∧
    tick (sampleWorld sampleFile (ascii "xclient")) xclientConfig greetedSession = .panicked ∧
    handleClient xclientConfig (sampleWorld sampleFile [])
      [sampleWorld sampleFile [], sampleWorld sampleFile (ascii "XCLIENT")] (newClient []) =
        .panicked ∧
    (tick (sampleWorld sampleFile (ascii "XCLIENT ")) xclientConfig greetedSession).session.map
      (fun s => s.out.getLast?) = some (some [.canned .SuccessMailCmd]) ∧
    (tick (sampleWorld sampleFile (ascii "XCLIENT")) sampleConfig greetedSession).session.map
      (fun s => s.out.getLast?) = some (some [.canned .FailUnrecognizedCmd]) := by
  refine ⟨by decide, by decide, by decide, by decide, by decide, by decide⟩

/-- C23, the code at the failing input: `bytes.ToUpper` maps the two bytes of
U+0131 to the one byte `I`, so the command of the line `MAıL FROM:<a@b>` matches
`MAIL FROM:` although the first ten bytes of the line are not the verb in either
case; the ten bytes skipped leave `:<a@b>` for the parser. -/
theorem dotless_i_matches_mail :
    dotlessMailLine.length = 16 ∧
    commandOf unicodeLib dotlessMailLine = ascii "MAIL FROM:<A@B>" ∧
    cmdMatch cmdMAIL (commandOf unicodeLib dotlessMailLine) = true ∧
    (dotlessMailLine.take cmdMAIL.length).map upperByte ≠ cmdMAIL ∧
    sliceFrom dotlessMailLine 10 = some (ascii ":<a@b>") ∧
    execCmd { sampleWorld sampleFile [] with lib := unicodeLib } noAuthConfig greetedSession
        dotlessMailLine =
      some (sendResponse
        { greetedSession with env := { greetedSession.env with
            mailFrom := (samplePath (ascii ":<a@b>")).addr } }
        [.canned .SuccessMailCmd]) := by
  refine ⟨by decide, by decide, by decide, by decide, by decide, by decide⟩

/-- Where the first sixteen bytes of the line are ASCII, the bytes skipped as
the verb are the verb, up to the case of letters. -/
theorem verb_skipped_ascii (lib : Lib) (input V : Bytes)
    (hasc : ∀ c ∈ input.take CommandVerbMaxLength, c < 0x80)
    (h : cmdMatch V (commandOf lib input) = true) :
    (input.take V.length).map upperByte = V := by
  rw [cmdMatch_iff] at h
  unfold commandOf at h
  have hn : input.take (if input.length > CommandVerbMaxLength then CommandVerbMaxLength
      else input.length) = input.take CommandVerbMaxLength := by
    split
    · rfl
    · rw [List.take_of_length_le (Nat.le_refl _), List.take_of_length_le (by omega)]
  have hall : (input.take CommandVerbMaxLength).all (fun c => decide (c < 0x80)) = true := by
    rw [List.all_eq_true]
    intro c hc
    exact decide_eq_true (hasc c hc)
  simp only [hn] at h
  rw [bytesToUpper_ascii _ _ hall] at h
  have hlen := h.length_le
  rw [List.length_map, List.length_take] at hlen
  have hm : input.take V.length = (input.take CommandVerbMaxLength).take V.length := by
    rw [List.take_take]
    congr 1
    omega
  rw [hm, List.map_take]
  exact (List.prefix_iff_eq_take.mp h).symm


end Guerrilla
